import Mathlib

/-!
# GoVerbYourNoun: the action virtual machine of `main.go`

A shallow embedding of the interpreter's packed-record decoder, condition
evaluator, command executor, vocabulary matcher, turn dispatcher, saved games
and database loader, followed by theorems about them.

Conventions of the embedding.

* Go `int` is modelled by `Int`.  Go's `/` and `%` truncate toward zero, so
  they are `Int.tdiv` and `Int.tmod`.  Additions and subtractions whose
  operands are not bounded by the data are wrapped to 64 bits by `wrap64`.
* Go slices are `List`s.  An index expression `s[i]` is `index s i`, an
  assignment `s[i] = v` is `assign s i v`; both fail (run-time panic) when
  `i` is negative or not below the length.
* The package-level variables that are written only by the database loader
  are the fields of `Game`; the ones the interpreter mutates while it runs,
  together with the text written to standard output, are the fields of
  `World`.
* A call either returns (`Result.ok`), ends the process through `os.Exit`
  (`Result.exit`, carrying the world at that moment) or panics
  (`Result.panic`).  Writing to standard output is assumed to succeed, so the
  `log.Fatal(err)` branches after `fmt.Print` are not taken.
* Go strings are `String`s read as sequences of characters: `len`, slicing
  and the functions of package `strings` work character by character, and
  the case mappings change the letters `a`..`z` and `A`..`Z` only.  On ASCII
  text, which is what the databases use, this is what Go does byte by byte.
* Files are what the program reads from them: a saved game is the sequence
  of integers that the scanner of `loadGame` reads, one for each line, and a
  database is its text.  A file that cannot be opened is `none`.
-/

namespace GoVerbYourNoun

/-! ## Constants -/

def ACTION_COMMAND_OFFSET : Int := 6
def ACTION_ENTRIES : Int := 8
def ALTERNATE_COUNTERS : Int := 9
def ALTERNATE_ROOM_REGISTERS : Int := 6
def COMMAND_CODE_DIVISOR : Int := 150
def COMMANDS_IN_ACTION : Int := 4
def CONDITION_DIVISOR : Int := 20
def CONDITIONS : Int := 5
def COUNTER_TIME_LIMIT : Int := 8
def DIRECTION_NOUNS : Int := 6
def FALSE_VALUE : Int := 0
def FLAG_LAMP_EMPTY : Int := 16
def FLAG_NIGHT : Int := 15
def LIGHT_SOURCE_ID : Int := 9
def LIGHT_WARNING_THRESHOLD : Int := 25
def MESSAGE_1_END : Int := 51
def MESSAGE_2_START : Int := 102
def MINIMUM_COUNTER_VALUE : Int := -1
def PAR_CONDITION_CODE : Int := 0
def PERCENT_UNITS : Int := 100
def PRNG_PRIME : Int := 65537
def PRNG_PRM : Int := 75
def REALLY_BIG_NUMBER : Int := 32767
def ROOM_INVENTORY : Int := -1
def ROOM_STORE : Int := 0
def STATUS_FLAGS : Int := 32
def VALUES_IN_16_BITS : Int := 65536
def VERB_CARRY : Int := 10
def VERB_DROP : Int := 18
def VERB_GO : Int := 1

/-- The text of `directionNounText`. -/
def directionNounText : List String := ["NORTH", "SOUTH", "EAST", "WEST", "UP", "DOWN"]

/-! ## Machine integers and slices -/

/-- Two's-complement wrap-around of a 64-bit Go `int`. -/
def wrap64 (x : Int) : Int := (x + 2 ^ 63) % 2 ^ 64 - 2 ^ 63

/-- The slice read `s[i]`: `none` is the index-out-of-range panic. -/
def index {α : Type} (s : List α) (i : Int) : Option α :=
  if i < 0 then none else s[i.toNat]?

/-- The slice write `s[i] = v`: `none` is the index-out-of-range panic. -/
def assign {α : Type} (s : List α) (i : Int) (v : α) : Option (List α) :=
  if i < 0 then none else if i.toNat < s.length then some (s.set i.toNat v) else none

/-! ## Static tables and world state -/

/-- The package-level variables filled by `loadGameDataFile` and read-only
afterwards. -/
structure Game where
  actionData : List (List Int)
  actionDescription : List String
  adventureNumber : Int
  adventureVersion : Int
  listOfVerbsAndNouns : List (List String)
  maxObjectsCarried : Int
  message : List String
  numberOfRooms : Int
  numberOfTreasures : Int
  objectDescription : List String
  objectOriginalLocation : List Int
  roomDescription : List String
  roomExit : List (List Int)
  timeLimit : Int
  treasureRoomId : Int
  wordLength : Int
  deriving DecidableEq, Repr

/-- The package-level variables the interpreter mutates, the text printed so
far (`output`, one entry per print call), the integer sequences written by
`saveGame` (`saved`) and a log that is not a variable of the program:
`executed` lists the action ids whose commands `runActions` has run, in
order. -/
structure World where
  alternateCounter : List Int
  alternateRoom : List Int
  commandParameter : Int
  commandParameterIndex : Int
  contFlag : Bool
  counterRegister : Int
  currentRoom : Int
  objectLocation : List Int
  statusFlag : List Bool
  globalNoun : String
  prngState : Int
  output : List String
  saved : List (List Int)
  extractedInputWords : List String := []
  foundWord : List Int := []
  keyboardInput2 : String := ""
  executed : List Int := []
  deriving DecidableEq, Repr

/-- How a call ends: it returns a value, the process exits (`os.Exit`), or
the process panics. -/
inductive Result (α : Type) where
  | ok (a : α)
  | exit (w : World)
  | panic
  deriving DecidableEq, Repr

/-- Sequencing of calls: an exit or a panic ends the run. -/
def Result.bind {α β : Type} (r : Result α) (f : α → Result β) : Result β :=
  match r with
  | .ok a => f a
  | .exit w => .exit w
  | .panic => .panic

instance : Monad Result where
  pure := Result.ok
  bind := Result.bind

/-- A value that may be missing because of an index panic. -/
def orPanic {α : Type} : Option α → Result α
  | some a => .ok a
  | none => .panic

/-- The call `fmt.Print`/`fmt.Println`/`fmt.Printf` with the finished text. -/
def print (w : World) (text : String) : World :=
  { w with output := w.output ++ [text] }

/-! ## Action record codec -/

/-- Source `getActionVerb`. -/
def getActionVerb (g : Game) (actionId : Int) : Result Int := do
  let record ← orPanic (index g.actionData actionId)
  let header ← orPanic (index record 0)
  pure (header.tdiv COMMAND_CODE_DIVISOR)

/-- Source `getActionNoun`. -/
def getActionNoun (g : Game) (actionId : Int) : Result Int := do
  let record ← orPanic (index g.actionData actionId)
  let header ← orPanic (index record 0)
  pure (header.tmod COMMAND_CODE_DIVISOR)

/-- Source `getConditionCode`. -/
def getConditionCode (g : Game) (actionId : Int) (condition : Int) : Result Int := do
  let record ← orPanic (index g.actionData actionId)
  let conditionRaw ← orPanic (index record condition)
  let conditionCode := conditionRaw.tmod CONDITION_DIVISOR
  pure conditionCode

/-- Source `getConditionParameter`. -/
def getConditionParameter (g : Game) (actionId : Int) (condition : Int) : Result Int := do
  let record ← orPanic (index g.actionData actionId)
  let conditionRaw ← orPanic (index record condition)
  let conditionParameter := conditionRaw.tdiv CONDITION_DIVISOR
  pure conditionParameter

/-- Source `decodeCommandFromData`. -/
def decodeCommandFromData (g : Game) (commandNumber actionId : Int) : Result Int := do
  let mergedCommandIndex := commandNumber.tdiv 2 + ACTION_COMMAND_OFFSET
  let record ← orPanic (index g.actionData actionId)
  let stored ← orPanic (index record mergedCommandIndex)
  if commandNumber.tmod 2 ≠ 0 then
    pure (stored - stored.tdiv COMMAND_CODE_DIVISOR * COMMAND_CODE_DIVISOR)
  else
    pure (stored.tdiv COMMAND_CODE_DIVISOR)

/-- Source `getCommandParameter`, the body of its loop: `slots` are the
entries of `actionData[currentAction]` from `commandParameterIndex` on, so the
head of `slots` is `actionData[currentAction][commandParameterIndex]` and an
empty `slots` is the index-out-of-range panic. -/
def getCommandParameterLoop : List Int → World → Result World
  | [], _ => .panic
  | conditionLine :: slots, w =>
    let commandParameter := conditionLine.tdiv CONDITION_DIVISOR
    let conditionCode := conditionLine - commandParameter * CONDITION_DIVISOR
    let w := { w with commandParameter := commandParameter,
                      commandParameterIndex := w.commandParameterIndex + 1 }
    if conditionCode ≠ PAR_CONDITION_CODE then getCommandParameterLoop slots w else .ok w

/-- Source `getCommandParameter`: get command parameter from the condition
section. -/
def getCommandParameter (g : Game) (currentAction : Int) (w : World) : Result World := do
  let record ← orPanic (index g.actionData currentAction)
  if w.commandParameterIndex < 0 then .panic
  else getCommandParameterLoop (record.drop w.commandParameterIndex.toNat) w

/-! ## Condition evaluator -/

/-- The loop `for _, location := range objectLocation` that counts the
objects in the inventory (source: GETx, `handleCarryAndDropVerb`). -/
def countCarried (objectLocation : List Int) : Int :=
  objectLocation.foldl (fun carriedObjects location =>
    if location = ROOM_INVENTORY then carriedObjects + 1 else carriedObjects) 0

/-- The loop of conditions 10 and 11: is some object in the inventory? -/
def anyCarried : List Int → Bool
  | [] => false
  | location :: rest => if location = ROOM_INVENTORY then true else anyCarried rest

/-- Type of the entries of `conditionFunction`. -/
abbrev conditionFunc := Int → World → Result Bool

/-- Condition 0, Par. -/
def condPar : conditionFunc := fun _ _ => pure true

/-- Condition 1, HAS. -/
def condHAS : conditionFunc := fun parameter w => do
  let location ← orPanic (index w.objectLocation parameter)
  pure (decide (location = ROOM_INVENTORY))

/-- Condition 2, IN/W. -/
def condINW : conditionFunc := fun parameter w => do
  let location ← orPanic (index w.objectLocation parameter)
  pure (decide (location = w.currentRoom))

/-- Condition 3, AVL. -/
def condAVL : conditionFunc := fun parameter w => do
  let location ← orPanic (index w.objectLocation parameter)
  pure (decide (location = ROOM_INVENTORY) || decide (location = w.currentRoom))

/-- Condition 4, IN. -/
def condIN : conditionFunc := fun parameter w =>
  pure (decide (w.currentRoom = parameter))

/-- Condition 5, -IN/W. -/
def condNotINW : conditionFunc := fun parameter w => do
  let location ← orPanic (index w.objectLocation parameter)
  pure (decide (location ≠ w.currentRoom))

/-- Condition 6, -HAVE. -/
def condNotHAVE : conditionFunc := fun parameter w => do
  let location ← orPanic (index w.objectLocation parameter)
  pure (decide (location ≠ ROOM_INVENTORY))

/-- Condition 7, -IN. -/
def condNotIN : conditionFunc := fun parameter w =>
  pure (decide (w.currentRoom ≠ parameter))

/-- Condition 8, BIT. -/
def condBIT : conditionFunc := fun parameter w =>
  orPanic (index w.statusFlag parameter)

/-- Condition 9, -BIT. -/
def condNotBIT : conditionFunc := fun parameter w => do
  let flag ← orPanic (index w.statusFlag parameter)
  pure (!flag)

/-- Condition 10, ANY. -/
def condANY : conditionFunc := fun _ w =>
  pure (anyCarried w.objectLocation)

/-- Condition 11, -ANY. -/
def condNotANY : conditionFunc := fun _ w =>
  pure (!anyCarried w.objectLocation)

/-- Condition 12, -AVL. -/
def condNotAVL : conditionFunc := fun parameter w => do
  let location ← orPanic (index w.objectLocation parameter)
  pure (!(decide (location = ROOM_INVENTORY) || decide (location = w.currentRoom)))

/-- Condition 13, -RM0. -/
def condNotRM0 : conditionFunc := fun parameter w => do
  let location ← orPanic (index w.objectLocation parameter)
  pure (decide (location ≠ ROOM_STORE))

/-- Condition 14, RM0. -/
def condRM0 : conditionFunc := fun parameter w => do
  let location ← orPanic (index w.objectLocation parameter)
  pure (decide (location = ROOM_STORE))

/-- Condition 15, CT<=. -/
def condCTle : conditionFunc := fun parameter w =>
  pure (decide (w.counterRegister ≤ parameter))

/-- Condition 16, CT>. -/
def condCTgt : conditionFunc := fun parameter w =>
  pure (decide (w.counterRegister > parameter))

/-- Condition 17, ORIG: the source compares `objectLocation[parameter]` with
itself. -/
def condORIG : conditionFunc := fun parameter w => do
  let location ← orPanic (index w.objectLocation parameter)
  let location2 ← orPanic (index w.objectLocation parameter)
  pure (decide (location = location2))

/-- Condition 18, -ORIG: the source compares `objectLocation[parameter]` with
itself. -/
def condNotORIG : conditionFunc := fun parameter w => do
  let location ← orPanic (index w.objectLocation parameter)
  let location2 ← orPanic (index w.objectLocation parameter)
  pure (decide (location ≠ location2))

/-- Condition 19, CT=. -/
def condCTeq : conditionFunc := fun parameter w =>
  pure (decide (w.counterRegister = parameter))

/-- Source `conditionFunction`, in table order. -/
def conditionFunction : List conditionFunc :=
  [condPar, condHAS, condINW, condAVL, condIN, condNotINW, condNotHAVE, condNotIN,
   condBIT, condNotBIT, condANY, condNotANY, condNotAVL, condNotRM0, condRM0, condCTle,
   condCTgt, condORIG, condNotORIG, condCTeq]

/-- Source `evaluateConditions`, the loop `for condition <= CONDITIONS`:
`conditions` lists the values `condition` still has to take. -/
def evaluateConditionsLoop (g : Game) (actionId : Int) (w : World) : List Int → Result Bool
  | [] => pure true
  | condition :: conditions => do
    let conditionCode ← getConditionCode g actionId condition
    let conditionParameter ← getConditionParameter g actionId condition
    let predicate ← orPanic (index conditionFunction conditionCode)
    let condition_success ← predicate conditionParameter w
    if !condition_success then
      -- Stop evaluating conditions if false. One fails all.
      pure false
    else
      evaluateConditionsLoop g actionId w conditions

/-- Source `evaluateConditions`: `condition` runs from 1 to `CONDITIONS`. -/
def evaluateConditions (g : Game) (actionId : Int) (w : World) : Result Bool :=
  evaluateConditionsLoop g actionId w [1, 2, 3, 4, 5]

/-! ## Output helpers -/

/-- Go `strings.HasPrefix`. -/
def hasPrefix (s p : String) : Bool := p.data.isPrefixOf s.data

/-- Position of the last `/` before the end of the line, if any: where the
greedy `.*/` of the pattern `/.*/` ends (`.` does not match a newline). -/
def lastSlashInLine : List Char → Option Nat
  | [] => none
  | c :: cs =>
    if c = '\n' then none
    else match lastSlashInLine cs with
      | some k => some (k + 1)
      | none => if c = '/' then some 0 else none

/-- The call `regexp.MustCompile("/.*/").ReplaceAllString(text, "")`: `skip`
is the number of characters of the current match still to be dropped. -/
def removeSlashed : Nat → List Char → List Char
  | _, [] => []
  | skip + 1, _ :: cs => removeSlashed skip cs
  | 0, c :: cs =>
    if c = '/' then
      match lastSlashInLine cs with
      | some k => removeSlashed (k + 1) cs
      | none => c :: removeSlashed 0 cs
    else c :: removeSlashed 0 cs

/-- Source `stripNounFromObjectDescription`. -/
def stripNounFromObjectDescription (g : Game) (objectNumber : Int) : Result String := do
  let strippedText ← orPanic (index g.objectDescription objectNumber)
  pure (String.mk (removeSlashed 0 strippedText.data))

/-- Source `showRoomDescription`, the loop over `objectLocation`: `i` is the
index of the head of the remaining locations. -/
def showRoomObjects (g : Game) : List Int → Int → Bool → World → Result World
  | [], _, _, w => pure w
  | location :: rest, i, objectsFound, w =>
    if location = w.currentRoom then do
      let w := if !objectsFound then print w ". Visible items here: \n" else w
      let text ← stripNounFromObjectDescription g i
      showRoomObjects g rest (i + 1) true (print w (text ++ ". "))
    else showRoomObjects g rest (i + 1) objectsFound w

/-- Source `showRoomDescription`, the loop over `roomExit[currentRoom]`. -/
def showRoomExits : List Int → Int → Bool → World → Result World
  | [], _, _, w => pure w
  | exit :: rest, i, exitFound, w =>
    if exit ≠ 0 then do
      let w := if !exitFound then print w "Obvious exits: " else w
      let direction ← orPanic (index directionNounText i)
      showRoomExits rest (i + 1) true (print w (direction ++ " "))
    else showRoomExits rest (i + 1) exitFound w

/-- Source `showRoomDescription`, after the darkness test. -/
def showRoomLit (g : Game) (w : World) : Result World := do
  let description ← orPanic (index g.roomDescription w.currentRoom)
  let w :=
    if hasPrefix description "*" then print w (String.mk (description.data.drop 1) ++ "\n")
    else print w ("I'm in a " ++ description)
  let w ← showRoomObjects g w.objectLocation 0 false w
  let w := print w "\n"
  let exits ← orPanic (index g.roomExit w.currentRoom)
  let w ← showRoomExits exits 0 false w
  pure (print w "\n\n")

/-- Source `showRoomDescription`. -/
def showRoomDescription (g : Game) (w : World) : Result World := do
  let night ← orPanic (index w.statusFlag FLAG_NIGHT)
  if night != false then do
    let light ← orPanic (index w.objectLocation LIGHT_SOURCE_ID)
    if light ≠ ROOM_INVENTORY ∧ light ≠ w.currentRoom then
      pure (print w "I can't see: Its too dark.\n")
    else showRoomLit g w
  else showRoomLit g w

/-- Source `cls`. -/
def cls (w : World) : World := print w "\x1b[H\x1b[2J"

/-- Source `boolSliceToIntSlice`. -/
def boolSliceToIntSlice (boolSlice : List Bool) : List Int :=
  boolSlice.map (fun val => if val then 1 else 0)

/-- Source `saveGame`: the prompt, then the sequence `saveData` written one
integer per line.  The file name read from standard input and the failures of
the file system are left out: the written sequence is appended to `saved`. -/
def saveGame (g : Game) (w : World) : World :=
  let w := print w "Name of save file:\n"
  let saveData := [g.adventureVersion, g.adventureNumber, w.currentRoom]
  let saveData := saveData ++ w.alternateRoom
  let saveData := saveData ++ [w.counterRegister]
  let saveData := saveData ++ w.alternateCounter
  let saveData := saveData ++ w.objectLocation
  let statusFlagInt := boolSliceToIntSlice w.statusFlag
  let saveData := saveData ++ statusFlagInt
  { w with saved := w.saved ++ [saveData] }

/-! ## The rating of SCORE in float64 arithmetic

A positive finite float64 is written `m * 2 ^ e` with `m` a natural number
and `e` an integer.  The values met here lie between `2 ^ (-64)` and
`2 ^ 71`, so neither overflow nor subnormal numbers occur, and every
operation is the exact result rounded to the nearest number with a 53-bit
significand, ties to even. -/

/-- Position of the leading binary digit of `n`: the largest `k` with
`2 ^ k ≤ n` (0 for `n = 0`); `fuel` bounds the number of halvings. -/
def log2Fuel : Nat → Nat → Nat
  | 0, _ => 0
  | fuel + 1, n => if n ≥ 2 then log2Fuel fuel (n / 2) + 1 else 0

/-- The float64 nearest to the positive rational `p / q` (ties to even), as
`(m, e)` with value `m * 2 ^ e` and `2 ^ 52 ≤ m ≤ 2 ^ 53`. -/
def roundFloat64 (p q : Nat) : Nat × Int :=
  let e0 : Int := (log2Fuel p p : Int) - (log2Fuel q q : Int) - 52
  let e : Int := if p * 2 ^ (-e0).toNat / (q * 2 ^ e0.toNat) ≥ 2 ^ 52 then e0 else e0 - 1
  let n := p * 2 ^ (-e).toNat
  let d := q * 2 ^ e.toNat
  let m := n / d
  let r := n % d
  if 2 * r > d ∨ (2 * r = d ∧ m % 2 = 1) then (m + 1, e) else (m, e)

/-- The value Go on amd64 gives to `int(x)` when the float64 `x` is NaN,
infinite or outside the range of `int` (the language leaves it to the
implementation). -/
def intOfUnrepresentableFloat : Int := -9223372036854775808

/-- The expression
`int(float64(storedTreasures)/float64(numberOfTreasures)*float64(PERCENT_UNITS))`
of SCORE. -/
def scoreRating (storedTreasures numberOfTreasures : Int) : Int :=
  if numberOfTreasures = 0 then intOfUnrepresentableFloat
  else if storedTreasures = 0 then 0
  else
    let a := roundFloat64 storedTreasures.natAbs 1
    let b := roundFloat64 numberOfTreasures.natAbs 1
    let quotient := roundFloat64 (a.1 * 2 ^ (a.2 - b.2).toNat) (b.1 * 2 ^ (b.2 - a.2).toNat)
    let product := roundFloat64 (quotient.1 * PERCENT_UNITS.natAbs * 2 ^ quotient.2.toNat)
      (2 ^ (-quotient.2).toNat)
    let magnitude : Nat := product.1 * 2 ^ product.2.toNat / 2 ^ (-product.2).toNat
    let value : Int :=
      if decide (storedTreasures < 0) = decide (numberOfTreasures < 0) then (magnitude : Int)
      else -(magnitude : Int)
    if -2 ^ 63 ≤ value ∧ value < 2 ^ 63 then value else intOfUnrepresentableFloat

/-! ## Command executor -/

/-- Type of the entries of `commandFunction`: the action id, the value of
`continueExecutingCommands` before the call, and the world; the result holds
the value of `continueExecutingCommands` after the call. -/
abbrev commandFunc := Game → Int → Bool → World → Result (Bool × World)

/-- Command 0, GETx. -/
def cmdGETx : commandFunc := fun g actionId continueExecutingCommands w => do
  let carriedObjects := countCarried w.objectLocation
  let full := decide (carriedObjects ≥ g.maxObjectsCarried)
  let w := if full then print w "I've too much too carry. try -take inventory-\n" else w
  let continueExecutingCommands := if full then false else continueExecutingCommands
  let w ← getCommandParameter g actionId w
  let objectLocation ← orPanic (assign w.objectLocation w.commandParameter ROOM_INVENTORY)
  pure (continueExecutingCommands, { w with objectLocation := objectLocation })

/-- Command 1, DROPx. -/
def cmdDROPx : commandFunc := fun g actionId continueExecutingCommands w => do
  let w ← getCommandParameter g actionId w
  let objectLocation ← orPanic (assign w.objectLocation w.commandParameter w.currentRoom)
  pure (continueExecutingCommands, { w with objectLocation := objectLocation })

/-- Command 2, GOTOy. -/
def cmdGOTOy : commandFunc := fun g actionId continueExecutingCommands w => do
  let w ← getCommandParameter g actionId w
  pure (continueExecutingCommands, { w with currentRoom := w.commandParameter })

/-- Commands 3 and 7, x->RM0. -/
def cmdToRM0 : commandFunc := fun g actionId continueExecutingCommands w => do
  let w ← getCommandParameter g actionId w
  let objectLocation ← orPanic (assign w.objectLocation w.commandParameter 0)
  pure (continueExecutingCommands, { w with objectLocation := objectLocation })

/-- Command 4, NIGHT. -/
def cmdNIGHT : commandFunc := fun _ _ continueExecutingCommands w => do
  let statusFlag ← orPanic (assign w.statusFlag FLAG_NIGHT true)
  pure (continueExecutingCommands, { w with statusFlag := statusFlag })

/-- Command 5, DAY. -/
def cmdDAY : commandFunc := fun _ _ continueExecutingCommands w => do
  let statusFlag ← orPanic (assign w.statusFlag FLAG_NIGHT false)
  pure (continueExecutingCommands, { w with statusFlag := statusFlag })

/-- Command 6, SETz. -/
def cmdSETz : commandFunc := fun g actionId continueExecutingCommands w => do
  let w ← getCommandParameter g actionId w
  let statusFlag ← orPanic (assign w.statusFlag w.commandParameter true)
  pure (continueExecutingCommands, { w with statusFlag := statusFlag })

/-- Command 8, CLRz. -/
def cmdCLRz : commandFunc := fun g actionId continueExecutingCommands w => do
  let w ← getCommandParameter g actionId w
  let statusFlag ← orPanic (assign w.statusFlag w.commandParameter false)
  pure (continueExecutingCommands, { w with statusFlag := statusFlag })

/-- Command 9, DEAD. -/
def cmdDEAD : commandFunc := fun g _ continueExecutingCommands w => do
  let w := print w "I'm dead...\n"
  let w := { w with currentRoom := g.numberOfRooms }
  let statusFlag ← orPanic (assign w.statusFlag FLAG_NIGHT false)
  let w ← showRoomDescription g { w with statusFlag := statusFlag }
  pure (continueExecutingCommands, w)

/-- Command 10, x->y. -/
def cmdXtoY : commandFunc := fun g actionId continueExecutingCommands w => do
  let w ← getCommandParameter g actionId w
  let temporary1 := w.commandParameter
  let w ← getCommandParameter g actionId w
  let objectLocation ← orPanic (assign w.objectLocation temporary1 w.commandParameter)
  pure (continueExecutingCommands, { w with objectLocation := objectLocation })

/-- Command 11, FINI. -/
def cmdFINI : commandFunc := fun _ _ _ w => .exit w

/-- Commands 12 and 24, DspRM. -/
def cmdDspRM : commandFunc := fun g _ continueExecutingCommands w => do
  let w ← showRoomDescription g w
  pure (continueExecutingCommands, w)

/-- Command 13, SCORE: the loop over `objectLocation`; `object` is the index
of the head of the remaining locations. -/
def countStoredTreasures (g : Game) : List Int → Int → Int → Result Int
  | [], _, storedTreasures => pure storedTreasures
  | location :: rest, object, storedTreasures =>
    if location = g.treasureRoomId then do
      let description ← orPanic (index g.objectDescription object)
      if hasPrefix description "*" then
        countStoredTreasures g rest (object + 1) (storedTreasures + 1)
      else countStoredTreasures g rest (object + 1) storedTreasures
    else countStoredTreasures g rest (object + 1) storedTreasures

/-- Command 13, SCORE: the text `scoreMsg`. -/
def scoreMsg (storedTreasures numberOfTreasures : Int) : String :=
  "I've stored " ++ toString storedTreasures ++ " treasures. ON A SCALE OF 0 TO "
    ++ toString PERCENT_UNITS ++ " THAT RATES A "
    ++ toString (scoreRating storedTreasures numberOfTreasures) ++ "\n"

/-- Command 13, SCORE. -/
def cmdSCORE : commandFunc := fun g _ continueExecutingCommands w => do
  let storedTreasures ← countStoredTreasures g w.objectLocation 0 0
  let w := print w (scoreMsg storedTreasures g.numberOfTreasures)
  if storedTreasures = g.numberOfTreasures then
    .exit (print w "Well done.\n")
  else pure (continueExecutingCommands, w)

/-- Command 14, INV: the loop over `objectLocation`. -/
def showInventory (g : Game) : List Int → Int → String → World → Result (String × World)
  | [], _, carryingNothingText, w => pure (carryingNothingText, w)
  | location :: rest, object, carryingNothingText, w =>
    if location ≠ ROOM_INVENTORY then showInventory g rest (object + 1) carryingNothingText w
    else do
      let objectText ← stripNounFromObjectDescription g object
      showInventory g rest (object + 1) "" (print w (objectText ++ ". "))

/-- Command 14, INV. -/
def cmdINV : commandFunc := fun g _ continueExecutingCommands w => do
  let (carryingNothingText, w) ← showInventory g w.objectLocation 0 "Nothing" w
  pure (continueExecutingCommands, print w (carryingNothingText ++ "\n\n"))

/-- Command 15, SET0. -/
def cmdSET0 : commandFunc := fun _ _ continueExecutingCommands w => do
  let w := { w with commandParameter := 0 }
  let statusFlag ← orPanic (assign w.statusFlag w.commandParameter true)
  pure (continueExecutingCommands, { w with statusFlag := statusFlag })

/-- Command 16, CLR0. -/
def cmdCLR0 : commandFunc := fun _ _ continueExecutingCommands w => do
  let w := { w with commandParameter := 0 }
  let statusFlag ← orPanic (assign w.statusFlag w.commandParameter false)
  pure (continueExecutingCommands, { w with statusFlag := statusFlag })

/-- Command 17, FILL. -/
def cmdFILL : commandFunc := fun g _ continueExecutingCommands w => do
  let alternateCounter ← orPanic (assign w.alternateCounter COUNTER_TIME_LIMIT g.timeLimit)
  let objectLocation ← orPanic (assign w.objectLocation LIGHT_SOURCE_ID ROOM_INVENTORY)
  let statusFlag ← orPanic (assign w.statusFlag FLAG_LAMP_EMPTY false)
  pure (continueExecutingCommands,
    { w with alternateCounter := alternateCounter, objectLocation := objectLocation,
             statusFlag := statusFlag })

/-- Command 18, CLS. -/
def cmdCLS : commandFunc := fun _ _ continueExecutingCommands w =>
  pure (continueExecutingCommands, cls w)

/-- Command 19, SAVE. -/
def cmdSAVE : commandFunc := fun g _ continueExecutingCommands w =>
  pure (continueExecutingCommands, saveGame g w)

/-- Command 20, EXx,x. -/
def cmdEXxx : commandFunc := fun g actionId continueExecutingCommands w => do
  let w ← getCommandParameter g actionId w
  let temporary1 := w.commandParameter
  let w ← getCommandParameter g actionId w
  let temporary2 ← orPanic (index w.objectLocation w.commandParameter)
  let location1 ← orPanic (index w.objectLocation temporary1)
  let objectLocation ← orPanic (assign w.objectLocation w.commandParameter location1)
  let objectLocation ← orPanic (assign objectLocation temporary1 temporary2)
  pure (continueExecutingCommands, { w with objectLocation := objectLocation })

/-- Command 21, CONT. -/
def cmdCONT : commandFunc := fun _ _ continueExecutingCommands w =>
  pure (continueExecutingCommands, { w with contFlag := true })

/-- Command 22, AGETx. -/
def cmdAGETx : commandFunc := fun g actionId continueExecutingCommands w => do
  let w ← getCommandParameter g actionId w
  let objectLocation ← orPanic (assign w.objectLocation w.commandParameter ROOM_INVENTORY)
  pure (continueExecutingCommands, { w with objectLocation := objectLocation })

/-- Command 23, BYx<-x. -/
def cmdBYxx : commandFunc := fun g actionId continueExecutingCommands w => do
  let w ← getCommandParameter g actionId w
  let firstObject := w.commandParameter
  let w ← getCommandParameter g actionId w
  let secondObject := w.commandParameter
  let location2 ← orPanic (index w.objectLocation secondObject)
  let objectLocation ← orPanic (assign w.objectLocation firstObject location2)
  pure (continueExecutingCommands, { w with objectLocation := objectLocation })

/-- Command 25, CT-1. -/
def cmdCTminus1 : commandFunc := fun _ _ continueExecutingCommands w =>
  pure (continueExecutingCommands, { w with counterRegister := wrap64 (w.counterRegister - 1) })

/-- Command 26, DspCT. -/
def cmdDspCT : commandFunc := fun _ _ continueExecutingCommands w =>
  pure (continueExecutingCommands, print w (toString w.counterRegister))

/-- Command 27, CT<-n. -/
def cmdCTset : commandFunc := fun g actionId continueExecutingCommands w => do
  let w ← getCommandParameter g actionId w
  pure (continueExecutingCommands, { w with counterRegister := w.commandParameter })

/-- Command 28, EXRM0. -/
def cmdEXRM0 : commandFunc := fun _ _ continueExecutingCommands w => do
  let temp := w.currentRoom
  let room0 ← orPanic (index w.alternateRoom 0)
  let alternateRoom ← orPanic (assign w.alternateRoom 0 temp)
  pure (continueExecutingCommands, { w with currentRoom := room0, alternateRoom := alternateRoom })

/-- Command 29, EXm,CT. -/
def cmdEXmCT : commandFunc := fun g actionId continueExecutingCommands w => do
  let w ← getCommandParameter g actionId w
  let temp := w.counterRegister
  let counter ← orPanic (index w.alternateCounter w.commandParameter)
  let alternateCounter ← orPanic (assign w.alternateCounter w.commandParameter temp)
  pure (continueExecutingCommands,
    { w with counterRegister := counter, alternateCounter := alternateCounter })

/-- Command 30, CT+n. -/
def cmdCTplusN : commandFunc := fun g actionId continueExecutingCommands w => do
  let w ← getCommandParameter g actionId w
  pure (continueExecutingCommands,
    { w with counterRegister := wrap64 (w.counterRegister + w.commandParameter) })

/-- Command 31, CT-n. -/
def cmdCTminusN : commandFunc := fun g actionId continueExecutingCommands w => do
  let w ← getCommandParameter g actionId w
  let counterRegister := wrap64 (w.counterRegister - w.commandParameter)
  let counterRegister :=
    if counterRegister < MINIMUM_COUNTER_VALUE then MINIMUM_COUNTER_VALUE else counterRegister
  pure (continueExecutingCommands, { w with counterRegister := counterRegister })

/-- Command 32, SAYw. -/
def cmdSAYw : commandFunc := fun _ _ continueExecutingCommands w =>
  pure (continueExecutingCommands, print w w.globalNoun)

/-- Command 33, SAYwCR. -/
def cmdSAYwCR : commandFunc := fun _ _ continueExecutingCommands w =>
  pure (continueExecutingCommands, print w (w.globalNoun ++ "\n"))

/-- Command 34, SAYCR. -/
def cmdSAYCR : commandFunc := fun _ _ continueExecutingCommands w =>
  pure (continueExecutingCommands, print w "\n")

/-- Command 35, EXc,CR. -/
def cmdEXcCR : commandFunc := fun g actionId continueExecutingCommands w => do
  let w ← getCommandParameter g actionId w
  let temp := w.currentRoom
  let room ← orPanic (index w.alternateRoom w.commandParameter)
  let alternateRoom ← orPanic (assign w.alternateRoom w.commandParameter temp)
  pure (continueExecutingCommands, { w with currentRoom := room, alternateRoom := alternateRoom })

/-- Command 36, DELAY: `time.Sleep` changes nothing of the world. -/
def cmdDELAY : commandFunc := fun _ _ continueExecutingCommands w =>
  pure (continueExecutingCommands, w)

/-- Source `commandFunction`, in table order. -/
def commandFunction : List commandFunc :=
  [cmdGETx, cmdDROPx, cmdGOTOy, cmdToRM0, cmdNIGHT, cmdDAY,
   cmdSETz, cmdToRM0, cmdCLRz, cmdDEAD, cmdXtoY, cmdFINI,
   cmdDspRM, cmdSCORE, cmdINV, cmdSET0, cmdCLR0, cmdFILL,
   cmdCLS, cmdSAVE, cmdEXxx, cmdCONT, cmdAGETx, cmdBYxx,
   cmdDspRM, cmdCTminus1, cmdDspCT, cmdCTset, cmdEXRM0, cmdEXmCT,
   cmdCTplusN, cmdCTminusN, cmdSAYw, cmdSAYwCR, cmdSAYCR, cmdEXcCR,
   cmdDELAY]

/-- Source `executeCommands`, the body of its loop for one value of
`command`: what the decoded slot value makes the interpreter do. -/
def executeCommand (g : Game) (actionId : Int) (commandOrDisplayMessage : Int)
    (continueExecutingCommands : Bool) (w : World) : Result (Bool × World) :=
  if commandOrDisplayMessage ≥ MESSAGE_2_START then do
    -- Code above 102? it's printable text!
    let text ← orPanic (index g.message (commandOrDisplayMessage - MESSAGE_1_END + 1))
    pure (continueExecutingCommands, print w (text ++ "\n"))
  else if commandOrDisplayMessage = 0 then
    -- Do nothing
    pure (continueExecutingCommands, w)
  else if commandOrDisplayMessage ≤ MESSAGE_1_END then do
    -- Code below 52? it's printable text!
    let text ← orPanic (index g.message commandOrDisplayMessage)
    pure (continueExecutingCommands, print w (text ++ "\n"))
  else do
    -- Code above 52 and below 102? We got some command code to run!
    let commandCode := commandOrDisplayMessage - MESSAGE_1_END - 1
    let command ← orPanic (index commandFunction commandCode)
    command g actionId continueExecutingCommands w

/-- Source `executeCommands`, the loop
`for command < COMMANDS_IN_ACTION && continueExecutingCommands`: `commands`
lists the values `command` still has to take. -/
def executeCommandsLoop (g : Game) (actionId : Int) : List Int → Bool → World → Result World
  | [], _, w => pure w
  | command :: commands, continueExecutingCommands, w =>
    if continueExecutingCommands then do
      let commandOrDisplayMessage ← decodeCommandFromData g command actionId
      let (continueExecutingCommands, w) ←
        executeCommand g actionId commandOrDisplayMessage continueExecutingCommands w
      executeCommandsLoop g actionId commands continueExecutingCommands w
    else pure w

/-- Source `executeCommands`: `command` runs from 0 to
`COMMANDS_IN_ACTION - 1`. -/
def executeCommands (g : Game) (actionId : Int) (w : World) : Result World :=
  executeCommandsLoop g actionId [0, 1, 2, 3] true { w with commandParameterIndex := 1 }

/-! ## Pseudo-random numbers -/

/-- Source `getPrn`: the value returned and the world with the new
`prngState`. -/
def getPrn (w : World) : Int × World :=
  let prngState :=
    ((wrap64 (PRNG_PRM * wrap64 (w.prngState + 1))).tmod PRNG_PRIME).tmod VALUES_IN_16_BITS
  (prngState.tmod PERCENT_UNITS, { w with prngState := prngState })

/-! ## Text -/

/-- Go `len(s)`. -/
def len (s : String) : Int := s.data.length

/-- Go `strings.ToLower`. -/
def toLower (s : String) : String := String.mk (s.data.map Char.toLower)

/-- Go `strings.ToUpper`. -/
def toUpper (s : String) : String := String.mk (s.data.map Char.toUpper)

/-- The slice expression `s[:n]`, also written `s[0:n]`: `none` is the
slice-bounds-out-of-range panic. -/
def sliceTo (s : String) (n : Int) : Option String :=
  if n < 0 then none
  else if n.toNat ≤ s.data.length then some (String.mk (s.data.take n.toNat)) else none

/-- Go `strings.TrimLeft(s, cutset)` for a cutset of one character. -/
def trimLeft (s : String) (c : Char) : String := String.mk (s.data.dropWhile (fun x => x = c))

/-- Go `strings.Contains(s, sep)` for a separator of one character. -/
def contains (s : String) (c : Char) : Bool := s.data.elem c

/-- Go `strings.Index(s, sep)` for a separator of one character, on the
characters `cs` that follow the first `i`. -/
def indexFrom (c : Char) : List Char → Int → Int
  | [], _ => -1
  | x :: cs, i => if x = c then i else indexFrom c cs (i + 1)

/-- Go `strings.Index(s, sep)` for a separator of one character. -/
def stringsIndex (s : String) (c : Char) : Int := indexFrom c s.data 0

/-- Go `strings.Split(s, sep)` for a separator of one character, on
characters. -/
def splitChars (sep : Char) : List Char → List (List Char)
  | [] => [[]]
  | c :: cs =>
    if c = sep then [] :: splitChars sep cs
    else match splitChars sep cs with
      | [] => [[c]]
      | part :: parts => (c :: part) :: parts

/-- Go `strings.Split(s, sep)` for a separator of one character. -/
def split (s : String) (sep : Char) : List String := (splitChars sep s.data).map String.mk

/-- Source `extractFirstCharacters`. -/
def extractFirstCharacters (input : String) (limit : Int) : Result String :=
  if len input ≥ limit then orPanic (sliceTo input limit) else pure input

/-! ## Vocabulary matcher -/

/-- Source `getViableWordActions`, the loop over the indices of `actionData`.
Of the map it builds only the keys, the verbs, are used by its caller; they
are kept in the order in which they are first inserted. -/
def getViableWordActionsLoop (g : Game) (w : World) : List Int → List Int → Result (List Int)
  | [], viablePhrases => pure viablePhrases
  | currentAction :: actions, viablePhrases => do
    let actionVerb ← getActionVerb g currentAction
    let _ ← getActionNoun g currentAction
    if actionVerb > 0 then do
      let holds ← evaluateConditions g currentAction w
      if holds then
        getViableWordActionsLoop g w actions
          (if viablePhrases.elem actionVerb then viablePhrases else viablePhrases ++ [actionVerb])
      else getViableWordActionsLoop g w actions viablePhrases
    else getViableWordActionsLoop g w actions viablePhrases

/-- Source `getViableWordActions`: the verbs that have an action whose
conditions hold. -/
def getViableWordActions (g : Game) (w : World) : Result (List Int) :=
  getViableWordActionsLoop g w ((List.range g.actionData.length).map Int.ofNat) []

/-- Source `resolveGoShortcut`, the statements `shortened := text` and
`if len(other) < len(text) { shortened = text[0:len(other)] }` of both
loops. -/
def shortenTo (text other : String) : Result String :=
  if len other < len text then orPanic (sliceTo text (len other)) else pure text

/-- Source `resolveGoShortcut`, the loop over the viable verbs: `true` when
the entered verb, cut to the length of a viable verb, is that verb.  Go runs
through the keys of the map in an order it does not fix; the order matters
only when a viable verb has no vocabulary entry. -/
def resolveGoShortcutVerbs (g : Game) (enteredInputVerb : String) : List Int → Result Bool
  | [] => pure false
  | viableVerb :: viableVerbs => do
    let word ← orPanic (index g.listOfVerbsAndNouns viableVerb)
    let text ← orPanic (index word 0)
    let possibleVerbText := toLower text
    let shortenedVerb ← shortenTo enteredInputVerb possibleVerbText
    if shortenedVerb = possibleVerbText then pure true
    else resolveGoShortcutVerbs g enteredInputVerb viableVerbs

/-- Source `resolveGoShortcut`, the loop `for direction := 1; direction <=
DIRECTION_NOUNS`: `directions` lists the values `direction` still has to
take. -/
def resolveGoShortcutDirections (g : Game) (enteredInputVerb : String) :
    List Int → World → Result World
  | [], w => pure w
  | direction :: directions, w => do
    let word ← orPanic (index g.listOfVerbsAndNouns direction)
    let text ← orPanic (index word 1)
    let directionNounText := toLower text
    let shortenedDirection ← shortenTo directionNounText enteredInputVerb
    if enteredInputVerb = shortenedDirection then do
      let goWord ← orPanic (index g.listOfVerbsAndNouns VERB_GO)
      let goText ← orPanic (index goWord 0)
      let extractedInputWords ← orPanic (assign w.extractedInputWords 0 (toLower goText))
      pure { w with extractedInputWords := extractedInputWords ++ [directionNounText] }
    else resolveGoShortcutDirections g enteredInputVerb directions w

/-- Source `resolveGoShortcut`. -/
def resolveGoShortcut (g : Game) (w : World) : Result World := do
  let first ← orPanic (index w.extractedInputWords 0)
  let enteredInputVerb := toLower first
  let viablePhrases ← getViableWordActions g w
  -- Don't attempt to resolve go shortcuts if input is empty
  if len enteredInputVerb < 1 then pure w
  else do
    -- Don't make shortcut if input verb matches legitimate word action
    let matched ← resolveGoShortcutVerbs g enteredInputVerb viablePhrases
    if matched then pure w
    else resolveGoShortcutDirections g enteredInputVerb [1, 2, 3, 4, 5, 6] w

/-- Source `extractWords`, the loop over `listOfVerbsAndNouns` for one value
of `verbOrNoun`: `token` is `extractedInputWords[verbOrNoun]`, `wordId` the
index of the head of the remaining entries; the result is the value stored in
`foundWord[verbOrNoun]` at the `break`, if the loop gets there. -/
def extractWordsLoop (g : Game) (verbOrNoun : Int) (token : String) :
    List (List String) → Int → Int → Result (Option Int)
  | [], _, _ => pure none
  | word :: words, wordId, nonSynonym => do
    let text ← orPanic (index word verbOrNoun)
    let nonSynonym := if stringsIndex text '*' ≠ 0 then wordId else nonSynonym
    let tempWord := trimLeft text '*'
    let tempWord ← extractFirstCharacters tempWord g.wordLength
    let cut ← extractFirstCharacters token g.wordLength
    if tempWord = toUpper cut then pure (some nonSynonym)
    else extractWordsLoop g verbOrNoun token words (wordId + 1) nonSynonym

/-- Source `extractWords`, the body of the loop over `verbOrNoun`. -/
def extractWordsColumn (g : Game) (verbOrNoun : Int) (w : World) : Result World := do
  let token ← orPanic (index w.extractedInputWords verbOrNoun)
  let found ← extractWordsLoop g verbOrNoun token g.listOfVerbsAndNouns 0 0
  match found with
  | none => pure w
  | some nonSynonym => do
    let foundWord ← orPanic (assign w.foundWord verbOrNoun nonSynonym)
    pure { w with foundWord := foundWord }

/-- Source `extractWords`. -/
def extractWords (g : Game) (w : World) : Result World := do
  -- Trim leading white spaces
  let w := { w with keyboardInput2 := trimLeft w.keyboardInput2 ' ' }
  -- Split keyboardInput2 into words
  let w := { w with extractedInputWords := split w.keyboardInput2 ' ' }
  let w :=
    if w.extractedInputWords.length = 0 then
      { w with extractedInputWords := w.extractedInputWords ++ [""] }
    else w
  let w ← resolveGoShortcut g w
  -- If the length of extractedInputWords is less than 2, add an empty string
  let w :=
    if w.extractedInputWords.length < 2 then
      { w with extractedInputWords := w.extractedInputWords ++ [""] }
    else w
  let globalNoun ← orPanic (index w.extractedInputWords 1)
  let w := { w with globalNoun := globalNoun }
  -- Reset foundWord slice
  let w := { w with foundWord := [0, 0] }
  let w ← extractWordsColumn g 0 w
  extractWordsColumn g 1 w

/-! ## Turn dispatcher -/

/-- Source `handleGoVerb`. -/
def handleGoVerb (g : Game) (w : World) : Result World := do
  let night ← orPanic (index w.statusFlag FLAG_NIGHT)
  let lightCheck ←
    if night then do
      let light ← orPanic (index w.objectLocation LIGHT_SOURCE_ID)
      pure (decide (light ≠ w.currentRoom ∧ light ≠ 1))
    else pure false
  let roomDark := lightCheck
  let w := if roomDark then print w "Dangerous to move in the dark!\n" else w
  let noun ← orPanic (index w.foundWord 1)
  if noun < 1 then
    pure (print w "Give me a direction too.\n")
  else do
    let exits ← orPanic (index g.roomExit w.currentRoom)
    let directionDestination ← orPanic (index exits (noun - 1))
    if directionDestination < 1 then
      if roomDark then do
        let w := print w "I fell down and broke my neck.\n"
        let statusFlag ← orPanic (assign w.statusFlag FLAG_NIGHT false)
        showRoomDescription g
          { w with statusFlag := statusFlag, currentRoom := g.numberOfRooms }
      else pure (print w "I can't go in that direction\n")
    else showRoomDescription g { w with currentRoom := directionDestination }

/-- Source `nounIsInObject`, the loop over `objectDescription`. -/
def nounIsInObjectLoop (truncatedNoun : String) : List String → Result Bool
  | [] => pure false
  | description :: descriptions =>
    if contains description '/' then do
      let part ← orPanic (index (split description '/') 1)
      let objectNoun := toLower part
      if objectNoun = truncatedNoun then pure true
      else nounIsInObjectLoop truncatedNoun descriptions
    else nounIsInObjectLoop truncatedNoun descriptions

/-- Source `nounIsInObject`. -/
def nounIsInObject (g : Game) (w : World) : Result Bool := do
  let truncatedNoun ← orPanic (sliceTo w.globalNoun g.wordLength)
  nounIsInObjectLoop truncatedNoun g.objectDescription

/-- Source `getOrDropNoun`, the first loop: the ids of the objects whose
location is `roomSource`; `objectCounter` is the id of the head of the
remaining locations. -/
def objectsInRoom (roomSource : Int) : List Int → Int → List Int
  | [], _ => []
  | location :: locations, objectCounter =>
    if location = roomSource then objectCounter :: objectsInRoom roomSource locations (objectCounter + 1)
    else objectsInRoom roomSource locations (objectCounter + 1)

/-- Source `getOrDropNoun`, the second loop, over the objects found in the
source room. -/
def getOrDropNounLoop (g : Game) (inputNoun roomDestination : Int) :
    List Int → World → Result (Bool × World)
  | [], w => pure (false, w)
  | roomObject :: roomObjects, w => do
    let description ← orPanic (index g.objectDescription roomObject)
    -- Only proceed if the object has a noun defined
    if contains description '/' then do
      -- Pick up the first object we find that matches and return
      let noun ← orPanic (index (split description '/') 1)
      let word ← orPanic (index g.listOfVerbsAndNouns inputNoun)
      let nounText ← orPanic (index word 1)
      let matched ←
        if nounText = noun then pure true
        else do
          let truncatedNoun ← orPanic (sliceTo w.globalNoun g.wordLength)
          pure (decide (noun = toUpper truncatedNoun))
      if matched then do
        let objectLocation ← orPanic (assign w.objectLocation roomObject roomDestination)
        pure (true, print { w with objectLocation := objectLocation } "OK\n")
      else getOrDropNounLoop g inputNoun roomDestination roomObjects w
    else getOrDropNounLoop g inputNoun roomDestination roomObjects w

/-- Source `getOrDropNoun`. -/
def getOrDropNoun (g : Game) (inputNoun roomSource roomDestination : Int) (w : World) :
    Result (Bool × World) :=
  getOrDropNounLoop g inputNoun roomDestination (objectsInRoom roomSource w.objectLocation 0) w

/-- Source `handleCarryAndDropVerb`. -/
def handleCarryAndDropVerb (g : Game) (inputVerb inputNoun : Int) (w : World) :
    Result (Bool × World) :=
  -- Exit function if the verb isn't carry or drop
  if inputVerb ≠ VERB_CARRY ∧ inputVerb ≠ VERB_DROP then pure (false, w)
  else do
    -- If noun is undefined, return with an error text
    let undefinedNoun ←
      if inputNoun = 0 then do
        let inObject ← nounIsInObject g w
        pure (!inObject)
      else pure false
    if undefinedNoun then pure (true, print w "What?\n")
    else if inputVerb = VERB_CARRY then
      -- If verb is CARRY, check that we're not exceeding weight limit
      let carriedObjects := countCarried w.objectLocation
      if carriedObjects ≥ g.maxObjectsCarried then
        if g.maxObjectsCarried ≥ 0 then
          pure (true, print w "I've too much too carry. try -take inventory-\n")
        else pure (false, w)
      else do
        let (moved, w) ← getOrDropNoun g inputNoun w.currentRoom ROOM_INVENTORY w
        if moved then pure (true, w) else pure (true, print w "I don't see it here\n")
    else do
      let (moved, w) ← getOrDropNoun g inputNoun ROOM_INVENTORY w.currentRoom w
      if moved then pure (true, w) else pure (true, print w "I'm not carrying it\n")

/-- The call `executeCommands(currentAction)` made by `runActions`, entered in
the log `executed`. -/
def runCommands (g : Game) (currentAction : Int) (w : World) : Result World :=
  executeCommands g currentAction { w with executed := w.executed ++ [currentAction] }

/-- Source `runActions`, the statements after the loop. -/
def runActionsEnd (g : Game) (inputVerb inputNoun : Int) (foundWord wordActionDone : Bool)
    (w : World) : Result World :=
  if inputVerb = 0 then pure w
  else do
    let (handled, w) ←
      if wordActionDone = false then handleCarryAndDropVerb g inputVerb inputNoun w
      else pure (false, w)
    if handled then pure w
    else if wordActionDone then pure w
    else if foundWord then pure (print w "I can't do that yet\n")
    else pure (print w "I don't understand your command\n")

/-- Source `runActions`, the block `CONT action` of the loop body. -/
def runContAction (g : Game) (currentAction actionVerb actionNoun : Int) (w : World) :
    Result World :=
  if w.contFlag ∧ actionVerb = 0 ∧ actionNoun = 0 then do
    let holds ← evaluateConditions g currentAction w
    if holds then runCommands g currentAction w else pure w
  else pure { w with contFlag := false }

/-- Source `runActions`, the block `AUT action` of the loop body. -/
def runAutAction (g : Game) (inputVerb currentAction actionVerb actionNoun : Int) (w : World) :
    Result World :=
  if inputVerb = 0 then
    if actionVerb = 0 ∧ actionNoun > 0 then
      let w := { w with contFlag := false }
      let drawn := getPrn w
      let w := drawn.2
      if drawn.1 < actionNoun then do
        let holds ← evaluateConditions g currentAction w
        if holds then runCommands g currentAction w else pure w
      else pure w
    else pure w
  else pure w

/-- Source `runActions`, the statements under `foundWord = true` in the block
`Word action`: the result holds whether the function returns at once, the
new value of `wordActionDone`, and the world. -/
def runWordMatch (g : Game) (currentAction : Int) (wordActionDone : Bool) (w : World) :
    Result (Bool × Bool × World) := do
  let holds ← evaluateConditions g currentAction w
  if holds then do
    let w ← runCommands g currentAction w
    pure (decide (w.contFlag = false), true, w)
  else pure (false, wordActionDone, w)

/-- Source `runActions`, the block `Word action` of the loop body: the result
holds whether the function returns at once, the new values of `foundWord` and
`wordActionDone`, and the world. -/
def runWordAction (g : Game) (inputVerb inputNoun currentAction actionVerb actionNoun : Int)
    (foundWord wordActionDone : Bool) (w : World) : Result (Bool × Bool × Bool × World) :=
  if inputVerb > 0 then
    if actionVerb = inputVerb then
      if wordActionDone = false then
        let w := { w with contFlag := false }
        if actionNoun = 0 then do
          let (returns, wordActionDone, w) ← runWordMatch g currentAction wordActionDone w
          pure (returns, true, wordActionDone, w)
        else if actionNoun = inputNoun then do
          let (returns, wordActionDone, w) ← runWordMatch g currentAction wordActionDone w
          pure (returns, true, wordActionDone, w)
        else pure (false, foundWord, wordActionDone, w)
      else pure (false, foundWord, wordActionDone, w)
    else pure (false, foundWord, wordActionDone, w)
  else pure (false, foundWord, wordActionDone, w)

/-- Source `runActions`, the loop `for currentAction := range
actionDescription`: `actions` lists the values `currentAction` still has to
take; `foundWord` and `wordActionDone` are the local variables. -/
def runActionsLoop (g : Game) (inputVerb inputNoun : Int) :
    List Int → Bool → Bool → World → Result World
  | [], foundWord, wordActionDone, w => runActionsEnd g inputVerb inputNoun foundWord wordActionDone w
  | currentAction :: actions, foundWord, wordActionDone, w => do
    let actionVerb ← getActionVerb g currentAction
    let actionNoun ← getActionNoun g currentAction
    let w ← runContAction g currentAction actionVerb actionNoun w
    let w ← runAutAction g inputVerb currentAction actionVerb actionNoun w
    let (returns, foundWord, wordActionDone, w) ←
      runWordAction g inputVerb inputNoun currentAction actionVerb actionNoun
        foundWord wordActionDone w
    if returns then pure w
    else runActionsLoop g inputVerb inputNoun actions foundWord wordActionDone w

/-- The values `currentAction` takes in `for currentAction := range
actionDescription`. -/
def actionIds (g : Game) : List Int := (List.range g.actionDescription.length).map Int.ofNat

/-- Source `runActions`. -/
def runActions (g : Game) (inputVerb inputNoun : Int) (w : World) : Result World :=
  if inputVerb = VERB_GO ∧ inputNoun ≤ DIRECTION_NOUNS then handleGoVerb g w
  else runActionsLoop g inputVerb inputNoun (actionIds g) false false { w with contFlag := false }

/-! ## Saved games -/

/-- Source `intToBool`. -/
def intToBool (num : Int) : Bool :=
  if num = FALSE_VALUE then false else true

/-- Source `loadGame`, one loop `for i := range slice`, which stores
`convert saveData[i + offset]` in `slice[i]`: the new entries for the
remaining entries `slice`, the head of which has index `i`. -/
def loadGameLoop {α β : Type} (convert : Int → β) (saveData : List Int) (offset : Int) :
    List α → Int → Result (List β)
  | [], _ => pure []
  | _ :: slice, i => do
    let value ← orPanic (index saveData (i + offset))
    let rest ← loadGameLoop convert saveData offset slice (i + 1)
    pure (convert value :: rest)

/-- Source `loadGame`.  `saveFileName` is the name read from standard input
and `file` is what `os.Open` and the scanner give: `none` when the file
cannot be opened, else the integers scanned, one for each line. -/
def loadGame (g : Game) (saveFileName : String) (file : Option (List Int)) (w : World) :
    Result (Bool × World) :=
  let w := print w "Name of save file:\n"
  match file with
  | none =>
    pure (false, print w ("Couldn't load \"" ++ saveFileName ++ "\". Doesn't exist!\n"))
  | some saveData => do
    let saveAdventureVersion ← orPanic (index saveData 0)
    if saveAdventureVersion ≠ g.adventureVersion then
      pure (false, print w "Invalid savegame version\n")
    else do
      let saveAdventureNumber ← orPanic (index saveData 1)
      if saveAdventureNumber ≠ g.adventureNumber then
        pure (false, print w "Invalid savegame adventure number\n")
      else do
        let currentRoom ← orPanic (index saveData 2)
        let alternateRoom ← loadGameLoop id saveData 3 w.alternateRoom 0
        let counterRegister ← orPanic (index saveData (3 + alternateRoom.length))
        let alternateCounter ←
          loadGameLoop id saveData (4 + alternateRoom.length) w.alternateCounter 0
        let objectLocation ←
          loadGameLoop id saveData (4 + alternateRoom.length + alternateCounter.length)
            w.objectLocation 0
        let statusFlag ←
          loadGameLoop intToBool saveData
            (4 + alternateRoom.length + alternateCounter.length + objectLocation.length)
            w.statusFlag 0
        pure (true,
          { w with currentRoom := currentRoom, alternateRoom := alternateRoom,
                   counterRegister := counterRegister, alternateCounter := alternateCounter,
                   objectLocation := objectLocation, statusFlag := statusFlag })

/-! ## Database loader

The text of the database is read as a sequence of characters.  Of a regular
expression only `FindStringSubmatch` is used: the leftmost position at which
the expression matches, and there the match that a backtracking search with
greedy (or, for `*?`, lazy) repetitions finds first.  Every expression of
the loader ends in `([\s\S]*)`, the rest of the text. -/

/-- The class `\s` of package `regexp`: tab, newline, form feed, carriage
return, space. -/
def isSpace (c : Char) : Bool :=
  c = '\t' || c = '\n' || c = '\x0c' || c = '\r' || c = ' '

/-- The class `\d` of package `regexp`: the digits `0`..`9`. -/
def isDigit (c : Char) : Bool := '0' ≤ c && c ≤ '9'

/-- The value of a sequence of digits. -/
def digitsValue (digits : List Char) : Nat :=
  digits.foldl (fun value c => value * 10 + (c.toNat - '0'.toNat)) 0

/-- Go `strconv.Atoi` on a text `-?\d+`, with the error dropped as the loader
does: the value, or the nearest of the bounds of `int` when it is out of
range. -/
def atoi (negative : Bool) (digits : List Char) : Int :=
  if negative then max (-(digitsValue digits : Int)) (-(2 ^ 63))
  else min (digitsValue digits : Int) (2 ^ 63 - 1)

/-- Leftmost match: `matchAt` tried at every position of the text, from the
left, up to and with the end of the text. -/
def findFirst {α : Type} (matchAt : List Char → Option α) : List Char → Option α
  | [] => matchAt []
  | c :: s =>
    match matchAt (c :: s) with
    | some found => some found
    | none => findFirst matchAt s

/-- Match of `(-?\d+)` at the head of the text: the number and the rest. -/
def matchNumber (s : List Char) : Option (Int × List Char) :=
  let negative := s.head? = some '-'
  let s := if negative then s.drop 1 else s
  let digits := s.takeWhile isDigit
  if digits = [] then none else some (atoi negative digits, s.dropWhile isDigit)

/-- Match of `\s+` at the head of the text: the rest. -/
def matchSpaces (s : List Char) : Option (List Char) :=
  match s with
  | [] => none
  | c :: rest => if isSpace c then some (rest.dropWhile isSpace) else none

/-- Match of `"([^"]*)"` at the head of the text: the text between the
quotes and the rest. -/
def matchQuoted (s : List Char) : Option (String × List Char) :=
  match s with
  | '"' :: rest =>
    match rest.dropWhile (fun c => c ≠ '"') with
    | _ :: after => some (String.mk (rest.takeWhile (fun c => c ≠ '"')), after)
    | [] => none
  | _ => none

/-- The expression of `extractInt`, at the head of the text. -/
def intPattern (s : List Char) : Option (Int × List Char) :=
  matchNumber (s.dropWhile isSpace)

/-- The expression `textPattern`, at the head of the text. -/
def textPattern (s : List Char) : Option (String × List Char) :=
  matchQuoted (s.dropWhile isSpace)

/-- The expression `wordPattern`, at the head of the text: `[*]?[^"]*?`
between the quotes takes what `[^"]*` takes, the text up to the next
quote. -/
def wordPattern (s : List Char) : Option (String × List Char) :=
  matchQuoted (s.dropWhile isSpace)

/-- The expression `roomPattern`, at the head of the text, after the first
`k` of its six numbers: the numbers, the description and the rest. -/
def roomPatternFrom : Nat → List Char → Option (List Int × String × List Char)
  | 0, s => do
    let (description, rest) ← matchQuoted (s.dropWhile isSpace)
    pure ([], description, rest)
  | k + 1, s => do
    let s ← matchSpaces s
    let (number, s) ← matchNumber s
    let (numbers, description, rest) ← roomPatternFrom k s
    pure (number :: numbers, description, rest)

/-- The expression `roomPattern`, at the head of the text. -/
def roomPattern (s : List Char) : Option (List Int × String × List Char) :=
  roomPatternFrom 6 s

/-- The expression `objectPattern`, at the head of the text. -/
def objectPattern (s : List Char) : Option (String × Int × List Char) := do
  let (description, s) ← matchQuoted (s.dropWhile isSpace)
  let (location, rest) ← matchNumber (s.dropWhile isSpace)
  pure (description, location, rest)

/-- Source `extractInt`. -/
def extractInt (s : List Char) : Int × List Char :=
  match findFirst intPattern s with
  | some (value, rest) => (value, rest)
  | none => (0, s)

/-- Source `extractString`. -/
def extractString (s : List Char) (re : List Char → Option (String × List Char)) :
    String × List Char :=
  match findFirst re s with
  | some (text, rest) => (text, rest)
  | none => ("", s)

/-- Source `normalizeNewline`. -/
def normalizeNewline : List Char → List Char
  | [] => []
  | '\r' :: '\n' :: s => '\n' :: normalizeNewline s
  | c :: s => c :: normalizeNewline s

/-- Source `replaceInStringSlice`, called with the back quote (ASCII 96) and
the double quote (ASCII 34). -/
def replaceInStringSlice (slice : List String) (old new : Char) : List String :=
  slice.map (fun text => String.mk (text.data.map (fun c => if c = old then new else c)))

/-- The package-level variables that `loadGameDataFile` fills: the static
tables (`game`), the first value of `objectLocation`, and the numbers that the
loader or `main` reads afterwards. -/
structure Loaded where
  game : Game
  gameBytes : Int
  numberOfActions : Int
  numberOfMessages : Int
  numberOfObjects : Int
  numberOfWords : Int
  objectLocation : List Int
  startingRoom : Int
  deriving DecidableEq, Repr

/-- Source `loadGameDataFile`, the loop `for actionIdEntry < ACTION_ENTRIES`:
`entries` values are still to be read. -/
def extractActionEntries : Nat → List Char → List Int × List Char
  | 0, next => ([], next)
  | entries + 1, next =>
    let (actionEntryValue, next) := extractInt next
    let (entryInAction, next) := extractActionEntries entries next
    (actionEntryValue :: entryInAction, next)

/-- Source `loadGameDataFile`, the loop `for actionId <= numberOfActions`:
`actions` records are still to be read. -/
def extractActions : Nat → List Char → List (List Int) × List Char
  | 0, next => ([], next)
  | actions + 1, next =>
    let (entryInAction, next) := extractActionEntries ACTION_ENTRIES.toNat next
    let (actionData, next) := extractActions actions next
    (entryInAction :: actionData, next)

/-- Source `loadGameDataFile`, the loop
`for word < ((numberOfWords + 1) * 2)`: `words` texts are still to be read,
the next one has index `word`; `none` is an index panic. -/
def extractVocabulary :
    Nat → Int → List (List String) → List Char → Option (List (List String) × List Char)
  | 0, _, listOfVerbsAndNouns, next => some (listOfVerbsAndNouns, next)
  | words + 1, word, listOfVerbsAndNouns, next => do
    let (input, next) := extractString next wordPattern
    let row ← index listOfVerbsAndNouns (word.tdiv 2)
    let listOfVerbsAndNouns ← assign listOfVerbsAndNouns (word.tdiv 2) (row ++ [input])
    extractVocabulary words (word + 1) listOfVerbsAndNouns next

/-- Source `loadGameDataFile`, the loop `for room <= numberOfRooms`: `rooms`
passes are still to be made. -/
def extractRooms : Nat → List Char → List (List Int) × List String × List Char
  | 0, next => ([], [], next)
  | rooms + 1, next =>
    match findFirst roomPattern next with
    | some (exit, description, rest) =>
      let (roomExit, roomDescription, next) := extractRooms rooms rest
      (exit :: roomExit, description :: roomDescription, next)
    | none => extractRooms rooms next

/-- Source `loadGameDataFile`, the loops
`for currentMessage <= numberOfMessages` and
`for actionCounter <= numberOfActions`: `texts` texts are still to be read. -/
def extractTexts : Nat → List Char → List String × List Char
  | 0, next => ([], next)
  | texts + 1, next =>
    let (text, next) := extractString next textPattern
    let (rest, next) := extractTexts texts next
    (text :: rest, next)

/-- Source `loadGameDataFile`, the loop `for object <= numberOfObjects`:
`objects` passes are still to be made. -/
def extractObjects : Nat → List Char → List String × List Int × List Char
  | 0, next => ([], [], next)
  | objects + 1, next =>
    match findFirst objectPattern next with
    | some (description, location, rest) =>
      let (objectDescription, objectLocation, next) := extractObjects objects rest
      (description :: objectDescription, location :: objectLocation, next)
    | none => extractObjects objects next

/-- Source `loadGameDataFile`, the statements after the file is read, run
once, with the package-level variables at their zero values: the variables
as the function leaves them, or `none` when it panics.  A loop `for i <= n`
makes `n + 1` passes, none for a negative `n`; `make` with a negative length
panics. -/
@[irreducible] def loadTables (fileContent : String) : Option Loaded := do
  -- Replace newline with current system newline
  let next := normalizeNewline fileContent.data
  let (gameBytes, next) := extractInt next
  let (numberOfObjects, next) := extractInt next
  let (numberOfActions, next) := extractInt next
  let (numberOfWords, next) := extractInt next
  let (numberOfRooms, next) := extractInt next
  let (maxObjectsCarried, next) := extractInt next
  let maxObjectsCarried :=
    if maxObjectsCarried < 0 then REALLY_BIG_NUMBER else maxObjectsCarried
  let (startingRoom, next) := extractInt next
  let (numberOfTreasures, next) := extractInt next
  let (wordLength, next) := extractInt next
  let (timeLimit, next) := extractInt next
  let (numberOfMessages, next) := extractInt next
  let (treasureRoomId, next) := extractInt next
  -- Extract actions
  let (actionData, next) := extractActions (numberOfActions + 1).toNat next
  -- Extract words
  let rows := wrap64 (numberOfWords + 1)
  let empty ← if rows < 0 then none else some (List.replicate rows.toNat [])
  let (listOfVerbsAndNouns, next) ←
    extractVocabulary (wrap64 (rows * 2)).toNat 0 empty next
  -- Extract rooms
  let (roomExit, roomDescription, next) := extractRooms (numberOfRooms + 1).toNat next
  -- Extract messages
  let (message, next) := extractTexts (numberOfMessages + 1).toNat next
  -- Extract objects
  let (objectDescription, objectLocation, next) :=
    extractObjects (numberOfObjects + 1).toNat next
  -- Extract action descriptions
  let (actionDescription, next) := extractTexts (numberOfActions + 1).toNat next
  -- Extract adventure version and number
  let (adventureVersion, next) := extractInt next
  let (adventureNumber, _) := extractInt next
  -- Replace Ascii 96 with Ascii 34 in output text strings
  let objectDescription := replaceInStringSlice objectDescription (Char.ofNat 96) '"'
  let message := replaceInStringSlice message (Char.ofNat 96) '"'
  let roomDescription := replaceInStringSlice roomDescription (Char.ofNat 96) '"'
  pure
    { game :=
        { actionData := actionData
          actionDescription := actionDescription
          adventureNumber := adventureNumber
          adventureVersion := adventureVersion
          listOfVerbsAndNouns := listOfVerbsAndNouns
          maxObjectsCarried := maxObjectsCarried
          message := message
          numberOfRooms := numberOfRooms
          numberOfTreasures := numberOfTreasures
          objectDescription := objectDescription
          objectOriginalLocation := objectLocation
          roomDescription := roomDescription
          roomExit := roomExit
          timeLimit := timeLimit
          treasureRoomId := treasureRoomId
          wordLength := wordLength }
      gameBytes := gameBytes
      numberOfActions := numberOfActions
      numberOfMessages := numberOfMessages
      numberOfObjects := numberOfObjects
      numberOfWords := numberOfWords
      objectLocation := objectLocation
      startingRoom := startingRoom }

/-- Source `loadGameDataFile`.  `file` is what `ioutil.ReadFile` gives: `none`
when the file cannot be read.  The result `none` is the error returned, the
only `return err` of the function; `some` is the return of `nil` with the
variables filled. -/
def loadGameDataFile (file : Option String) : Result (Option Loaded) :=
  match file with
  | none => pure none
  | some fileContent => do
    let loaded ← orPanic (loadTables fileContent)
    pure (some loaded)

/-! ## Specification-side definitions -/

/-- Of the slots `slot`, `slot + 1`, ... holding the values `raws`, the ones
whose code `raw % 20` is 0, in slot order, each with its raw value. -/
def sentinelsFrom : List Int → Int → List (Int × Int)
  | [], _ => []
  | raw :: raws, slot =>
    if raw.tmod 20 = 0 then (slot, raw) :: sentinelsFrom raws (slot + 1)
    else sentinelsFrom raws (slot + 1)

/-- The condition slots 1..5 of an action record whose code is 0, in slot
order, each with its raw value. -/
def parameterSlots (record : List Int) : List (Int × Int) :=
  sentinelsFrom ((record.drop 1).take 5) 1

/-- The world right after call number `k + 1` of `getCommandParameter` for
one action, starting from `w`; `between i` is what the interpreter does to
the world between call `i + 1` and call `i + 2`. -/
def getCommandParameterCalls (g : Game) (actionId : Int) :
    (Nat → World → World) → Nat → World → Result World
  | _, 0, w => getCommandParameter g actionId w
  | between, k + 1, w => do
    let w ← getCommandParameter g actionId w
    getCommandParameterCalls g actionId (fun i => between (i + 1)) k (between 0 w)

/-- The parameter of a condition is in range: it is an index of the slice
that the predicate of the condition code reads (`objectLocation` for the
conditions on an object, `statusFlag` for BIT and -BIT). -/
def parameterInRange (w : World) (code param : Int) : Prop :=
  (code ∈ [1, 2, 3, 5, 6, 12, 13, 14, 17, 18] →
    0 ≤ param ∧ param < w.objectLocation.length) ∧
  (code ∈ [8, 9] → 0 ≤ param ∧ param < w.statusFlag.length)

instance (w : World) (code param : Int) : Decidable (parameterInRange w code param) := by
  unfold parameterInRange
  infer_instance

/-- The predicate of the condition code holds on the parameter in the
world. -/
def conditionHolds (w : World) (code param : Int) : Prop :=
  ∃ predicate, index conditionFunction code = some predicate ∧ predicate param w = .ok true

/-- The number of stored treasures: the objects whose location is the
treasure room and whose description starts with `*`. -/
def treasuresStored (g : Game) (w : World) : Nat :=
  (w.objectLocation.zip g.objectDescription).countP
    (fun p => decide (p.1 = g.treasureRoomId) && decide (p.2.data.head? = some '*'))

/-- The recurrence of the specification for the pseudo-random generator:
the state after `k` steps from the seed `s`,
`state <- (75 * (state + 1)) mod 65537`. -/
def specPrnState (s : Int) : Nat → Int
  | 0 => s
  | k + 1 => (75 * (specPrnState s k + 1)) % 65537

/-- The recurrence of the specification for the pseudo-random generator:
output number `n`, `(state mod 65536) mod 100` of the state after `n`
steps. -/
def specPrnOutput (s : Int) (n : Nat) : Int := (specPrnState s n % 65536) % 100

/-- The value returned by call number `n + 1` of `getPrn`, starting from the
world `w`. -/
def getPrnNth : Nat → World → Int
  | 0, w => (getPrn w).1
  | n + 1, w => getPrnNth n (getPrn w).2

/-- The first `n` characters of `s`, all of `s` when it is shorter: "cut to
the word length". -/
def cutTo (s : String) (n : Int) : String := String.mk (s.data.take n.toNat)

/-- A vocabulary entry matches a token in the column `verbOrNoun`: its text,
leading `*` stripped and cut to the word length, equals the upper-cased token
cut to the word length. -/
def entryMatches (g : Game) (verbOrNoun : Int) (token : String) (word : List String) : Prop :=
  ∃ text, index word verbOrNoun = some text ∧
    cutTo (trimLeft text '*') g.wordLength = cutTo (toUpper token) g.wordLength

/-- A vocabulary entry is a synonym in the column `verbOrNoun`: its text
starts with `*`. -/
def isSynonym (verbOrNoun : Int) (word : List String) : Prop :=
  ∃ text, index word verbOrNoun = some text ∧ text.data.head? = some '*'

/-- The id a token resolves to in the column `verbOrNoun`: 0 when no entry
matches; otherwise, with `word` the first entry that matches, the index of
the nearest entry at or before `word` that is not a synonym (and 0 when all
the entries up to `word` are synonyms). -/
def resolvesTo (g : Game) (verbOrNoun : Int) (token : String) (id : Int) : Prop :=
  (id = 0 ∧ ∀ word ∈ g.listOfVerbsAndNouns, ¬ entryMatches g verbOrNoun token word) ∨
  ∃ before word after, g.listOfVerbsAndNouns = before ++ word :: after ∧
    (∀ earlier ∈ before, ¬ entryMatches g verbOrNoun token earlier) ∧
    entryMatches g verbOrNoun token word ∧
    ((∃ start canonical synonyms, before ++ [word] = start ++ canonical :: synonyms ∧
        ¬ isSynonym verbOrNoun canonical ∧
        (∀ entry ∈ synonyms, isSynonym verbOrNoun entry) ∧ id = start.length) ∨
      ((∀ entry ∈ before ++ [word], isSynonym verbOrNoun entry) ∧ id = 0))

/-- The invariant kept by `nonSynonym` in the loop of `extractWords`, after
the entries `before`. -/
def nearestBefore (verbOrNoun : Int) (before : List (List String)) (nonSynonym : Int) : Prop :=
  (∃ start canonical synonyms, before = start ++ canonical :: synonyms ∧
      ¬ isSynonym verbOrNoun canonical ∧
      (∀ entry ∈ synonyms, isSynonym verbOrNoun entry) ∧ nonSynonym = start.length) ∨
    ((∀ entry ∈ before, isSynonym verbOrNoun entry) ∧ nonSynonym = 0)

/-- A property of the way a call ends: `post` of the value it returns, or
`atExit` of the world in which the process exits; a panic leaves no state to
speak of. -/
def Result.Holds {α : Type} (post : α → Prop) (atExit : World → Prop) : Result α → Prop
  | .ok a => post a
  | .exit w => atExit w
  | .panic => True

/-- A room id of the database: a value in `0..numberOfRooms`. -/
def roomInRange (g : Game) (room : Int) : Prop := 0 ≤ room ∧ room ≤ g.numberOfRooms

/-- A location of an object: -1 (carried) or a room id. -/
def locationInRange (g : Game) (location : Int) : Prop := location = -1 ∨ roomInRange g location

/-- Every object location is -1 or a room id, and the current room and the
alternate room registers hold room ids. -/
def locationsInRange (g : Game) (w : World) : Prop :=
  (∀ location ∈ w.objectLocation, locationInRange g location) ∧
  roomInRange g w.currentRoom ∧ ∀ room ∈ w.alternateRoom, roomInRange g room

instance (g : Game) (room : Int) : Decidable (roomInRange g room) := by
  unfold roomInRange; exact inferInstance

instance (g : Game) (location : Int) : Decidable (locationInRange g location) := by
  unfold locationInRange; exact inferInstance

instance (g : Game) (w : World) : Decidable (locationsInRange g w) := by
  unfold locationsInRange; exact inferInstance

/-- The parameters among the entries `slots` of an action record: `raw / 20`
of the entries whose code `raw % 20` is 0, in slot order. -/
def parametersOf (slots : List Int) : List Int :=
  (slots.filter (fun raw => raw.tmod 20 = 0)).map (fun raw => raw.tdiv 20)

/-- The parameters that the commands of action `actionId` still have to
fetch when the cursor is `cursor`, in the order in which `getCommandParameter`
hands them out: the parameters among the entries from slot `cursor` on. -/
def pendingAt (g : Game) (actionId cursor : Int) : List Int :=
  match index g.actionData actionId with
  | none => []
  | some record => parametersOf (record.drop cursor.toNat)

/-- The number of calls of `getCommandParameter` in each entry of
`commandFunction`, in table order. -/
def commandArities : List Nat :=
  [1, 1, 1, 1, 0, 0,
   1, 1, 1, 0, 2, 0,
   0, 0, 0, 0, 0, 0,
   0, 0, 2, 0, 1, 2,
   0, 0, 0, 1, 0, 1,
   1, 1, 0, 0, 0, 1,
   0]

/-- The number of parameters that the command with the code `code` of a
command slot fetches: that of the entry `code - 52` of the table, and 0 for a
code that is no command. -/
def commandArity (code : Int) : Nat := (index commandArities (code - 52)).getD 0

/-- The parameter that the command with the code `code` stores as a room is
in range, when `pending` are the parameters it still has to fetch: GOTOy
(code 54) stores its parameter as the current room, x->y (code 62) stores its
second parameter as the location of an object; no other command stores a
parameter as a room.  A parameter that is missing is not stored. -/
def roomsOk (g : Game) (code : Int) (pending : List Int) : Bool :=
  if code = 54 then pending.head?.all (fun room => decide (roomInRange g room))
  else if code = 62 then
    (pending.drop 1).head?.all (fun location => decide (locationInRange g location))
  else true

/-- The parameters that the commands number `commands` of action `actionId`
store as rooms are in range, when `pending` are the parameters still to be
fetched before the first of them. -/
def roomParametersOk (g : Game) (actionId : Int) : List Int → List Int → Bool
  | [], _ => true
  | command :: commands, pending =>
    match decodeCommandFromData g command actionId with
    | .ok code =>
      roomsOk g code pending &&
        roomParametersOk g actionId commands (pending.drop (commandArity code))
    | _ => true

/-- Every parameter that a GOTOy of action `actionId` takes, and every second
parameter that an x->y of the action takes, is in range: a room id for GOTOy,
-1 or a room id for x->y.  The parameters are counted as `executeCommands`
hands them out to the four commands of the record, from the cursor 1; the
count goes over all four commands, also those after a command that stops the
execution. -/
def roomParametersInRange (g : Game) (actionId : Int) : Prop :=
  roomParametersOk g actionId [0, 1, 2, 3] (pendingAt g actionId 1) = true

instance (g : Game) (actionId : Int) : Decidable (roomParametersInRange g actionId) := by
  unfold roomParametersInRange; infer_instance

/-- What a command that fetches `arity` parameters keeps from the world `w` to
the world `w'`: the state of the generator and the log are the same, a set
continuation flag stays set, the cursor stays non-negative, the parameters
still to be fetched are the old ones without the first `arity`, and the
locations stay in range when `rooms` holds. -/
def commandStep (g : Game) (actionId : Int) (arity : Nat) (rooms : Prop) (w w' : World) :
    Prop :=
  w'.prngState = w.prngState ∧ w'.executed = w.executed ∧
  (w.contFlag = true → w'.contFlag = true) ∧
  0 ≤ w'.commandParameterIndex ∧
  pendingAt g actionId w'.commandParameterIndex
    = (pendingAt g actionId w.commandParameterIndex).drop arity ∧
  (rooms → locationsInRange g w → locationsInRange g w')

/-- The pseudo-random state and the log of executed actions are those of `w`. -/
def sameLog (w w' : World) : Prop :=
  w'.prngState = w.prngState ∧ w'.executed = w.executed

/-- Action `j` is a word action of the call `runActions(v, n)`: its verb is
`v` and its noun is 0 or `n`. -/
def wordMatches (g : Game) (v n j : Int) : Prop :=
  getActionVerb g j = .ok v ∧ (getActionNoun g j = .ok 0 ∨ getActionNoun g j = .ok n)

/-- Action `j` is a word action of the call `runActions(v, n)` whose
conditions hold in the world `w`. -/
def eligible (g : Game) (v n j : Int) (w : World) : Prop :=
  wordMatches g v n j ∧ evaluateConditions g j w = .ok true

/-- Action `j` is continuation-tagged: verb 0, noun 0. -/
def continuationTagged (g : Game) (j : Int) : Prop :=
  getActionVerb g j = .ok 0 ∧ getActionNoun g j = .ok 0

/-- Action `j` is automatic: verb 0, noun greater than 0. -/
def automaticTagged (g : Game) (j : Int) : Prop :=
  getActionVerb g j = .ok 0 ∧ ∃ t, t > 0 ∧ getActionNoun g j = .ok t

/-- What a scan for a verb other than 0 does to the pseudo-random state and
to the log: no value is drawn, and the actions it executes are word actions
of the call, and only while no word action has been executed
(`wordActionDone` false), or continuation-tagged actions. -/
def scanLog (g : Game) (v n : Int) (wordActionDone : Bool) (w w' : World) : Prop :=
  w'.prngState = w.prngState ∧
  ∃ rest, w'.executed = w.executed ++ rest ∧
    ∀ j ∈ rest, (wordActionDone = false ∧ wordMatches g v n j) ∨ continuationTagged g j

instance (g : Game) (v n j : Int) : Decidable (wordMatches g v n j) := by
  unfold wordMatches; exact inferInstance

instance (g : Game) (v n j : Int) (w : World) : Decidable (eligible g v n j w) := by
  unfold eligible; exact inferInstance

instance (g : Game) (j : Int) : Decidable (continuationTagged g j) := by
  unfold continuationTagged; exact inferInstance

/-- The continuation chain as the specification words it: the actions of
`chain` in table order, each one's commands executed if its conditions hold in
the world reached. -/
def runChain (g : Game) : List Int → World → Result World
  | [], w => pure w
  | currentAction :: chain, w => do
    let holds ← evaluateConditions g currentAction w
    if holds then runCommands g currentAction w >>= runChain g chain
    else runChain g chain w

/-! ## Sample data

A small database and world on which the theorems below are instantiated. -/

/-- A database with one action: header `1 * 150 + 7`, condition slots
`3 * 20 + 0`, `1 * 20 + 1`, `7 * 20 + 0`, `0`, `0`, command slots
`52 * 150 + 69` (GETx, FILL) and `110 * 150 + 3`. -/
def demoGame : Game :=
  { actionData := [[157, 60, 21, 140, 0, 0, 7869, 16503]]
    actionDescription := [""]
    adventureNumber := 1
    adventureVersion := 416
    listOfVerbsAndNouns := [["AUT", "ANY"], ["GO", "NORTH"]]
    maxObjectsCarried := 1
    message := ["", "OK", "Nothing happens"]
    numberOfRooms := 3
    numberOfTreasures := 4
    objectDescription := ["*GOLD COIN*/COI/", "Rusty axe/AXE/", "*RUBY*", "*CROWN*", "*PEARL*"]
    objectOriginalLocation := [2, 1, 2, 1, 3]
    roomDescription := ["", "forest", "*I'm in a cave", "swamp"]
    roomExit := [[0, 0, 0, 0, 0, 0], [2, 0, 0, 0, 0, 0], [0, 1, 0, 0, 0, 0], [0, 0, 0, 0, 0, 0]]
    timeLimit := 125
    treasureRoomId := 2
    wordLength := 3 }

/-- A world for `demoGame`: the player is in room 1 and carries object 1. -/
def demoWorld : World :=
  { alternateCounter := [0, 0, 0, 0, 0, 0, 0, 0, 125]
    alternateRoom := [0, 0, 0, 0, 0, 0]
    commandParameter := 0
    commandParameterIndex := 0
    contFlag := false
    counterRegister := 0
    currentRoom := 1
    objectLocation := [2, -1, 2, 1, 3]
    statusFlag := List.replicate 32 false
    globalNoun := ""
    prngState := 0
    output := []
    saved := [] }

/-- The sample world with all four treasures in the treasure room. -/
def demoWorldAllStored : World :=
  { demoWorld with objectLocation := [2, -1, 2, 2, 2] }

/-- A database with 50 treasures, all described as `*GEM*`. -/
def gemGame : Game :=
  { demoGame with numberOfTreasures := 50, objectDescription := List.replicate 50 "*GEM*" }

/-- A world for `gemGame` with 29 of the 50 treasures in the treasure room
(room 2) and the other 21 in room 1. -/
def gemWorld : World :=
  { demoWorld with objectLocation := List.replicate 29 2 ++ List.replicate 21 1 }

/-- A world with ten objects, the light source (object 9) lying in room 3,
the countdown at 7 and the lamp-empty flag set. -/
def lampWorld : World :=
  { demoWorld with
    alternateCounter := [0, 0, 0, 0, 0, 0, 0, 0, 7]
    objectLocation := [2, -1, 2, 1, 3, 0, 0, 0, 0, 3]
    statusFlag := List.replicate 16 false ++ [true] ++ List.replicate 15 false }

/-- A database with word length 5 whose nouns 1..6 are the directions, with
TAKE and its synonym GET among the verbs, and without actions. -/
def vocabGame : Game :=
  { demoGame with
    actionData := []
    actionDescription := []
    wordLength := 5
    listOfVerbsAndNouns :=
      [["AUT", "ANY"], ["GO", "NORTH"], ["TAKE", "SOUTH"], ["*GET", "EAST"],
       ["DROP", "WEST"], ["", "UP"], ["", "DOWN"]] }

/-- A database with two actions: action 0 is a continuation action (verb 0,
noun 0) that prints message 1, action 1 is for verb 2 and runs CONT (slot
value 73). -/
def contLastGame : Game :=
  { demoGame with
    actionData := [[0, 0, 0, 0, 0, 0, 150, 0], [300, 0, 0, 0, 0, 0, 10950, 0]]
    actionDescription := ["", ""] }

/-- A database with five actions: action 0 is for verb 2 and runs CONT,
actions 1 and 2 are continuation actions that print messages 1 and 2,
action 3 is for verb 3 and has no command, action 4 is a continuation action
that prints message 1. -/
def chainGame : Game :=
  { demoGame with
    actionData :=
      [[300, 0, 0, 0, 0, 0, 10950, 0], [0, 0, 0, 0, 0, 0, 150, 0], [0, 0, 0, 0, 0, 0, 300, 0],
       [450, 0, 0, 0, 0, 0, 0, 0], [0, 0, 0, 0, 0, 0, 150, 0]]
    actionDescription := ["", "", "", "", ""] }

/-- A database whose verb 2 is NO, with one action for verb 2 that has no
condition, and whose nouns 1..6 are the directions. -/
def shortcutGame : Game :=
  { demoGame with
    actionData := [[300, 0, 0, 0, 0, 0, 0, 0]]
    actionDescription := [""]
    listOfVerbsAndNouns :=
      [["AUT", "ANY"], ["GO", "NORTH"], ["NO", "SOUTH"], ["", "EAST"], ["", "WEST"],
       ["", "UP"], ["", "DOWN"]] }

/-- Sample: `demoGame` with one action whose commands are x->y (62), with
the parameters object 0 and room 7, a room number past `numberOfRooms`, and
message 1. -/
def farRoomGame : Game :=
  { demoGame with actionData := [[0, 0, 140, 0, 0, 0, 9301, 0]] }

/-- Sample: `demoGame` with one action whose only command is x->y (62), with
the parameters object 0 and room 2, a room of the game.  The command slot
`62 * 150` is a multiple of 20 and no command fetches it. -/
def plainRoomGame : Game :=
  { demoGame with actionData := [[0, 0, 40, 0, 0, 0, 9300, 0]] }

/-- Sample: `demoGame` with room for two carried objects and one action,
for verb 1 and noun 7, whose only command is GETx (52), with the parameter
object 3. -/
def takeGame : Game :=
  { demoGame with actionData := [[157, 60, 0, 0, 0, 0, 7800, 0]], maxObjectsCarried := 2 }

/-- Sample: `demoGame` with one action whose commands are GOTOy (54) and DROPx
(53), with the parameters room 7 and object 1. -/
def gotoDropGame : Game :=
  { demoGame with actionData := [[0, 140, 20, 0, 0, 0, 8153, 0]] }

/-- Sample: `demoGame` with one action whose commands are EXRM0 (80) and DROPx
(53), with the parameter object 1. -/
def swapRoomGame : Game :=
  { demoGame with actionData := [[0, 20, 0, 0, 0, 0, 12053, 0]] }

/-- Sample: `demoGame` with one automatic action, verb 0 and threshold 50,
that prints message 1. -/
def autGame : Game :=
  { demoGame with actionData := [[50, 0, 0, 0, 0, 0, 150, 0]], actionDescription := [""] }

/-- Sample: `demoGame` with one action, for verb 2 and noun 3, without
conditions or commands. -/
def nounGame : Game :=
  { demoGame with actionData := [[303, 0, 0, 0, 0, 0, 0, 0]], actionDescription := [""] }

/-- Sample: `nounGame` with the condition that the player is in room 2 (slot
value `2 * 20 + 4`) on its action. -/
def lockedGame : Game :=
  { demoGame with actionData := [[303, 44, 0, 0, 0, 0, 0, 0]], actionDescription := [""] }

/-- Sample: `demoGame` with one action whose first command slot holds
`89 * 150`, the command code 89. -/
def pastTableGame : Game :=
  { demoGame with actionData := [[0, 0, 0, 0, 0, 0, 13350, 0]] }

/-- Sample: `demoGame` with one action without a code-0 entry in its
condition slots, whose first command slot holds `52 * 150` (GETx). -/
def noParameterGame : Game :=
  { demoGame with actionData := [[0, 1, 1, 1, 1, 1, 7800, 0]] }

/-- Sample: `demoGame` with one action without a code-0 entry in any slot. -/
def noSentinelGame : Game :=
  { demoGame with actionData := [[0, 1, 1, 1, 1, 1, 1, 1]] }

/-- Sample: a world in room 1 at night, with the light source (object 9)
carried and EAST as the noun of the command. -/
def nightWorld : World :=
  { demoWorld with
    objectLocation := [2, -1, 2, 1, 3, 0, 0, 0, 0, -1]
    statusFlag := List.replicate 15 false ++ [true] ++ List.replicate 16 false
    foundWord := [1, 3] }

/-- Sample: the variables after loading a text without a number: every
number is 0, there is one action of eight zeros, one pair of empty words, one
empty message and one empty action description, and no room and no object. -/
def emptyLoaded : Loaded :=
  { game :=
      { actionData := [[0, 0, 0, 0, 0, 0, 0, 0]]
        actionDescription := [""]
        adventureNumber := 0
        adventureVersion := 0
        listOfVerbsAndNouns := [["", ""]]
        maxObjectsCarried := 0
        message := [""]
        numberOfRooms := 0
        numberOfTreasures := 0
        objectDescription := []
        objectOriginalLocation := []
        roomDescription := []
        roomExit := []
        timeLimit := 0
        treasureRoomId := 0
        wordLength := 0 }
    gameBytes := 0
    numberOfActions := 0
    numberOfMessages := 0
    numberOfObjects := 0
    numberOfWords := 0
    objectLocation := []
    startingRoom := 0 }

/-! ## Basic facts about the embedding -/

@[simp] theorem Result.ok_bind {α β : Type} (a : α) (f : α → Result β) :
    (Result.ok a >>= f) = f a := rfl

@[simp] theorem Result.panic_bind {α β : Type} (f : α → Result β) :
    ((Result.panic : Result α) >>= f) = Result.panic := rfl

@[simp] theorem Result.exit_bind {α β : Type} (w : World) (f : α → Result β) :
    ((Result.exit w : Result α) >>= f) = Result.exit w := rfl

@[simp] theorem Result.pure_eq {α : Type} (a : α) : (pure a : Result α) = Result.ok a := rfl

@[simp] theorem orPanic_some {α : Type} (a : α) : orPanic (some a) = Result.ok a := rfl

@[simp] theorem orPanic_none {α : Type} : orPanic (none : Option α) = Result.panic := rfl

/-- Go's truncated quotient by 150 of `q * 150 + r` with `0 ≤ r < 150`. -/
theorem tdiv_pack (d q r : Int) (hd : 0 < d) (hq : 0 ≤ q) (hr : 0 ≤ r ∧ r < d) :
    (q * d + r).tdiv d = q := by
  have h0 : (0 : Int) ≤ q * d + r := by nlinarith
  rw [Int.tdiv_eq_ediv h0 hd.le]
  rw [Int.add_comm, Int.add_mul_ediv_right _ _ (ne_of_gt hd), Int.ediv_eq_zero_of_lt hr.1 hr.2]
  simp

/-- Go's remainder by `d` of `q * d + r` with `0 ≤ r < d`. -/
theorem tmod_pack (d q r : Int) (hd : 0 < d) (hq : 0 ≤ q) (hr : 0 ≤ r ∧ r < d) :
    (q * d + r).tmod d = r := by
  have h0 : (0 : Int) ≤ q * d + r := by nlinarith
  rw [Int.tmod_eq_emod h0 hd.le]
  rw [Int.add_comm, Int.add_mul_emod_self, Int.emod_eq_of_lt hr.1 hr.2]

/-! ## Action record codec: round trips -/

/-- C1: for verb and noun in 0..149, a record whose header is
`verb * 150 + noun` decodes to that pair: `getActionVerb` returns `verb` and
`getActionNoun` returns `noun`. -/
theorem header_roundtrip (g : Game) (actionId : Int) (record : List Int) (verb noun : Int)
    (hrecord : index g.actionData actionId = some record)
    (hheader : index record 0 = some (verb * 150 + noun))
    (hverb : 0 ≤ verb ∧ verb ≤ 149) (hnoun : 0 ≤ noun ∧ noun ≤ 149) :
    getActionVerb g actionId = .ok verb ∧ getActionNoun g actionId = .ok noun := by
  have hd := tdiv_pack 150 verb noun (by decide) hverb.1 ⟨hnoun.1, by omega⟩
  have hm := tmod_pack 150 verb noun (by decide) hverb.1 ⟨hnoun.1, by omega⟩
  simp [getActionVerb, getActionNoun, hrecord, hheader, COMMAND_CODE_DIVISOR, hd, hm]

/-- C1 at the header `1 * 150 + 7` of the sample action. -/
theorem header_roundtrip_witness :
    getActionVerb demoGame 0 = .ok 1 ∧ getActionNoun demoGame 0 = .ok 7 :=
  header_roundtrip demoGame 0 [157, 60, 21, 140, 0, 0, 7869, 16503] 1 7
    (by decide) (by decide) (by decide) (by decide)

/-- C2: for a code in 0..19 and a parameter that is not negative, a condition
slot holding `param * 20 + code` decodes to the pair: `getConditionCode`
returns `code` and `getConditionParameter` returns `param`. -/
theorem condition_roundtrip (g : Game) (actionId condition : Int) (record : List Int)
    (code param : Int)
    (hrecord : index g.actionData actionId = some record)
    (hslot : index record condition = some (param * 20 + code))
    (hcode : 0 ≤ code ∧ code ≤ 19) (hparam : 0 ≤ param) :
    getConditionCode g actionId condition = .ok code ∧
    getConditionParameter g actionId condition = .ok param := by
  have hd := tdiv_pack 20 param code (by decide) hparam ⟨hcode.1, by omega⟩
  have hm := tmod_pack 20 param code (by decide) hparam ⟨hcode.1, by omega⟩
  simp [getConditionCode, getConditionParameter, hrecord, hslot, CONDITION_DIVISOR, hd, hm]

/-- C2 at slot 2 of the sample action, which holds `1 * 20 + 1`. -/
theorem condition_roundtrip_witness :
    getConditionCode demoGame 0 2 = .ok 1 ∧ getConditionParameter demoGame 0 2 = .ok 1 :=
  condition_roundtrip demoGame 0 2 [157, 60, 21, 140, 0, 0, 7869, 16503] 1 1
    (by decide) (by decide) (by decide) (by decide)

/-- C3: for four codes in 0..149, a record whose slot 6 is `c0 * 150 + c1`
and whose slot 7 is `c2 * 150 + c3` gives `decodeCommandFromData i = c_i` for
the command indices 0, 1, 2 and 3. -/
theorem command_roundtrip (g : Game) (actionId : Int) (record : List Int) (c0 c1 c2 c3 : Int)
    (hrecord : index g.actionData actionId = some record)
    (hslot6 : index record 6 = some (c0 * 150 + c1))
    (hslot7 : index record 7 = some (c2 * 150 + c3))
    (h0 : 0 ≤ c0 ∧ c0 ≤ 149) (h1 : 0 ≤ c1 ∧ c1 ≤ 149)
    (h2 : 0 ≤ c2 ∧ c2 ≤ 149) (h3 : 0 ≤ c3 ∧ c3 ≤ 149) :
    decodeCommandFromData g 0 actionId = .ok c0 ∧
    decodeCommandFromData g 1 actionId = .ok c1 ∧
    decodeCommandFromData g 2 actionId = .ok c2 ∧
    decodeCommandFromData g 3 actionId = .ok c3 := by
  have hd6 := tdiv_pack 150 c0 c1 (by decide) h0.1 ⟨h1.1, by omega⟩
  have hd7 := tdiv_pack 150 c2 c3 (by decide) h2.1 ⟨h3.1, by omega⟩
  have e0 : (0 : Int).tdiv 2 + 6 = 6 := by decide
  have e1 : (1 : Int).tdiv 2 + 6 = 6 := by decide
  have e2 : (2 : Int).tdiv 2 + 6 = 7 := by decide
  have e3 : (3 : Int).tdiv 2 + 6 = 7 := by decide
  have m0 : (0 : Int).tmod 2 = 0 := by decide
  have m1 : (1 : Int).tmod 2 = 1 := by decide
  have m2 : (2 : Int).tmod 2 = 0 := by decide
  have m3 : (3 : Int).tmod 2 = 1 := by decide
  simp [decodeCommandFromData, hrecord, hslot6, hslot7, COMMAND_CODE_DIVISOR,
    ACTION_COMMAND_OFFSET, hd6, hd7, e0, e1, e2, e3, m0, m1, m2, m3]

/-- C3 at the sample action: slot 6 is `52 * 150 + 69`, slot 7 is
`110 * 150 + 3`. -/
theorem command_roundtrip_witness :
    decodeCommandFromData demoGame 0 0 = .ok 52 ∧
    decodeCommandFromData demoGame 1 0 = .ok 69 ∧
    decodeCommandFromData demoGame 2 0 = .ok 110 ∧
    decodeCommandFromData demoGame 3 0 = .ok 3 :=
  command_roundtrip demoGame 0 [157, 60, 21, 140, 0, 0, 7869, 16503] 52 69 110 3
    (by decide) (by decide) (by decide) (by decide) (by decide) (by decide) (by decide)

/-! ## The parameter cursor -/

/-- The code computed by `getCommandParameter` is Go's remainder by 20. -/
theorem sub_tdiv_mul (raw : Int) : raw - raw.tdiv 20 * 20 = raw.tmod 20 := by
  rw [Int.tmod_def]; ring

/-- One run of the loop of `getCommandParameter` stops at the first slot
whose code is 0. -/
theorem getCommandParameterLoop_first (raws : List Int) :
    ∀ (c : Int) (w : World) (s0 r0 : Int) (rest : List (Int × Int)),
      w.commandParameterIndex = c →
      sentinelsFrom raws c = (s0, r0) :: rest →
      ∃ n, n < raws.length ∧ s0 = c + n ∧ raws[n]? = some r0 ∧ r0.tmod 20 = 0 ∧
        getCommandParameterLoop raws w =
          .ok { w with commandParameter := r0.tdiv 20, commandParameterIndex := s0 + 1 } ∧
        rest = sentinelsFrom (raws.drop (n + 1)) (s0 + 1) := by
  induction raws with
  | nil => intro c w s0 r0 rest _ h; simp [sentinelsFrom] at h
  | cons raw raws ih =>
    intro c w s0 r0 rest hc h
    by_cases hraw : raw.tmod 20 = 0
    · simp only [sentinelsFrom, hraw, if_true, List.cons.injEq, Prod.mk.injEq] at h
      obtain ⟨⟨rfl, rfl⟩, rfl⟩ := h
      refine ⟨0, by simp, by simp, by simp, hraw, ?_, by simp⟩
      simp [getCommandParameterLoop, CONDITION_DIVISOR, PAR_CONDITION_CODE, sub_tdiv_mul, hraw, hc]
    · simp only [sentinelsFrom, hraw, if_false] at h
      obtain ⟨n, hn, hs, hget, hr0, hloop, hrest⟩ :=
        ih (c + 1) { w with commandParameter := raw.tdiv 20,
                            commandParameterIndex := w.commandParameterIndex + 1 }
          s0 r0 rest (by simp [hc]) h
      refine ⟨n + 1, by simp [hn], by omega, by simpa using hget, hr0, ?_, by simpa using hrest⟩
      simp only [getCommandParameterLoop, CONDITION_DIVISOR, PAR_CONDITION_CODE, sub_tdiv_mul]
      simp only [ne_eq, hraw, not_false_eq_true, if_true]
      exact hloop

/-- Slots after the one at which the loop stops are not read. -/
theorem getCommandParameterLoop_append (raws tail : List Int) :
    ∀ (w w' : World), getCommandParameterLoop raws w = .ok w' →
      getCommandParameterLoop (raws ++ tail) w = .ok w' := by
  induction raws with
  | nil => intro w w' h; simp [getCommandParameterLoop] at h
  | cons raw raws ih =>
    intro w w' h
    simp only [getCommandParameterLoop, List.cons_append] at h ⊢
    split
    · rename_i hc
      rw [if_pos hc] at h
      exact ih _ _ h
    · rename_i hc
      rw [if_neg hc] at h
      exact h

/-- With a cursor that is not negative, `getCommandParameter` is its loop on
the slots from the cursor on. -/
theorem getCommandParameter_eq_loop (g : Game) (actionId : Int) (record : List Int) (w : World)
    (hrecord : index g.actionData actionId = some record) (hc : 0 ≤ w.commandParameterIndex) :
    getCommandParameter g actionId w =
      getCommandParameterLoop (record.drop w.commandParameterIndex.toNat) w := by
  have hneg : ¬ w.commandParameterIndex < 0 := by omega
  simp [getCommandParameter, hrecord, hneg]

/-- Call `k + 1` from a cursor `c` stops at the slot number `k` (from 0) of
the code-0 slots at or after `c`. -/
theorem getCommandParameterCalls_spec (g : Game) (actionId : Int) (record tail : List Int)
    (hrecord : index g.actionData actionId = some record) :
    ∀ (k : Nat) (raws : List Int) (c : Int) (w : World) (between : Nat → World → World)
      (slot raw : Int),
      (∀ i w, (between i w).commandParameterIndex = w.commandParameterIndex) →
      0 ≤ c → w.commandParameterIndex = c →
      record.drop c.toNat = raws ++ tail →
      (sentinelsFrom raws c)[k]? = some (slot, raw) →
      ∃ w', getCommandParameterCalls g actionId between k w = .ok w' ∧
        w'.commandParameter = raw.tdiv 20 ∧ w'.commandParameterIndex = slot + 1 := by
  intro k
  induction k with
  | zero =>
    intro raws c w between slot raw _ hc0 hc hdrop hk
    cases hs : sentinelsFrom raws c with
    | nil => simp [hs] at hk
    | cons p rest =>
      obtain ⟨s0, r0⟩ := p
      rw [hs] at hk
      simp only [List.getElem?_cons_zero, Option.some.injEq, Prod.mk.injEq] at hk
      obtain ⟨rfl, rfl⟩ := hk
      obtain ⟨n, _, _, _, _, hloop, _⟩ := getCommandParameterLoop_first raws c w s0 r0 rest hc hs
      refine ⟨{ w with commandParameter := r0.tdiv 20, commandParameterIndex := s0 + 1 },
        ?_, rfl, rfl⟩
      rw [getCommandParameterCalls, getCommandParameter_eq_loop g actionId record w hrecord
        (by omega), hc, hdrop]
      exact getCommandParameterLoop_append raws tail w _ hloop
  | succ k ih =>
    intro raws c w between slot raw hbetween hc0 hc hdrop hk
    cases hs : sentinelsFrom raws c with
    | nil => simp [hs] at hk
    | cons p rest =>
      obtain ⟨s0, r0⟩ := p
      rw [hs] at hk
      simp only [List.getElem?_cons_succ] at hk
      obtain ⟨n, hn, hs0, _, _, hloop, hrest⟩ :=
        getCommandParameterLoop_first raws c w s0 r0 rest hc hs
      have hcall : getCommandParameter g actionId w =
          .ok { w with commandParameter := r0.tdiv 20, commandParameterIndex := s0 + 1 } := by
        rw [getCommandParameter_eq_loop g actionId record w hrecord (by omega), hc, hdrop]
        exact getCommandParameterLoop_append raws tail w _ hloop
      simp only [getCommandParameterCalls, hcall, Result.ok_bind]
      apply ih (raws.drop (n + 1)) (s0 + 1) _ (fun i => between (i + 1)) slot raw
      · intro i w; exact hbetween (i + 1) w
      · omega
      · rw [hbetween]
      · have h1 : (s0 + 1).toNat = c.toNat + (n + 1) := by omega
        rw [h1, ← List.drop_drop, hdrop, List.drop_append_of_le_length (by omega)]
      · rw [← hrest]; exact hk

/-- Every entry of `sentinelsFrom` is a slot of the list with code 0. -/
theorem sentinelsFrom_getElem (raws : List Int) :
    ∀ (c : Int) (k : Nat) (slot raw : Int), (sentinelsFrom raws c)[k]? = some (slot, raw) →
      ∃ n, n < raws.length ∧ slot = c + n ∧ raws[n]? = some raw ∧ raw.tmod 20 = 0 := by
  induction raws with
  | nil => intro c k slot raw h; simp [sentinelsFrom] at h
  | cons r raws ih =>
    intro c k slot raw h
    by_cases hr : r.tmod 20 = 0
    · simp only [sentinelsFrom, hr, if_true] at h
      cases k with
      | zero =>
        simp only [List.getElem?_cons_zero, Option.some.injEq, Prod.mk.injEq] at h
        obtain ⟨rfl, rfl⟩ := h
        exact ⟨0, by simp, by simp, by simp, hr⟩
      | succ k =>
        simp only [List.getElem?_cons_succ] at h
        obtain ⟨n, hn, hs, hg, hm⟩ := ih (c + 1) k slot raw h
        exact ⟨n + 1, by simp [hn], by omega, by simpa using hg, hm⟩
    · simp only [sentinelsFrom, hr, if_false] at h
      obtain ⟨n, hn, hs, hg, hm⟩ := ih (c + 1) k slot raw h
      exact ⟨n + 1, by simp [hn], by omega, by simpa using hg, hm⟩

/-- C4: command parameters are threaded through the condition slots in
order.  If slots 1..5 of the action record hold at least `k + 1` slots whose
code is 0 and `(slot, raw)` is number `k` of them (counting from 0, in slot
order), then, after `executeCommands` has set the cursor to 1, call `k + 1`
of `getCommandParameter` returns with `commandParameter = raw / 20` and the
cursor at `slot + 1`, whatever the interpreter does between the calls as long
as it leaves the cursor alone. -/
theorem parameter_threading (g : Game) (actionId : Int) (record : List Int)
    (between : Nat → World → World) (w : World) (k : Nat) (slot raw : Int)
    (hrecord : index g.actionData actionId = some record)
    (hbetween : ∀ i w, (between i w).commandParameterIndex = w.commandParameterIndex)
    (hk : (parameterSlots record)[k]? = some (slot, raw)) :
    1 ≤ slot ∧ slot ≤ 5 ∧ index record slot = some raw ∧ raw.tmod 20 = 0 ∧
    ∃ w', getCommandParameterCalls g actionId between k { w with commandParameterIndex := 1 }
        = .ok w' ∧
      w'.commandParameter = raw.tdiv 20 ∧ w'.commandParameterIndex = slot + 1 := by
  obtain ⟨n, hn, hs, hg, hm⟩ := sentinelsFrom_getElem _ 1 k slot raw hk
  have hn5 : n < 5 := by
    have := List.length_take_le 5 (record.drop 1); omega
  refine ⟨by omega, by omega, ?_, hm, ?_⟩
  · have hneg : ¬ slot < 0 := by omega
    have hnat : slot.toNat = 1 + n := by omega
    rw [List.getElem?_take_of_lt hn5, List.getElem?_drop] at hg
    simp [index, hneg, hnat, hg]
  · apply getCommandParameterCalls_spec g actionId record (record.drop 6) hrecord k
      ((record.drop 1).take 5) 1 _ between slot raw hbetween (by decide) rfl _ hk
    show List.drop 1 record = List.take 5 (List.drop 1 record) ++ List.drop 6 record
    have : List.drop 6 record = List.drop 5 (List.drop 1 record) := by
      rw [List.drop_drop]
    rw [this, List.take_append_drop]

/-- C4 at the sample action, whose code-0 slots are 1, 3, 4 and 5: the second
call takes the parameter 7 of slot 3, which holds 140. -/
theorem parameter_threading_witness :
    1 ≤ (3 : Int) ∧ (3 : Int) ≤ 5 ∧
    index [157, 60, 21, 140, 0, 0, 7869, 16503] (3 : Int) = some (140 : Int) ∧
    (140 : Int).tmod 20 = 0 ∧
    ∃ w', getCommandParameterCalls demoGame 0 (fun _ w => w) 1
        { demoWorld with commandParameterIndex := 1 } = .ok w' ∧
      w'.commandParameter = (140 : Int).tdiv 20 ∧ w'.commandParameterIndex = 3 + 1 :=
  parameter_threading demoGame 0 [157, 60, 21, 140, 0, 0, 7869, 16503] (fun _ w => w)
    demoWorld 1 3 140 (by decide) (fun _ _ => rfl) (by decide)

/-! ## Condition evaluation -/

/-- An index within the bounds of a slice reads an element. -/
theorem index_of_lt {α : Type} (s : List α) (i : Int) (h0 : 0 ≤ i) (h : i < s.length) :
    ∃ x, index s i = some x := by
  have hneg : ¬ i < 0 := by omega
  have hlt : i.toNat < s.length := by omega
  exact ⟨s[i.toNat], by simp [index, hneg, hlt]⟩

/-- With a code in 0..19 and a parameter in range, the predicate of the code
returns; the predicate of code 0 returns true. -/
theorem conditionFunction_returns (w : World) (code param : Int)
    (hcode : 0 ≤ code ∧ code < 20) (hrange : parameterInRange w code param) :
    ∃ predicate, index conditionFunction code = some predicate ∧
      ∃ b, predicate param w = .ok b ∧ (code = 0 → b = true) := by
  obtain ⟨h0, h20⟩ := hcode
  obtain ⟨hobj, hflag⟩ := hrange
  interval_cases code
  case «0» => exact ⟨condPar, rfl, true, rfl, fun _ => rfl⟩
  case «1» =>
    obtain ⟨x, hx⟩ := index_of_lt w.objectLocation param (hobj (by decide)).1 (hobj (by decide)).2
    refine ⟨condHAS, rfl, ?_⟩
    simp only [condHAS, hx, orPanic_some, Result.ok_bind, Result.pure_eq]
    exact ⟨_, rfl, fun h => absurd h (by decide)⟩
  case «2» =>
    obtain ⟨x, hx⟩ := index_of_lt w.objectLocation param (hobj (by decide)).1 (hobj (by decide)).2
    refine ⟨condINW, rfl, ?_⟩
    simp only [condINW, hx, orPanic_some, Result.ok_bind, Result.pure_eq]
    exact ⟨_, rfl, fun h => absurd h (by decide)⟩
  case «3» =>
    obtain ⟨x, hx⟩ := index_of_lt w.objectLocation param (hobj (by decide)).1 (hobj (by decide)).2
    refine ⟨condAVL, rfl, ?_⟩
    simp only [condAVL, hx, orPanic_some, Result.ok_bind, Result.pure_eq]
    exact ⟨_, rfl, fun h => absurd h (by decide)⟩
  case «4» => exact ⟨condIN, rfl, _, rfl, fun h => absurd h (by decide)⟩
  case «5» =>
    obtain ⟨x, hx⟩ := index_of_lt w.objectLocation param (hobj (by decide)).1 (hobj (by decide)).2
    refine ⟨condNotINW, rfl, ?_⟩
    simp only [condNotINW, hx, orPanic_some, Result.ok_bind, Result.pure_eq]
    exact ⟨_, rfl, fun h => absurd h (by decide)⟩
  case «6» =>
    obtain ⟨x, hx⟩ := index_of_lt w.objectLocation param (hobj (by decide)).1 (hobj (by decide)).2
    refine ⟨condNotHAVE, rfl, ?_⟩
    simp only [condNotHAVE, hx, orPanic_some, Result.ok_bind, Result.pure_eq]
    exact ⟨_, rfl, fun h => absurd h (by decide)⟩
  case «7» => exact ⟨condNotIN, rfl, _, rfl, fun h => absurd h (by decide)⟩
  case «8» =>
    obtain ⟨x, hx⟩ := index_of_lt w.statusFlag param (hflag (by decide)).1 (hflag (by decide)).2
    refine ⟨condBIT, rfl, ?_⟩
    simp only [condBIT, hx, orPanic_some, Result.ok_bind, Result.pure_eq]
    exact ⟨_, rfl, fun h => absurd h (by decide)⟩
  case «9» =>
    obtain ⟨x, hx⟩ := index_of_lt w.statusFlag param (hflag (by decide)).1 (hflag (by decide)).2
    refine ⟨condNotBIT, rfl, ?_⟩
    simp only [condNotBIT, hx, orPanic_some, Result.ok_bind, Result.pure_eq]
    exact ⟨_, rfl, fun h => absurd h (by decide)⟩
  case «10» => exact ⟨condANY, rfl, _, rfl, fun h => absurd h (by decide)⟩
  case «11» => exact ⟨condNotANY, rfl, _, rfl, fun h => absurd h (by decide)⟩
  case «12» =>
    obtain ⟨x, hx⟩ := index_of_lt w.objectLocation param (hobj (by decide)).1 (hobj (by decide)).2
    refine ⟨condNotAVL, rfl, ?_⟩
    simp only [condNotAVL, hx, orPanic_some, Result.ok_bind, Result.pure_eq]
    exact ⟨_, rfl, fun h => absurd h (by decide)⟩
  case «13» =>
    obtain ⟨x, hx⟩ := index_of_lt w.objectLocation param (hobj (by decide)).1 (hobj (by decide)).2
    refine ⟨condNotRM0, rfl, ?_⟩
    simp only [condNotRM0, hx, orPanic_some, Result.ok_bind, Result.pure_eq]
    exact ⟨_, rfl, fun h => absurd h (by decide)⟩
  case «14» =>
    obtain ⟨x, hx⟩ := index_of_lt w.objectLocation param (hobj (by decide)).1 (hobj (by decide)).2
    refine ⟨condRM0, rfl, ?_⟩
    simp only [condRM0, hx, orPanic_some, Result.ok_bind, Result.pure_eq]
    exact ⟨_, rfl, fun h => absurd h (by decide)⟩
  case «15» => exact ⟨condCTle, rfl, _, rfl, fun h => absurd h (by decide)⟩
  case «16» => exact ⟨condCTgt, rfl, _, rfl, fun h => absurd h (by decide)⟩
  case «17» =>
    obtain ⟨x, hx⟩ := index_of_lt w.objectLocation param (hobj (by decide)).1 (hobj (by decide)).2
    refine ⟨condORIG, rfl, ?_⟩
    simp only [condORIG, hx, orPanic_some, Result.ok_bind, Result.pure_eq]
    exact ⟨_, rfl, fun h => absurd h (by decide)⟩
  case «18» =>
    obtain ⟨x, hx⟩ := index_of_lt w.objectLocation param (hobj (by decide)).1 (hobj (by decide)).2
    refine ⟨condNotORIG, rfl, ?_⟩
    simp only [condNotORIG, hx, orPanic_some, Result.ok_bind, Result.pure_eq]
    exact ⟨_, rfl, fun h => absurd h (by decide)⟩
  case «19» => exact ⟨condCTeq, rfl, _, rfl, fun h => absurd h (by decide)⟩

/-- The loop of `evaluateConditions` over any list of slots that hold values
that are not negative, with parameters in range: it returns, and it returns
true exactly when the predicate of every slot with a code other than 0
holds. -/
theorem evaluateConditionsLoop_spec (g : Game) (actionId : Int) (record : List Int) (w : World)
    (hrecord : index g.actionData actionId = some record) (slots : List Int) :
    (∀ slot ∈ slots, ∃ raw, index record slot = some raw ∧ 0 ≤ raw ∧
      parameterInRange w (raw.tmod 20) (raw.tdiv 20)) →
    ∃ b, evaluateConditionsLoop g actionId w slots = .ok b ∧
      (b = true ↔ ∀ slot ∈ slots, ∀ raw, index record slot = some raw → raw.tmod 20 ≠ 0 →
        conditionHolds w (raw.tmod 20) (raw.tdiv 20)) := by
  induction slots with
  | nil => intro _; exact ⟨true, rfl, by simp⟩
  | cons slot slots ih =>
    intro hslots
    obtain ⟨raw, hraw, hnonneg, hrange⟩ := hslots slot (List.mem_cons_self _ _)
    obtain ⟨b, hloop, hb⟩ := ih (fun s hs => hslots s (List.mem_cons_of_mem _ hs))
    have hcode : 0 ≤ raw.tmod 20 ∧ raw.tmod 20 < 20 := by
      rw [Int.tmod_eq_emod hnonneg (by decide)]; omega
    obtain ⟨predicate, hpred, success, hsuccess, hzero⟩ :=
      conditionFunction_returns w _ _ hcode hrange
    have hstep : evaluateConditionsLoop g actionId w (slot :: slots) =
        if !success then .ok false else evaluateConditionsLoop g actionId w slots := by
      simp only [evaluateConditionsLoop, getConditionCode, getConditionParameter, hrecord, hraw,
        orPanic_some, Result.ok_bind, Result.pure_eq, CONDITION_DIVISOR, hpred, hsuccess]
    cases success with
    | false =>
      refine ⟨false, by simp [hstep], ?_⟩
      constructor
      · intro h; cases h
      · intro hall
        have hne : raw.tmod 20 ≠ 0 := fun h => by simpa using hzero h
        obtain ⟨p, hp, hok⟩ := hall slot (List.mem_cons_self _ _) raw hraw hne
        rw [hpred] at hp
        cases hp
        rw [hsuccess] at hok
        cases hok
    | true =>
      refine ⟨b, by simp [hstep, hloop], ?_⟩
      rw [hb]
      constructor
      · intro hall s hs r hr hne
        rcases List.mem_cons.mp hs with rfl | hs'
        · rw [hraw] at hr
          cases hr
          exact ⟨predicate, hpred, hsuccess⟩
        · exact hall s hs' r hr hne
      · intro hall s hs
        exact hall s (List.mem_cons_of_mem _ hs)

/-- C5: for an action record whose condition slots 1..5 hold values that are
not negative, with parameters in range, `evaluateConditions` returns, and it
returns true if and only if the predicate of every slot whose code is not 0
holds on the parameter of the slot in the current world; a slot with code 0
does not enter the condition, wherever it stands among the five. -/
theorem conditions_conjunction (g : Game) (actionId : Int) (record : List Int) (w : World)
    (hrecord : index g.actionData actionId = some record)
    (hslots : ∀ slot ∈ ([1, 2, 3, 4, 5] : List Int), ∃ raw, index record slot = some raw ∧
      0 ≤ raw ∧ parameterInRange w (raw.tmod 20) (raw.tdiv 20)) :
    ∃ b, evaluateConditions g actionId w = .ok b ∧
      (b = true ↔ ∀ slot ∈ ([1, 2, 3, 4, 5] : List Int), ∀ raw, index record slot = some raw →
        raw.tmod 20 ≠ 0 → conditionHolds w (raw.tmod 20) (raw.tdiv 20)) :=
  evaluateConditionsLoop_spec g actionId record w hrecord [1, 2, 3, 4, 5] hslots

/-- C5 at the sample action and world: slots 1, 3, 4, 5 have code 0, slot 2
asks whether object 1 is carried. -/
theorem conditions_conjunction_witness :
    ∃ b, evaluateConditions demoGame 0 demoWorld = .ok b ∧
      (b = true ↔ ∀ slot ∈ ([1, 2, 3, 4, 5] : List Int), ∀ raw,
        index ([157, 60, 21, 140, 0, 0, 7869, 16503] : List Int) slot = some raw →
        raw.tmod 20 ≠ 0 → conditionHolds demoWorld (raw.tmod 20) (raw.tdiv 20)) :=
  conditions_conjunction demoGame 0 [157, 60, 21, 140, 0, 0, 7869, 16503] demoWorld
    (by decide)
    (by
      intro slot hslot
      simp only [List.mem_cons, List.mem_singleton, List.not_mem_nil, or_false] at hslot
      rcases hslot with rfl | rfl | rfl | rfl | rfl
      · exact ⟨60, by decide, by decide, by decide⟩
      · exact ⟨21, by decide, by decide, by decide⟩
      · exact ⟨140, by decide, by decide, by decide⟩
      · exact ⟨0, by decide, by decide, by decide⟩
      · exact ⟨0, by decide, by decide, by decide⟩)

/-! ## Command execution -/

/-- The counting loop of GETx counts the locations equal to -1. -/
theorem countCarried_eq_count (objectLocation : List Int) :
    countCarried objectLocation = (objectLocation.count (-1) : Int) := by
  have h : ∀ (l : List Int) (acc : Int),
      l.foldl (fun carriedObjects location =>
        if location = ROOM_INVENTORY then carriedObjects + 1 else carriedObjects) acc
        = acc + (l.count (-1) : Int) := by
    intro l
    induction l with
    | nil => intro acc; simp
    | cons x xs ih =>
      intro acc
      rw [List.foldl_cons, ih]
      by_cases hx : x = -1
      · subst hx; simp [ROOM_INVENTORY]; ring
      · have hx' : (x == -1) = false := by simpa using hx
        simp [ROOM_INVENTORY, hx, List.count_cons, hx']
  simpa [countCarried] using h objectLocation 0

/-- Once `continueExecutingCommands` is false the loop of `executeCommands`
runs no command. -/
theorem executeCommandsLoop_stopped (g : Game) (actionId : Int) (commands : List Int)
    (w : World) : executeCommandsLoop g actionId commands false w = .ok w := by
  cases commands <;> simp [executeCommandsLoop]

/-- C6: when the number of carried objects (locations equal to -1) meets or
exceeds `maxObjectsCarried`, a GETx command (slot value 52, opcode 0) at the
command index `command` ends the action: whatever the command indices
`commands` that remain, the loop of `executeCommands` does what GETx alone
does (the capacity message, the parameter fetch, the assignment) and runs
none of the remaining commands. -/
theorem get_at_capacity_aborts (g : Game) (actionId : Int) (w : World) (command : Int)
    (commands : List Int)
    (hdecode : decodeCommandFromData g command actionId = .ok 52)
    (hfull : (w.objectLocation.count (-1) : Int) ≥ g.maxObjectsCarried) :
    executeCommandsLoop g actionId (command :: commands) true w =
      (do
        let w ← getCommandParameter g actionId
          (print w "I've too much too carry. try -take inventory-\n")
        let objectLocation ← orPanic (assign w.objectLocation w.commandParameter ROOM_INVENTORY)
        pure { w with objectLocation := objectLocation }) := by
  have hfull' : g.maxObjectsCarried ≤ countCarried w.objectLocation := by
    rw [countCarried_eq_count]; exact hfull
  have hget : index commandFunction (52 - 51 - 1) = some cmdGETx := rfl
  simp only [executeCommandsLoop, hdecode, Result.ok_bind, executeCommand, MESSAGE_2_START,
    MESSAGE_1_END, if_true, hget, orPanic_some]
  norm_num
  simp only [cmdGETx, ge_iff_le, hfull', decide_True, if_true]
  cases getCommandParameter g actionId
      (print w "I've too much too carry. try -take inventory-\n") with
  | panic => rfl
  | exit w' => rfl
  | ok w' =>
    simp only [Result.ok_bind]
    cases assign w'.objectLocation w'.commandParameter ROOM_INVENTORY with
    | none => rfl
    | some l => simp [executeCommandsLoop_stopped]

/-- C6 at the sample action, whose commands are GETx, FILL and two messages
that do not exist: with one object carried and a limit of one, only GETx
runs. -/
theorem get_at_capacity_aborts_witness :
    decodeCommandFromData demoGame 0 0 = .ok 52 ∧
    (demoWorld.objectLocation.count (-1) : Int) ≥ demoGame.maxObjectsCarried ∧
    executeCommands demoGame 0 demoWorld =
      (do
        let w ← getCommandParameter demoGame 0
          (print { demoWorld with commandParameterIndex := 1 }
            "I've too much too carry. try -take inventory-\n")
        let objectLocation ← orPanic (assign w.objectLocation w.commandParameter ROOM_INVENTORY)
        pure { w with objectLocation := objectLocation }) :=
  ⟨by decide, by decide,
    get_at_capacity_aborts demoGame 0 { demoWorld with commandParameterIndex := 1 } 0 [1, 2, 3]
      (by decide) (by decide)⟩

/-- C7 fails on the code: with one object carried and a limit of one, GETx
prints the capacity message and then still moves object 3 from room 1 into
the inventory, so `objectLocation` is not the same after the command. -/
theorem get_at_capacity_moves_object :
    (demoWorld.objectLocation.count (-1) : Int) ≥ demoGame.maxObjectsCarried ∧
    index demoWorld.objectLocation 3 = some 1 ∧
    ∃ w', executeCommands { demoGame with actionData := [[157, 60, 0, 0, 0, 0, 7800, 0]] } 0
        demoWorld = .ok w' ∧
      w'.commandParameter = 3 ∧ index w'.objectLocation 3 = some (-1) ∧
      w'.objectLocation ≠ demoWorld.objectLocation := by
  refine ⟨by decide, by decide, _, rfl, by decide, by decide, by decide⟩

/-- Go's `strings.HasPrefix(description, "*")` says that the first character
is `*`. -/
theorem hasPrefix_star (description : String) :
    hasPrefix description "*" = decide (description.data.head? = some '*') := by
  cases h : description.data with
  | nil => simp [hasPrefix, h]
  | cons c cs =>
    simp only [hasPrefix, h, String.data, List.isPrefixOf, Bool.and_true, List.head?_cons,
      Option.some.injEq]
    by_cases hc : c = '*'
    · subst hc; rfl
    · have hc' : ¬ '*' = c := fun h' => hc h'.symm
      simp [hc, hc']

/-- The counting loop of SCORE. -/
theorem countStoredTreasures_eq (g : Game) (locations : List Int) :
    ∀ (object : Nat) (storedTreasures : Int),
      locations.length + object ≤ g.objectDescription.length →
      countStoredTreasures g locations object storedTreasures =
        .ok (storedTreasures + ((locations.zip (g.objectDescription.drop object)).countP
          (fun p => decide (p.1 = g.treasureRoomId) && decide (p.2.data.head? = some '*')) : Nat)) := by
  induction locations with
  | nil => intro object acc _; simp [countStoredTreasures]
  | cons location rest ih =>
    intro object acc hlen
    have hlt : object < g.objectDescription.length := by
      simp only [List.length_cons] at hlen; omega
    have hdrop : g.objectDescription.drop object =
        g.objectDescription[object] :: g.objectDescription.drop (object + 1) :=
      List.drop_eq_getElem_cons hlt
    have hidx : index g.objectDescription (object : Int) = some g.objectDescription[object] := by
      have hneg : ¬ (object : Int) < 0 := by omega
      simp [index, hneg, hlt]
    have hnext := ih (object + 1)
    simp only [Nat.cast_add, Nat.cast_one] at hnext
    simp only [countStoredTreasures, hidx, orPanic_some, Result.ok_bind, hasPrefix_star, hdrop,
      List.zip_cons_cons, List.countP_cons]
    have hlen' : rest.length + (object + 1) ≤ g.objectDescription.length := by
      simp only [List.length_cons] at hlen; omega
    by_cases hloc : location = g.treasureRoomId
    · by_cases hstar : g.objectDescription[object].data.head? = some '*'
      · simp only [hloc, hstar, if_true, decide_True, Bool.and_self, hnext _ hlen']
        simp only [Nat.cast_add, Nat.cast_one, Result.ok.injEq]
        ring
      · simp only [hloc, hstar, if_true, decide_True, decide_False, Bool.and_false,
          Bool.false_eq_true, if_false, hnext _ hlen', add_zero]
    · simp only [hloc, if_false, decide_False, Bool.false_and, Bool.false_eq_true,
        hnext _ hlen', add_zero]

/-- C8: SCORE (opcode 13) counts as stored the objects whose location is
`treasureRoomId` and whose description starts with `*`; it prints the score
line, and then ends the process if and only if that count equals
`numberOfTreasures`; otherwise it returns with nothing of the world changed
but the printed text. -/
theorem score_counts_and_terminates (g : Game) (actionId : Int)
    (continueExecutingCommands : Bool) (w : World)
    (hlen : w.objectLocation.length ≤ g.objectDescription.length) :
    index commandFunction 13 = some cmdSCORE ∧
    cmdSCORE g actionId continueExecutingCommands w =
      if (treasuresStored g w : Int) = g.numberOfTreasures then
        .exit (print (print w (scoreMsg (treasuresStored g w) g.numberOfTreasures)) "Well done.\n")
      else
        .ok (continueExecutingCommands,
          print w (scoreMsg (treasuresStored g w) g.numberOfTreasures)) := by
  refine ⟨rfl, ?_⟩
  have h := countStoredTreasures_eq g w.objectLocation 0 0 (by simpa using hlen)
  simp only [Nat.cast_zero, List.drop_zero, zero_add] at h
  simp only [cmdSCORE, h, Result.ok_bind, treasuresStored]
  split <;> rfl

/-- C8 with `numberOfTreasures = 4`: with 2 treasures stored SCORE returns,
with 4 stored the process ends. -/
theorem score_counts_and_terminates_witness :
    (treasuresStored demoGame demoWorld = 2 ∧ demoGame.numberOfTreasures = 4 ∧
      cmdSCORE demoGame 0 true demoWorld =
        .ok (true, print demoWorld (scoreMsg 2 4))) ∧
    (treasuresStored demoGame demoWorldAllStored = 4 ∧
      cmdSCORE demoGame 0 true demoWorldAllStored =
        .exit (print (print demoWorldAllStored (scoreMsg 4 4)) "Well done.\n")) :=
  ⟨⟨by decide, rfl,
    (score_counts_and_terminates demoGame 0 true demoWorld (by decide)).2⟩,
   ⟨by decide,
    (score_counts_and_terminates demoGame 0 true demoWorldAllStored (by decide)).2⟩⟩

/-- C9 fails on the code: with 29 of 50 treasures stored the rating printed by
SCORE is 57, while `floor(29 * 100 / 50)` is 58 (in float64, `29 / 50 * 100`
is just below 58 and the conversion to `int` truncates).  The two ratings
named by the claim, 2 of 4 and 4 of 4, are 50 and 100 as it says. -/
theorem score_rating_truncates_low :
    treasuresStored gemGame gemWorld = 29 ∧ gemGame.numberOfTreasures = 50 ∧
    (29 * 100 / 50 : Int) = 58 ∧ scoreRating 29 50 = 57 ∧
    executeCommand gemGame 0 65 true gemWorld =
      .ok (true, print gemWorld
        "I've stored 29 treasures. ON A SCALE OF 0 TO 100 THAT RATES A 57\n") ∧
    scoreRating 2 4 = 50 ∧ scoreRating 4 4 = 100 := by
  refine ⟨by decide, rfl, by decide, by decide, by decide, by decide, by decide⟩

/-- C10: FILL (slot value 69, opcode 17) sets `alternateCounter[8]` to
`timeLimit`, `objectLocation[9]` to -1 and `statusFlag[16]` to false, and
changes nothing else of the world, the parameter cursor included. -/
theorem fill_frame (g : Game) (actionId : Int) (continueExecutingCommands : Bool) (w : World)
    (hcounter : 8 < w.alternateCounter.length) (hobject : 9 < w.objectLocation.length)
    (hflag : 16 < w.statusFlag.length) :
    executeCommand g actionId 69 continueExecutingCommands w =
      .ok (continueExecutingCommands,
        { w with alternateCounter := w.alternateCounter.set 8 g.timeLimit,
                 objectLocation := w.objectLocation.set 9 (-1),
                 statusFlag := w.statusFlag.set 16 false }) := by
  have hfill : index commandFunction (69 - 51 - 1) = some cmdFILL := rfl
  simp only [executeCommand, MESSAGE_2_START, MESSAGE_1_END, hfill, orPanic_some, Result.ok_bind]
  norm_num
  simp [cmdFILL, assign, COUNTER_TIME_LIMIT, LIGHT_SOURCE_ID, FLAG_LAMP_EMPTY, ROOM_INVENTORY,
    hcounter, hobject, hflag]

/-- C10 on a world whose lamp lies in room 3, with 7 turns left and the
lamp-empty flag set. -/
theorem fill_frame_witness :
    executeCommand demoGame 0 69 true lampWorld =
      .ok (true,
        { lampWorld with alternateCounter := [0, 0, 0, 0, 0, 0, 0, 0, 125],
                         objectLocation := [2, -1, 2, 1, 3, 0, 0, 0, 0, -1],
                         statusFlag := List.replicate 32 false }) :=
  fill_frame demoGame 0 true lampWorld (by decide) (by decide) (by decide)

/-! ## Counter commands -/

/-- C11 fails on the code: CT-1 (slot value 77, opcode 25) takes the counter
from -1 to -2, while CT-n (slot value 83, opcode 31) with parameter 3 leaves
it at -1. -/
theorem counter_decrement_not_clamped :
    index commandFunction 25 = some cmdCTminus1 ∧
    executeCommand demoGame 0 77 true { demoWorld with counterRegister := -1 } =
      .ok (true, { demoWorld with counterRegister := -2 }) ∧
    executeCommand demoGame 0 83 true
        { demoWorld with counterRegister := -1, commandParameterIndex := 1 } =
      .ok (true, { demoWorld with counterRegister := -1, commandParameter := 3,
                                  commandParameterIndex := 2 }) := by
  refine ⟨rfl, by decide, by decide⟩

/-! ## Pseudo-random numbers: the recurrence -/

/-- A value within the range of a 64-bit integer is not changed by
`wrap64`. -/
theorem wrap64_of_range (x : Int) (hlo : -9223372036854775808 ≤ x)
    (hhi : x < 9223372036854775808) : wrap64 x = x := by
  unfold wrap64
  norm_num
  omega

/-- The state stored by `getPrn` from a state in 0..65535. -/
theorem getPrn_state (w : World) (h0 : 0 ≤ w.prngState) (h1 : w.prngState ≤ 65535) :
    (getPrn w).2.prngState = ((75 * (w.prngState + 1)) % 65537) % 65536 ∧
    (getPrn w).1 = (((75 * (w.prngState + 1)) % 65537) % 65536) % 100 := by
  have e1 : wrap64 (w.prngState + 1) = w.prngState + 1 := wrap64_of_range _ (by omega) (by omega)
  have e2 : wrap64 (75 * (w.prngState + 1)) = 75 * (w.prngState + 1) :=
    wrap64_of_range _ (by omega) (by omega)
  have t1 : (75 * (w.prngState + 1)).tmod 65537 = (75 * (w.prngState + 1)) % 65537 :=
    Int.tmod_eq_emod (by omega) (by decide)
  have t2 : ((75 * (w.prngState + 1)) % 65537).tmod 65536
      = ((75 * (w.prngState + 1)) % 65537) % 65536 :=
    Int.tmod_eq_emod (by omega) (by decide)
  have t3 : (((75 * (w.prngState + 1)) % 65537) % 65536).tmod 100
      = (((75 * (w.prngState + 1)) % 65537) % 65536) % 100 :=
    Int.tmod_eq_emod (by omega) (by decide)
  simp only [getPrn, PRNG_PRM, PRNG_PRIME, VALUES_IN_16_BITS, PERCENT_UNITS, e1, e2, t1, t2, t3,
    and_self]

/-- The recurrence of the specification started one step later. -/
theorem specPrnState_succ (s : Int) (k : Nat) :
    specPrnState s (k + 1) = specPrnState (specPrnState s 1) k := by
  induction k with
  | zero => rfl
  | succ k ih =>
    show (75 * (specPrnState s (k + 1) + 1)) % 65537 = (75 * (specPrnState _ k + 1)) % 65537
    rw [ih]

/-- C13, amended: for a seed `s` in 0..65535, the value returned by call
`n + 1` of `getPrn` started from `prngState = s` is output `n + 1` of the
recurrence `state <- (75 * (state + 1)) mod 65537`,
`output = (state mod 65536) mod 100`, as long as the state of the recurrence
is not 65536 at any of the steps 1..n. -/
theorem prn_recurrence_agrees (n : Nat) :
    ∀ (w : World) (s : Int), w.prngState = s → 0 ≤ s → s ≤ 65535 →
      (∀ k, 1 ≤ k → k ≤ n → specPrnState s k ≠ 65536) →
      getPrnNth n w = specPrnOutput s (n + 1) := by
  induction n with
  | zero =>
    intro w s hs h0 h1 _
    have h := getPrn_state w (by omega) (by omega)
    simp only [getPrnNth, h.2, specPrnOutput, specPrnState, hs]
  | succ n ih =>
    intro w s hs h0 h1 hk
    have h := getPrn_state w (by omega) (by omega)
    have hne : specPrnState s 1 ≠ 65536 := hk 1 (by omega) (by omega)
    have hs1 : specPrnState s 1 = (75 * (s + 1)) % 65537 := rfl
    have hlt : specPrnState s 1 ≤ 65535 := by rw [hs1] at hne ⊢; omega
    have hge : 0 ≤ specPrnState s 1 := by rw [hs1]; omega
    have hstate : (getPrn w).2.prngState = specPrnState s 1 := by
      rw [h.1, hs, hs1]; rw [hs1] at hlt hge; omega
    rw [getPrnNth, ih (getPrn w).2 (specPrnState s 1) hstate hge hlt]
    · rw [specPrnOutput, specPrnOutput, specPrnState_succ s (n + 1)]
    · intro k hk1 hkn
      rw [← specPrnState_succ]
      exact hk (k + 1) (by omega) (by omega)

/-- C13, amended, at the seed 7 and the second call. -/
theorem prn_recurrence_agrees_witness :
    getPrnNth 1 { demoWorld with prngState := 7 } = specPrnOutput 7 2 :=
  prn_recurrence_agrees 1 { demoWorld with prngState := 7 } 7 rfl (by decide) (by decide)
    (by
      intro k h1 h2
      have hk : k = 1 := by omega
      subst hk
      decide)

/-- C13 fails on the code: from the seed 20097 the recurrence of the
specification reaches the state 65536, which `getPrn` stores as 0; the first
values agree (both 0), the second value returned by `getPrn` is 75 while the
second output of the recurrence is 0. -/
theorem prn_recurrence_diverges :
    specPrnState 20097 1 = 65536 ∧
    getPrnNth 0 { demoWorld with prngState := 20097 } = 0 ∧ specPrnOutput 20097 1 = 0 ∧
    getPrnNth 1 { demoWorld with prngState := 20097 } = 75 ∧ specPrnOutput 20097 2 = 0 := by
  refine ⟨by decide, by decide, by decide, by decide, by decide⟩

/-! ## Vocabulary: abbreviations -/

/-- C14 fails on the code: with word length 5 and the noun entry NORTH, the
noun token NORT of the input `GO NORT` is not cut (it is shorter than the word
length), does not equal NORTH, and resolves to 0. -/
theorem short_token_not_matched :
    ∃ w', extractWords vocabGame { demoWorld with keyboardInput2 := "GO NORT" } = .ok w' ∧
      w'.extractedInputWords = ["GO", "NORT"] ∧ w'.foundWord = [1, 0] := by
  refine ⟨_, rfl, by decide, by decide⟩

/-- C14, amended: a token is matched on its first `wordLength` characters, so
a token at least that long matches the entry that equals its cut: with word
length 5 and the noun entries NORTH (id 1) and SOUTH (id 2), the noun tokens
NORTHERN and NORTH resolve to 1, SOUTHERN resolves to 2 and not to 1, and the
shorter token SOUT resolves to 0. -/
theorem cut_token_matched :
    (∃ w', extractWords vocabGame { demoWorld with keyboardInput2 := "GO NORTHERN" } = .ok w' ∧
      w'.foundWord = [1, 1]) ∧
    (∃ w', extractWords vocabGame { demoWorld with keyboardInput2 := "GO NORTH" } = .ok w' ∧
      w'.foundWord = [1, 1]) ∧
    (∃ w', extractWords vocabGame { demoWorld with keyboardInput2 := "GO SOUTHERN" } = .ok w' ∧
      w'.foundWord = [1, 2]) ∧
    (∃ w', extractWords vocabGame { demoWorld with keyboardInput2 := "GO SOUT" } = .ok w' ∧
      w'.foundWord = [1, 0]) := by
  refine ⟨⟨_, rfl, by decide⟩, ⟨_, rfl, by decide⟩, ⟨_, rfl, by decide⟩, ⟨_, rfl, by decide⟩⟩

/-! ## Turn dispatcher: continuation -/

/-- C17 fails on the code: in `contLastGame` the call for verb 2 executes
action 1, which runs CONT, and returns with the flag set; in the next call,
with verb 0, the continuation action 0, whose conditions hold, is not
executed and nothing is printed. -/
theorem continuation_not_carried_over :
    runActions contLastGame 2 0 demoWorld =
      .ok { demoWorld with contFlag := true, executed := [1], commandParameterIndex := 1 } ∧
    getActionVerb contLastGame 0 = .ok 0 ∧ getActionNoun contLastGame 0 = .ok 0 ∧
    evaluateConditions contLastGame 0
      { demoWorld with contFlag := true, executed := [1], commandParameterIndex := 1 }
      = .ok true ∧
    runActions contLastGame 0 0
      { demoWorld with contFlag := true, executed := [1], commandParameterIndex := 1 } =
      .ok { demoWorld with contFlag := false, executed := [1], commandParameterIndex := 1 } := by
  refine ⟨by decide!, by decide, by decide, by decide, by decide!⟩

/-- C17, amended: `runActions` clears the continuation flag before it scans
the actions, so the outcome of a call, other than GO with a direction, is the
same whatever flag the call before left: CONT makes continuation actions
eligible in the rest of the same call only. -/
theorem continuation_flag_reset (g : Game) (inputVerb inputNoun : Int) (w : World)
    (flag : Bool) (hgo : ¬ (inputVerb = VERB_GO ∧ inputNoun ≤ DIRECTION_NOUNS)) :
    runActions g inputVerb inputNoun { w with contFlag := flag } =
      runActions g inputVerb inputNoun w := by
  simp only [runActions, hgo, if_false]

/-- C17, amended, at the call with verb 0 on the sample world with the flag
set. -/
theorem continuation_flag_reset_witness :
    runActions contLastGame 0 0 { demoWorld with contFlag := true } =
      runActions contLastGame 0 0 demoWorld :=
  continuation_flag_reset contLastGame 0 0 demoWorld true (by decide)

/-- In the block `AUT action` nothing happens for a continuation-tagged
action. -/
theorem runAutAction_tagged (g : Game) (inputVerb currentAction : Int) (w : World) :
    runAutAction g inputVerb currentAction 0 0 w = .ok w := by
  simp [runAutAction]

/-- In the block `Word action` nothing happens for a continuation-tagged
action. -/
theorem runWordAction_tagged (g : Game) (inputVerb inputNoun currentAction : Int)
    (foundWord wordActionDone : Bool) (w : World) :
    runWordAction g inputVerb inputNoun currentAction 0 0 foundWord wordActionDone w =
      .ok (false, foundWord, wordActionDone, w) := by
  unfold runWordAction
  by_cases h : inputVerb > 0
  · have h' : ¬ (0 : Int) = inputVerb := by omega
    simp [h, h']
  · simp [h]

/-! ## Vocabulary: the directional shortcut -/

/-- The case mappings keep the length. -/
theorem len_toLower (s : String) : len (toLower s) = len s := by
  simp [len, toLower]

/-- The text compared by `resolveGoShortcut`: `a` cut to the length of `p`
when `p` is shorter; it equals `p` exactly when `p` is a prefix of `a`. -/
theorem shortened_eq_iff (a p : String) :
    ∃ s, shortenTo a p = Result.ok s ∧ (s = p ↔ p.data <+: a.data) := by
  unfold shortenTo
  by_cases h : len p < len a
  · have hlt : p.data.length < a.data.length := by simpa [len] using h
    have hneg : ¬ len p < 0 := by simp [len]
    refine ⟨String.mk (a.data.take p.data.length), ?_, ?_⟩
    · have hnat : (len p).toNat = p.data.length := by simp [len]
      rw [if_pos h, sliceTo, if_neg hneg, hnat, if_pos hlt.le]
      rfl
    · constructor
      · intro hs
        have hd : a.data.take p.data.length = p.data := congrArg String.data hs
        rw [List.prefix_iff_eq_take]; exact hd.symm
      · intro hp
        rw [List.prefix_iff_eq_take] at hp
        apply String.ext
        exact hp.symm
  · have hge : a.data.length ≤ p.data.length := by
      have : ¬ (p.data.length : Int) < a.data.length := by simpa [len] using h
      omega
    refine ⟨a, by rw [if_neg h]; rfl, ?_⟩
    constructor
    · intro hs; rw [hs]
    · intro hp
      apply String.ext
      exact (List.IsPrefix.eq_of_length_le hp hge).symm

/-- No viable verb is a prefix of the entered verb: the first loop of
`resolveGoShortcut` does not return. -/
theorem resolveGoShortcutVerbs_none (g : Game) (entered : String) (viable : List Int)
    (hverbs : ∀ verb ∈ viable, ∃ word text, index g.listOfVerbsAndNouns verb = some word ∧
      index word 0 = some text ∧ ¬ (toLower text).data <+: entered.data) :
    resolveGoShortcutVerbs g entered viable = .ok false := by
  induction viable with
  | nil => rfl
  | cons verb rest ih =>
    obtain ⟨word, text, hword, htext, hnot⟩ := hverbs verb (List.mem_cons_self _ _)
    obtain ⟨s, hs, hiff⟩ := shortened_eq_iff entered (toLower text)
    have hne : ¬ s = toLower text := fun h => hnot (hiff.mp h)
    simp only [resolveGoShortcutVerbs, hword, htext, orPanic_some, Result.ok_bind, hs, hne,
      if_false]
    exact ih (fun v hv => hverbs v (List.mem_cons_of_mem _ hv))

/-- The second loop of `resolveGoShortcut` rewrites the words at the first
direction noun that has the entered verb as a prefix. -/
theorem resolveGoShortcutDirections_first (g : Game) (entered : String) (w : World)
    (direction : Int) (post : List Int) (directionWord goWord : List String)
    (directionText goText first : String) (others : List String)
    (hwords : w.extractedInputWords = first :: others)
    (hword : index g.listOfVerbsAndNouns direction = some directionWord)
    (htext : index directionWord 1 = some directionText)
    (hstarts : entered.data <+: (toLower directionText).data)
    (hgo : index g.listOfVerbsAndNouns VERB_GO = some goWord)
    (hgotext : index goWord 0 = some goText) (pre : List Int) :
    (∀ d ∈ pre, ∃ word text, index g.listOfVerbsAndNouns d = some word ∧
      index word 1 = some text ∧ ¬ entered.data <+: (toLower text).data) →
    resolveGoShortcutDirections g entered (pre ++ direction :: post) w =
      .ok { w with extractedInputWords := toLower goText :: others ++ [toLower directionText] } := by
  induction pre with
  | nil =>
    intro _
    obtain ⟨s, hs, hiff⟩ := shortened_eq_iff (toLower directionText) entered
    have heq : s = entered := hiff.mpr hstarts
    subst heq
    simp only [List.nil_append, resolveGoShortcutDirections, hword, htext, orPanic_some,
      Result.ok_bind, hs, if_true, hgo, hgotext, hwords, assign]
    simp
  | cons d pre ih =>
    intro hpre
    obtain ⟨word, text, hw, ht, hnot⟩ := hpre d (List.mem_cons_self _ _)
    obtain ⟨s, hs, hiff⟩ := shortened_eq_iff (toLower text) entered
    have hne : ¬ entered = s := fun h => hnot (hiff.mp h.symm)
    simp only [List.cons_append, resolveGoShortcutDirections, hw, ht, orPanic_some,
      Result.ok_bind, hs, hne, if_false]
    exact ih (fun d' hd' => hpre d' (List.mem_cons_of_mem _ hd'))

/-- C16, amended: for a single-token input whose token is not empty, if the
lower-cased text of no viable verb (a verb with an action whose conditions
hold) is a prefix of the lower-cased token, and `direction` is the first of
the nouns 1..6 whose lower-cased text has the lower-cased token as a prefix,
then `resolveGoShortcut` rewrites the input words to the lower-cased text of
verb 1 (GO) followed by the lower-cased text of that direction noun. -/
theorem go_shortcut_rewrites (g : Game) (w : World) (token : String) (viable : List Int)
    (direction : Int) (directionWord goWord : List String) (directionText goText : String)
    (hwords : w.extractedInputWords = [token])
    (hnonempty : token.data ≠ [])
    (hviable : getViableWordActions g w = .ok viable)
    (hverbs : ∀ verb ∈ viable, ∃ word text, index g.listOfVerbsAndNouns verb = some word ∧
      index word 0 = some text ∧ ¬ (toLower text).data <+: (toLower token).data)
    (hdirection : 1 ≤ direction ∧ direction ≤ 6)
    (hearlier : ∀ d, 1 ≤ d → d < direction → ∃ word text,
      index g.listOfVerbsAndNouns d = some word ∧ index word 1 = some text ∧
      ¬ (toLower token).data <+: (toLower text).data)
    (hword : index g.listOfVerbsAndNouns direction = some directionWord)
    (htext : index directionWord 1 = some directionText)
    (hstarts : (toLower token).data <+: (toLower directionText).data)
    (hgo : index g.listOfVerbsAndNouns VERB_GO = some goWord)
    (hgotext : index goWord 0 = some goText) :
    resolveGoShortcut g w =
      .ok { w with extractedInputWords := [toLower goText, toLower directionText] } := by
  have hfirst : index w.extractedInputWords 0 = some token := by rw [hwords]; rfl
  have hlen : ¬ len (toLower token) < 1 := by
    rw [len_toLower]
    have : 0 < token.data.length := List.length_pos.mpr hnonempty
    simp only [len]; omega
  have hnone := resolveGoShortcutVerbs_none g (toLower token) viable hverbs
  simp only [resolveGoShortcut, hfirst, orPanic_some, Result.ok_bind, hviable, hlen, if_false,
    hnone, Bool.false_eq_true]
  obtain ⟨h1, h6⟩ := hdirection
  have hsplit : ∃ pre post, ([1, 2, 3, 4, 5, 6] : List Int) = pre ++ direction :: post ∧
      ∀ d ∈ pre, 1 ≤ d ∧ d < direction := by
    interval_cases direction
    · exact ⟨[], [2, 3, 4, 5, 6], rfl, by simp⟩
    · exact ⟨[1], [3, 4, 5, 6], rfl, by simp⟩
    · exact ⟨[1, 2], [4, 5, 6], rfl, by simp⟩
    · exact ⟨[1, 2, 3], [5, 6], rfl, by simp⟩
    · exact ⟨[1, 2, 3, 4], [6], rfl, by simp⟩
    · exact ⟨[1, 2, 3, 4, 5], [], rfl, by simp⟩
  obtain ⟨pre, post, hlist, hpre⟩ := hsplit
  rw [hlist]
  have h := resolveGoShortcutDirections_first g (toLower token) w direction post directionWord
    goWord directionText goText token [] hwords hword htext hstarts hgo hgotext pre
    (fun d hd => hearlier d (hpre d hd).1 (hpre d hd).2)
  simpa using h

/-- C16, amended, at the input `N` with no viable verb: the words become
`go`, `north`. -/
theorem go_shortcut_rewrites_witness :
    resolveGoShortcut vocabGame { demoWorld with extractedInputWords := ["N"] } =
      .ok { demoWorld with extractedInputWords := ["go", "north"] } :=
  go_shortcut_rewrites vocabGame { demoWorld with extractedInputWords := ["N"] } "N" [] 1
    ["GO", "NORTH"] ["GO", "NORTH"] "NORTH" "GO" rfl (by decide) (by decide)
    (by intro verb hv; cases hv) (by decide) (by intro d h1 h2; omega) (by decide) (by decide)
    (by decide) (by decide) (by decide)

/-- C16 fails on the code: in `shortcutGame` the only viable verb is NO.  The
token NOR is a prefix of NORTH and NO does not begin with NOR, yet
`resolveGoShortcut` leaves the input alone, because NOR cut to the length of
NO is NO. -/
theorem go_shortcut_blocked_by_shorter_verb :
    getViableWordActions shortcutGame { demoWorld with extractedInputWords := ["NOR"] } = .ok [2] ∧
    index shortcutGame.listOfVerbsAndNouns 2 = some ["NO", "SOUTH"] ∧
    ¬ (toLower "NOR").data <+: (toLower "NO").data ∧
    (toLower "NOR").data <+: (toLower "NORTH").data ∧
    resolveGoShortcut shortcutGame { demoWorld with extractedInputWords := ["NOR"] } =
      .ok { demoWorld with extractedInputWords := ["NOR"] } := by
  refine ⟨by decide, by decide, by decide, by decide, by decide!⟩

/-! ## Vocabulary: synonyms -/

/-- With a limit that is not negative `extractFirstCharacters` returns the
text cut to the limit. -/
theorem extractFirstCharacters_eq (input : String) (limit : Int) (h : 0 ≤ limit) :
    extractFirstCharacters input limit = .ok (cutTo input limit) := by
  unfold extractFirstCharacters cutTo
  have hneg : ¬ limit < 0 := by omega
  by_cases hlen : len input ≥ limit
  · have hle : limit.toNat ≤ input.data.length := by
      simp only [len] at hlen; omega
    rw [if_pos hlen, sliceTo, if_neg hneg, if_pos hle]; rfl
  · have hge : input.data.length ≤ limit.toNat := by
      simp only [len] at hlen; omega
    rw [if_neg hlen, List.take_of_length_le hge]; rfl

/-- Cutting and upper-casing commute. -/
theorem toUpper_cutTo (s : String) (n : Int) : toUpper (cutTo s n) = cutTo (toUpper s) n := by
  simp [toUpper, cutTo, List.map_take]

/-- A search for a character that starts counting above 0 does not
return 0. -/
theorem indexFrom_ne_zero (c : Char) (cs : List Char) :
    ∀ i : Int, 0 < i → indexFrom c cs i ≠ 0 := by
  induction cs with
  | nil => intro i _; simp [indexFrom]
  | cons x cs ih =>
    intro i hi
    simp only [indexFrom]
    split
    · omega
    · exact ih (i + 1) (by omega)

/-- The test `strings.Index(text, "*") != 0` says that the text does not
start with `*`. -/
theorem stringsIndex_ne_zero_iff (text : String) :
    stringsIndex text '*' ≠ 0 ↔ ¬ text.data.head? = some '*' := by
  unfold stringsIndex
  cases h : text.data with
  | nil => simp [indexFrom]
  | cons x cs =>
    simp only [indexFrom, List.head?_cons, Option.some.injEq]
    by_cases hx : x = '*'
    · simp [hx]
    · simp only [hx, if_false, not_false_eq_true, iff_true]
      exact indexFrom_ne_zero '*' cs (0 + 1) (by decide)

/-- The invariant of `nonSynonym` is kept by one pass of the loop. -/
theorem nearestBefore_step (verbOrNoun : Int) (before : List (List String)) (nonSynonym : Int)
    (word : List String) (text : String) (htext : index word verbOrNoun = some text)
    (h : nearestBefore verbOrNoun before nonSynonym) :
    nearestBefore verbOrNoun (before ++ [word])
      (if stringsIndex text '*' ≠ 0 then (before.length : Int) else nonSynonym) := by
  by_cases hstar : stringsIndex text '*' ≠ 0
  · rw [if_pos hstar]
    left
    refine ⟨before, word, [], rfl, ?_, by simp, rfl⟩
    rintro ⟨t, ht, hhead⟩
    rw [htext] at ht
    cases ht
    exact (stringsIndex_ne_zero_iff text).mp hstar hhead
  · rw [if_neg hstar]
    have hsyn : isSynonym verbOrNoun word := by
      refine ⟨text, htext, ?_⟩
      by_contra hh
      exact hstar ((stringsIndex_ne_zero_iff text).mpr hh)
    rcases h with ⟨start, canonical, synonyms, hb, hc, hs, hn⟩ | ⟨hall, hn⟩
    · left
      refine ⟨start, canonical, synonyms ++ [word], by simp [hb], hc, ?_, hn⟩
      intro entry he
      rcases List.mem_append.mp he with he | he
      · exact hs entry he
      · simp only [List.mem_singleton] at he; rw [he]; exact hsyn
    · right
      refine ⟨?_, hn⟩
      intro entry he
      rcases List.mem_append.mp he with he | he
      · exact hall entry he
      · simp only [List.mem_singleton] at he; rw [he]; exact hsyn

/-- The loop of `extractWords` over the entries `after`, entered after the
entries `before` none of which matches: it finds no match, or it stops at the
first entry that matches with the nearest entry that is not a synonym. -/
theorem extractWordsLoop_spec (g : Game) (verbOrNoun : Int) (token : String)
    (hlength : 0 ≤ g.wordLength) (after : List (List String)) :
    ∀ (before : List (List String)) (nonSynonym : Int),
      (∀ word ∈ after, ∃ text, index word verbOrNoun = some text) →
      (∀ earlier ∈ before, ¬ entryMatches g verbOrNoun token earlier) →
      nearestBefore verbOrNoun before nonSynonym →
      (extractWordsLoop g verbOrNoun token after before.length nonSynonym = .ok none ∧
        ∀ word ∈ before ++ after, ¬ entryMatches g verbOrNoun token word) ∨
      ∃ id middle word rest, after = middle ++ word :: rest ∧
        extractWordsLoop g verbOrNoun token after before.length nonSynonym = .ok (some id) ∧
        (∀ earlier ∈ before ++ middle, ¬ entryMatches g verbOrNoun token earlier) ∧
        entryMatches g verbOrNoun token word ∧
        nearestBefore verbOrNoun (before ++ middle ++ [word]) id := by
  induction after with
  | nil =>
    intro before nonSynonym _ hno _
    left
    exact ⟨rfl, by simpa using hno⟩
  | cons word after ih =>
    intro before nonSynonym hrows hno hnear
    obtain ⟨text, htext⟩ := hrows word (List.mem_cons_self _ _)
    have hnear' := nearestBefore_step verbOrNoun before nonSynonym word text htext hnear
    have hloop : extractWordsLoop g verbOrNoun token (word :: after) before.length nonSynonym =
        if cutTo (trimLeft text '*') g.wordLength = cutTo (toUpper token) g.wordLength then
          .ok (some (if stringsIndex text '*' ≠ 0 then (before.length : Int) else nonSynonym))
        else extractWordsLoop g verbOrNoun token after (before ++ [word]).length
          (if stringsIndex text '*' ≠ 0 then (before.length : Int) else nonSynonym) := by
      simp only [extractWordsLoop, htext, orPanic_some, Result.ok_bind,
        extractFirstCharacters_eq _ _ hlength, toUpper_cutTo, Result.pure_eq,
        List.length_append, List.length_singleton, Nat.cast_add, Nat.cast_one]
    by_cases hmatch : cutTo (trimLeft text '*') g.wordLength = cutTo (toUpper token) g.wordLength
    · right
      refine ⟨(if stringsIndex text '*' ≠ 0 then (before.length : Int) else nonSynonym), [], word,
        after, rfl, ?_, by simpa using hno, ⟨text, htext, hmatch⟩, ?_⟩
      · rw [hloop, if_pos hmatch]
      · simpa using hnear'
    · have hnomatch : ¬ entryMatches g verbOrNoun token word := by
        rintro ⟨t, ht, hm⟩
        rw [htext] at ht
        cases ht
        exact hmatch hm
      have hno' : ∀ earlier ∈ before ++ [word], ¬ entryMatches g verbOrNoun token earlier := by
        intro e he
        rcases List.mem_append.mp he with he | he
        · exact hno e he
        · simp only [List.mem_singleton] at he; rw [he]; exact hnomatch
      rcases ih (before ++ [word]) _ (fun w hw => hrows w (List.mem_cons_of_mem _ hw)) hno' hnear'
        with ⟨hnone, hall⟩ | ⟨id, middle, word', rest, hafter, hsome, hearlier, hm, hn⟩
      · left
        refine ⟨by rw [hloop, if_neg hmatch]; exact hnone, ?_⟩
        simpa using hall
      · right
        refine ⟨id, word :: middle, word', rest, by simp [hafter], ?_, ?_, hm, ?_⟩
        · rw [hloop, if_neg hmatch]; exact hsome
        · simpa using hearlier
        · simpa using hn

/-- One column of `extractWords` resolves its token. -/
theorem extractWordsColumn_spec (g : Game) (verbOrNoun : Int) (token : String)
    (hlength : 0 ≤ g.wordLength)
    (hrows : ∀ word ∈ g.listOfVerbsAndNouns, ∃ text, index word verbOrNoun = some text) :
    ∃ found, extractWordsLoop g verbOrNoun token g.listOfVerbsAndNouns 0 0 = .ok found ∧
      resolvesTo g verbOrNoun token (found.getD 0) := by
  have h := extractWordsLoop_spec g verbOrNoun token hlength g.listOfVerbsAndNouns [] 0 hrows
    (by simp) (Or.inr ⟨by simp, rfl⟩)
  simp only [List.length_nil, Nat.cast_zero, List.nil_append] at h
  rcases h with ⟨hnone, hall⟩ | ⟨id, middle, word, rest, hlist, hsome, hearlier, hm, hn⟩
  · exact ⟨none, hnone, Or.inl ⟨rfl, hall⟩⟩
  · exact ⟨some id, hsome, Or.inr ⟨middle, word, rest, hlist, hearlier, hm, hn⟩⟩

/-- Go's `strings.Split` never returns an empty slice. -/
theorem splitChars_ne_nil (sep : Char) (cs : List Char) : splitChars sep cs ≠ [] := by
  cases cs with
  | nil => simp [splitChars]
  | cons c cs =>
    simp only [splitChars]
    split
    · simp
    · split <;> simp

/-- The slice of words is not empty. -/
theorem split_length_pos (s : String) (sep : Char) : 0 < (split s sep).length := by
  have h := splitChars_ne_nil sep s.data
  simp only [split, List.length_map]
  exact List.length_pos.mpr h

/-- C15: when the directional shortcut leaves the words alone, `extractWords`
returns with `foundWord = [verbId, nounId]`, where, separately for the verb
column and the first word and for the noun column and the second word (a
missing word is the empty text), the id is 0 when no entry matches and
otherwise the index of the nearest non-synonym entry at or before the first
entry whose text, leading `*` stripped and cut to `wordLength`, equals the
upper-cased token cut to `wordLength`. -/
theorem vocabulary_resolution (g : Game) (w : World)
    (hlength : 0 ≤ g.wordLength)
    (hrows : ∀ word ∈ g.listOfVerbsAndNouns, 2 ≤ word.length)
    (hshortcut :
      resolveGoShortcut g
          { w with keyboardInput2 := trimLeft w.keyboardInput2 ' ',
                   extractedInputWords := split (trimLeft w.keyboardInput2 ' ') ' ' } =
        .ok { w with keyboardInput2 := trimLeft w.keyboardInput2 ' ',
                     extractedInputWords := split (trimLeft w.keyboardInput2 ' ') ' ' }) :
    ∃ verbToken nounToken verbId nounId,
      (split (trimLeft w.keyboardInput2 ' ') ' ' ++ [""])[0]? = some verbToken ∧
      (split (trimLeft w.keyboardInput2 ' ') ' ' ++ [""])[1]? = some nounToken ∧
      extractWords g w =
        .ok { w with
              keyboardInput2 := trimLeft w.keyboardInput2 ' ',
              extractedInputWords :=
                if (split (trimLeft w.keyboardInput2 ' ') ' ').length < 2 then
                  split (trimLeft w.keyboardInput2 ' ') ' ' ++ [""]
                else split (trimLeft w.keyboardInput2 ' ') ' ',
              globalNoun := nounToken,
              foundWord := [verbId, nounId] } ∧
      resolvesTo g 0 verbToken verbId ∧ resolvesTo g 1 nounToken nounId := by
  have hpos := split_length_pos (trimLeft w.keyboardInput2 ' ') ' '
  have hne : ¬ (split (trimLeft w.keyboardInput2 ' ') ' ').length = 0 := by omega
  -- the words after the padding
  obtain ⟨words, hwords⟩ : ∃ words, words =
      (if (split (trimLeft w.keyboardInput2 ' ') ' ').length < 2 then
        split (trimLeft w.keyboardInput2 ' ') ' ' ++ [""]
      else split (trimLeft w.keyboardInput2 ' ') ' ') := ⟨_, rfl⟩
  have hlen2 : 2 ≤ words.length := by
    rw [hwords]; split
    · simp only [List.length_append, List.length_singleton]; omega
    · omega
  obtain ⟨verbToken, nounToken, rest, hshape⟩ : ∃ a b r, words = a :: b :: r := by
    match words, hlen2 with
    | a :: b :: r, _ => exact ⟨a, b, r, rfl⟩
  have hv : (split (trimLeft w.keyboardInput2 ' ') ' ' ++ [""])[0]? = some verbToken ∧
      (split (trimLeft w.keyboardInput2 ' ') ' ' ++ [""])[1]? = some nounToken := by
    by_cases h2 : (split (trimLeft w.keyboardInput2 ' ') ' ').length < 2
    · rw [if_pos h2] at hwords; rw [← hwords, hshape]; simp
    · rw [if_neg h2] at hwords
      have h0 : 0 < (split (trimLeft w.keyboardInput2 ' ') ' ').length := by omega
      have h1 : 1 < (split (trimLeft w.keyboardInput2 ' ') ' ').length := by omega
      rw [List.getElem?_append_left h0, List.getElem?_append_left h1, ← hwords, hshape]
      simp
  have hrow0 : ∀ word ∈ g.listOfVerbsAndNouns, ∃ text, index word (0 : Int) = some text :=
    fun word hw => index_of_lt word 0 (by decide) (by have := hrows word hw; omega)
  have hrow1 : ∀ word ∈ g.listOfVerbsAndNouns, ∃ text, index word (1 : Int) = some text :=
    fun word hw => index_of_lt word 1 (by decide) (by have := hrows word hw; omega)
  obtain ⟨found0, hfound0, hres0⟩ := extractWordsColumn_spec g 0 verbToken hlength hrow0
  obtain ⟨found1, hfound1, hres1⟩ := extractWordsColumn_spec g 1 nounToken hlength hrow1
  refine ⟨verbToken, nounToken, found0.getD 0, found1.getD 0, hv.1, hv.2, ?_, hres0, hres1⟩
  have i0 : index (verbToken :: nounToken :: rest) (0 : Int) = some verbToken := by
    simp [index]
  have i1 : index (verbToken :: nounToken :: rest) (1 : Int) = some nounToken := by
    simp [index]
  simp only [extractWords, hne, if_false, hshortcut, Result.ok_bind]
  by_cases h2 : (split (trimLeft w.keyboardInput2 ' ') ' ').length < 2
  · rw [if_pos h2] at hwords
    simp only [h2, if_true]
    rw [← hwords, hshape]
    simp only [i1, orPanic_some, Result.ok_bind, extractWordsColumn, i0, hfound0]
    cases found0 <;> cases found1 <;>
      simp [hfound1, i1, assign, Result.ok_bind, orPanic_some]
  · rw [if_neg h2] at hwords
    simp only [h2, if_false]
    rw [← hwords, hshape]
    simp only [i1, orPanic_some, Result.ok_bind, extractWordsColumn, i0, hfound0]
    cases found0 <;> cases found1 <;>
      simp [hfound1, i1, assign, Result.ok_bind, orPanic_some]

/-- C15 in `vocabGame`, where the verb entry 2 is TAKE and entry 3 is its
synonym `*GET`: the theorem at the input `GET SOUTH`, and the ids found for
`GET SOUTH` and for `TAKE SOUTH`, which are the same. -/
theorem vocabulary_resolution_witness :
    (∃ verbToken nounToken verbId nounId,
      (split (trimLeft "GET SOUTH" ' ') ' ' ++ [""])[0]? = some verbToken ∧
      (split (trimLeft "GET SOUTH" ' ') ' ' ++ [""])[1]? = some nounToken ∧
      extractWords vocabGame { demoWorld with keyboardInput2 := "GET SOUTH" } =
        .ok { demoWorld with
              keyboardInput2 := trimLeft "GET SOUTH" ' ',
              extractedInputWords :=
                if (split (trimLeft "GET SOUTH" ' ') ' ').length < 2 then
                  split (trimLeft "GET SOUTH" ' ') ' ' ++ [""]
                else split (trimLeft "GET SOUTH" ' ') ' ',
              globalNoun := nounToken,
              foundWord := [verbId, nounId] } ∧
      resolvesTo vocabGame 0 verbToken verbId ∧ resolvesTo vocabGame 1 nounToken nounId) ∧
    extractWords vocabGame { demoWorld with keyboardInput2 := "GET SOUTH" } =
      .ok { demoWorld with keyboardInput2 := "GET SOUTH", extractedInputWords := ["GET", "SOUTH"],
                           globalNoun := "SOUTH", foundWord := [2, 2] } ∧
    extractWords vocabGame { demoWorld with keyboardInput2 := "TAKE SOUTH" } =
      .ok { demoWorld with keyboardInput2 := "TAKE SOUTH",
                           extractedInputWords := ["TAKE", "SOUTH"],
                           globalNoun := "SOUTH", foundWord := [2, 2] } :=
  ⟨vocabulary_resolution vocabGame { demoWorld with keyboardInput2 := "GET SOUTH" }
      (by decide) (by decide) (by decide!),
    by decide!, by decide!⟩

/-! ## Outcomes: what holds of a result -/

theorem Result.Holds_bind {α β : Type} {x : Result α} {f : α → Result β}
    {mid : α → Prop} {post : β → Prop} {atExit : World → Prop}
    (hx : x.Holds mid atExit) (hf : ∀ a, mid a → (f a).Holds post atExit) :
    (x >>= f).Holds post atExit := by
  cases x with
  | ok a => exact hf a hx
  | exit w => exact hx
  | panic => trivial

theorem Result.Holds_mono {α : Type} {x : Result α} {post post' : α → Prop}
    {atExit atExit' : World → Prop} (hx : x.Holds post atExit)
    (hpost : ∀ a, post a → post' a) (hexit : ∀ w, atExit w → atExit' w) :
    x.Holds post' atExit' := by
  cases x with
  | ok a => exact hpost a hx
  | exit w => exact hexit w hx
  | panic => trivial

theorem Result.Holds_bind_mid {α β : Type} (mid : α → Prop) {x : Result α}
    {f : α → Result β} {post : β → Prop} {atExit : World → Prop}
    (hx : x.Holds mid atExit) (hf : ∀ a, mid a → (f a).Holds post atExit) :
    (x >>= f).Holds post atExit :=
  Result.Holds_bind hx hf

theorem Result.Holds_mono_to {α : Type} (post' : α → Prop) (atExit' : World → Prop)
    {x : Result α} {post : α → Prop} {atExit : World → Prop} (hx : x.Holds post atExit)
    (hpost : ∀ a, post a → post' a) (hexit : ∀ w, atExit w → atExit' w) :
    x.Holds post' atExit' :=
  Result.Holds_mono hx hpost hexit

theorem Result.Holds_orPanic {α : Type} (o : Option α) (post : α → Prop)
    (atExit : World → Prop) (h : ∀ a, o = some a → post a) : (orPanic o).Holds post atExit := by
  cases o with
  | none => trivial
  | some a => exact h a rfl

/-- An element read from a slice is a member of it. -/
theorem mem_of_index {α : Type} (s : List α) (i : Int) (x : α) (h : index s i = some x) :
    x ∈ s := by
  unfold index at h
  split at h
  · cases h
  · exact List.getElem?_mem h

/-- After an assignment every element is an old one or the new value. -/
theorem mem_of_assign {α : Type} (s s' : List α) (i : Int) (v x : α)
    (h : assign s i v = some s') (hx : x ∈ s') : x ∈ s ∨ x = v := by
  unfold assign at h
  split at h
  · cases h
  · split at h
    · cases h
      exact List.mem_or_eq_of_mem_set hx
    · cases h

theorem pending_drop_one {pending rest : List Int} {p : Int} (h : pending = p :: rest) :
    rest = pending.drop 1 := by
  rw [h]; rfl

theorem pending_drop_two {pending mid rest : List Int} {p p2 : Int} (h1 : pending = p :: mid)
    (h2 : mid = p2 :: rest) : rest = pending.drop 2 := by
  rw [h1, h2]; rfl

/-- What one run of the loop of `getCommandParameter` does: it changes the
parameter and the cursor only, and the parameter is the first of the
parameters among the entries it starts at; the ones after it are left. -/
theorem getCommandParameterLoop_fetches (slots : List Int) :
    ∀ w : World, (getCommandParameterLoop slots w).Holds
      (fun w' => ∃ (p : Int) (k : Nat),
        w' = { w with commandParameter := p,
                      commandParameterIndex := w.commandParameterIndex + ((k + 1 : Nat) : Int) } ∧
        parametersOf slots = p :: parametersOf (slots.drop (k + 1)))
      (fun _ => False) := by
  induction slots with
  | nil => intro w; trivial
  | cons raw slots ih =>
    intro w
    simp only [getCommandParameterLoop, CONDITION_DIVISOR, PAR_CONDITION_CODE, sub_tdiv_mul]
    by_cases hraw : raw.tmod 20 = 0
    · simp only [hraw, ne_eq, not_true_eq_false, if_false]
      refine ⟨raw.tdiv 20, 0, ?_, ?_⟩
      · simp
      · simp [parametersOf, hraw]
    · simp only [ne_eq, hraw, not_false_eq_true, if_true]
      refine Result.Holds_mono (ih _) ?_ (fun _ h => h)
      rintro w' ⟨p, k, rfl, hp⟩
      refine ⟨p, k + 1, ?_, ?_⟩
      · have hcur : w.commandParameterIndex + 1 + ((k + 1 : Nat) : Int)
            = w.commandParameterIndex + ((k + 1 + 1 : Nat) : Int) := by
          push_cast; ring
        simp only [hcur]
      · simpa [parametersOf, hraw] using hp

/-- What one call of `getCommandParameter` does: it changes the parameter and
the cursor only, and the parameter is the first of the parameters still to be
fetched. -/
theorem getCommandParameter_fetches (g : Game) (actionId : Int) (w : World)
    (hc : 0 ≤ w.commandParameterIndex) :
    (getCommandParameter g actionId w).Holds
      (fun w' => ∃ p cur, w' = { w with commandParameter := p, commandParameterIndex := cur } ∧
        0 ≤ cur ∧
        pendingAt g actionId w.commandParameterIndex = p :: pendingAt g actionId cur)
      (fun _ => False) := by
  unfold getCommandParameter
  cases hrec : index g.actionData actionId with
  | none => trivial
  | some record =>
    simp only [orPanic_some, Result.ok_bind]
    split
    · trivial
    · refine Result.Holds_mono (getCommandParameterLoop_fetches _ w) ?_ (fun _ h => h)
      rintro w' ⟨p, k, rfl, hp⟩
      refine ⟨p, _, rfl, by omega, ?_⟩
      have hnat : (w.commandParameterIndex + ((k + 1 : Nat) : Int)).toNat
          = w.commandParameterIndex.toNat + (k + 1) := by omega
      unfold pendingAt
      simp only [hrec, hnat]
      rw [hp, List.drop_drop]

/-- The display functions change the printed text only. -/
theorem showRoomObjects_output (g : Game) (locations : List Int) :
    ∀ (i : Int) (found : Bool) (w : World), (showRoomObjects g locations i found w).Holds
      (fun w' => ∃ out, w' = { w with output := out }) (fun _ => False) := by
  induction locations with
  | nil => intro i found w; exact ⟨w.output, rfl⟩
  | cons location rest ih =>
    intro i found w
    simp only [showRoomObjects]
    split
    · cases hstrip : stripNounFromObjectDescription g i with
      | panic => trivial
      | exit w' =>
        simp only [stripNounFromObjectDescription] at hstrip
        cases hidx : index g.objectDescription i <;> simp [hidx] at hstrip
      | ok text =>
        simp only [Result.ok_bind]
        refine Result.Holds_mono (ih _ _ _) ?_ (fun _ h => h)
        rintro w' ⟨out, rfl⟩
        split <;> exact ⟨out, rfl⟩
    · exact ih _ _ _

theorem showRoomExits_output (exits : List Int) :
    ∀ (i : Int) (found : Bool) (w : World), (showRoomExits exits i found w).Holds
      (fun w' => ∃ out, w' = { w with output := out }) (fun _ => False) := by
  induction exits with
  | nil => intro i found w; exact ⟨w.output, rfl⟩
  | cons exit rest ih =>
    intro i found w
    simp only [showRoomExits]
    split
    · cases hidx : index directionNounText i with
      | none => trivial
      | some direction =>
        simp only [orPanic_some, Result.ok_bind]
        refine Result.Holds_mono (ih _ _ _) ?_ (fun _ h => h)
        rintro w' ⟨out, rfl⟩
        split <;> exact ⟨out, rfl⟩
    · exact ih _ _ _

theorem showRoomLit_output (g : Game) (w : World) :
    (showRoomLit g w).Holds (fun w' => ∃ out, w' = { w with output := out }) (fun _ => False) := by
  unfold showRoomLit
  cases hdesc : index g.roomDescription w.currentRoom with
  | none => trivial
  | some description =>
    simp only [orPanic_some, Result.ok_bind]
    refine Result.Holds_bind_mid (fun w' => ∃ out, w' = { w with output := out }) ?_ ?_
    · refine Result.Holds_mono (showRoomObjects_output g _ 0 false _) ?_ (fun _ h => h)
      rintro w' ⟨out, rfl⟩
      split <;> exact ⟨out, rfl⟩
    · rintro w1 ⟨out1, rfl⟩
      cases hexits : index g.roomExit w.currentRoom with
      | none => simp [print, hexits]; trivial
      | some exits =>
        simp only [print, hexits, orPanic_some, Result.ok_bind]
        refine Result.Holds_bind (showRoomExits_output exits 0 false _) ?_
        rintro w2 ⟨out2, rfl⟩
        exact ⟨_, rfl⟩

theorem showRoomDescription_output (g : Game) (w : World) :
    (showRoomDescription g w).Holds (fun w' => ∃ out, w' = { w with output := out })
      (fun _ => False) := by
  unfold showRoomDescription
  cases hnight : index w.statusFlag FLAG_NIGHT with
  | none => trivial
  | some night =>
    simp only [orPanic_some, Result.ok_bind]
    split
    · cases hlight : index w.objectLocation LIGHT_SOURCE_ID with
      | none => trivial
      | some light =>
        simp only [orPanic_some, Result.ok_bind]
        split
        · exact ⟨_, rfl⟩
        · exact showRoomLit_output g w
    · exact showRoomLit_output g w

theorem showInventory_output (g : Game) (locations : List Int) :
    ∀ (object : Int) (text : String) (w : World), (showInventory g locations object text w).Holds
      (fun r => ∃ out, r.2 = { w with output := out }) (fun _ => False) := by
  induction locations with
  | nil => intro object text w; exact ⟨w.output, rfl⟩
  | cons location rest ih =>
    intro object text w
    simp only [showInventory]
    split
    · exact ih _ _ _
    · cases hstrip : stripNounFromObjectDescription g object with
      | panic => trivial
      | exit w' =>
        simp only [stripNounFromObjectDescription] at hstrip
        cases hidx : index g.objectDescription object <;> simp [hidx] at hstrip
      | ok text' =>
        simp only [Result.ok_bind]
        refine Result.Holds_mono (ih _ _ _) ?_ (fun _ h => h)
        rintro r ⟨out, hr⟩
        exact ⟨out, hr⟩

/-! ## Commands: every command is a step -/

theorem Result.Holds_orPanic_bind {α β : Type} {o : Option α} {f : α → Result β}
    {post : β → Prop} {atExit : World → Prop}
    (h : ∀ a, o = some a → (f a).Holds post atExit) : (orPanic o >>= f).Holds post atExit := by
  cases o with
  | none => trivial
  | some a => exact h a rfl

theorem Result.Holds_fetch_bind {β : Type} {g : Game} {a : Int} {w : World}
    {f : World → Result β} {post : β → Prop} {atExit : World → Prop}
    (hc : 0 ≤ w.commandParameterIndex)
    (h : ∀ p cur, 0 ≤ cur →
      pendingAt g a w.commandParameterIndex = p :: pendingAt g a cur →
      (f { w with commandParameter := p, commandParameterIndex := cur }).Holds post atExit) :
    (getCommandParameter g a w >>= f).Holds post atExit := by
  refine Result.Holds_bind (Result.Holds_mono (getCommandParameter_fetches g a w hc)
    (fun _ h => h) (fun _ h => h.elim)) ?_
  rintro w1 ⟨p, cur, rfl, hcur, hpend⟩
  exact h p cur hcur hpend

/-- A display function followed by more is a step when what follows is. -/
theorem Result.Holds_show_bind {β : Type} {w : World} {x : Result World}
    {f : World → Result β} {post : β → Prop} {atExit : World → Prop}
    (hx : x.Holds (fun w' => ∃ out, w' = { w with output := out }) (fun _ => False))
    (h : ∀ out, (f { w with output := out }).Holds post atExit) :
    (x >>= f).Holds post atExit := by
  refine Result.Holds_bind (Result.Holds_mono hx (fun _ h => h) (fun _ h => h.elim)) ?_
  rintro w1 ⟨out, rfl⟩
  exact h out

theorem cmdGETx_step (g : Game) (a : Int) (c : Bool) (w : World)
    (hc : 0 ≤ w.commandParameterIndex) :
    (cmdGETx g a c w).Holds
      (fun r => commandStep g a 1 True w r.2)
      (commandStep g a 1 True w) := by
  unfold cmdGETx
  have hw0 : ∃ out, (if decide (countCarried w.objectLocation ≥ g.maxObjectsCarried) = true then
      print w "I've too much too carry. try -take inventory-\n" else w)
      = { w with output := out } := by
    split
    · exact ⟨_, rfl⟩
    · exact ⟨w.output, rfl⟩
  obtain ⟨out, hw0⟩ := hw0
  simp only [hw0]
  refine Result.Holds_fetch_bind hc (fun p cur hcur hpend => ?_)
  refine Result.Holds_orPanic_bind (fun l hl => ?_)
  refine ⟨rfl, rfl, fun h => h, hcur, pending_drop_one hpend, fun hrooms hinv => ?_⟩
  obtain ⟨hloc, hroom, halt⟩ := hinv
  refine ⟨fun x hx => ?_, hroom, halt⟩
  rcases mem_of_assign _ _ _ _ _ hl hx with h | h
  · exact hloc x h
  · rw [h]; exact Or.inl rfl

theorem cmdDROPx_step (g : Game) (a : Int) (c : Bool) (w : World)
    (hc : 0 ≤ w.commandParameterIndex) :
    (cmdDROPx g a c w).Holds
      (fun r => commandStep g a 1 True w r.2)
      (commandStep g a 1 True w) := by
  unfold cmdDROPx
  refine Result.Holds_fetch_bind hc (fun p cur hcur hpend => ?_)
  refine Result.Holds_orPanic_bind (fun l hl => ?_)
  refine ⟨rfl, rfl, fun h => h, hcur, pending_drop_one hpend, fun hrooms hinv => ?_⟩
  obtain ⟨hloc, hroom, halt⟩ := hinv
  refine ⟨fun x hx => ?_, hroom, halt⟩
  rcases mem_of_assign _ _ _ _ _ hl hx with h | h
  · exact hloc x h
  · rw [h]; exact Or.inr hroom

theorem cmdGOTOy_step (g : Game) (a : Int) (c : Bool) (w : World)
    (hc : 0 ≤ w.commandParameterIndex) :
    (cmdGOTOy g a c w).Holds
      (fun r => commandStep g a 1 (∀ room, (pendingAt g a w.commandParameterIndex).head? = some room →
        roomInRange g room) w r.2)
      (commandStep g a 1 (∀ room, (pendingAt g a w.commandParameterIndex).head? = some room →
        roomInRange g room) w) := by
  unfold cmdGOTOy
  refine Result.Holds_fetch_bind hc (fun p cur hcur hpend => ?_)
  refine ⟨rfl, rfl, fun h => h, hcur, pending_drop_one hpend, fun hrooms hinv => ?_⟩
  obtain ⟨hloc, hroom, halt⟩ := hinv
  exact ⟨hloc, hrooms p (by rw [hpend]; rfl), halt⟩

theorem cmdToRM0_step (g : Game) (a : Int) (c : Bool) (w : World)
    (hc : 0 ≤ w.commandParameterIndex) :
    (cmdToRM0 g a c w).Holds
      (fun r => commandStep g a 1 True w r.2)
      (commandStep g a 1 True w) := by
  unfold cmdToRM0
  refine Result.Holds_fetch_bind hc (fun p cur hcur hpend => ?_)
  refine Result.Holds_orPanic_bind (fun l hl => ?_)
  refine ⟨rfl, rfl, fun h => h, hcur, pending_drop_one hpend, fun hrooms hinv => ?_⟩
  obtain ⟨hloc, hroom, halt⟩ := hinv
  refine ⟨fun x hx => ?_, hroom, halt⟩
  rcases mem_of_assign _ _ _ _ _ hl hx with h | h
  · exact hloc x h
  · rw [h]; exact Or.inr ⟨le_refl _, le_trans hroom.1 hroom.2⟩

theorem cmdXtoY_step (g : Game) (a : Int) (c : Bool) (w : World)
    (hc : 0 ≤ w.commandParameterIndex) :
    (cmdXtoY g a c w).Holds
      (fun r => commandStep g a 2 (∀ location, ((pendingAt g a w.commandParameterIndex).drop 1).head? = some location →
        locationInRange g location) w r.2)
      (commandStep g a 2 (∀ location, ((pendingAt g a w.commandParameterIndex).drop 1).head? = some location →
        locationInRange g location) w) := by
  unfold cmdXtoY
  refine Result.Holds_fetch_bind hc (fun p cur hcur hpend => ?_)
  refine Result.Holds_fetch_bind hcur (fun p2 cur2 hcur2 hpend2 => ?_)
  refine Result.Holds_orPanic_bind (fun l hl => ?_)
  refine ⟨rfl, rfl, fun h => h, hcur2, pending_drop_two hpend hpend2,
    fun hrooms hinv => ?_⟩
  obtain ⟨hloc, hroom, halt⟩ := hinv
  refine ⟨fun x hx => ?_, hroom, halt⟩
  rcases mem_of_assign _ _ _ _ _ hl hx with h | h
  · exact hloc x h
  · rw [h]
    refine hrooms p2 ?_
    rw [hpend]
    show (pendingAt g a cur).head? = some p2
    rw [hpend2]
    rfl

theorem cmdEXxx_step (g : Game) (a : Int) (c : Bool) (w : World)
    (hc : 0 ≤ w.commandParameterIndex) :
    (cmdEXxx g a c w).Holds
      (fun r => commandStep g a 2 True w r.2)
      (commandStep g a 2 True w) := by
  unfold cmdEXxx
  refine Result.Holds_fetch_bind hc (fun p cur hcur hpend => ?_)
  refine Result.Holds_fetch_bind hcur (fun p2 cur2 hcur2 hpend2 => ?_)
  refine Result.Holds_orPanic_bind (fun t2 ht2 => ?_)
  refine Result.Holds_orPanic_bind (fun t1 ht1 => ?_)
  refine Result.Holds_orPanic_bind (fun l hl => ?_)
  refine Result.Holds_orPanic_bind (fun l2 hl2 => ?_)
  refine ⟨rfl, rfl, fun h => h, hcur2, pending_drop_two hpend hpend2,
    fun hrooms hinv => ?_⟩
  obtain ⟨hloc, hroom, halt⟩ := hinv
  refine ⟨fun x hx => ?_, hroom, halt⟩
  rcases mem_of_assign _ _ _ _ _ hl2 hx with h | h
  · rcases mem_of_assign _ _ _ _ _ hl h with h' | h'
    · exact hloc x h'
    · rw [h']; exact hloc _ (mem_of_index _ _ _ ht1)
  · rw [h]; exact hloc _ (mem_of_index _ _ _ ht2)

theorem cmdBYxx_step (g : Game) (a : Int) (c : Bool) (w : World)
    (hc : 0 ≤ w.commandParameterIndex) :
    (cmdBYxx g a c w).Holds
      (fun r => commandStep g a 2 True w r.2)
      (commandStep g a 2 True w) := by
  unfold cmdBYxx
  refine Result.Holds_fetch_bind hc (fun p cur hcur hpend => ?_)
  refine Result.Holds_fetch_bind hcur (fun p2 cur2 hcur2 hpend2 => ?_)
  refine Result.Holds_orPanic_bind (fun t2 ht2 => ?_)
  refine Result.Holds_orPanic_bind (fun l hl => ?_)
  refine ⟨rfl, rfl, fun h => h, hcur2, pending_drop_two hpend hpend2,
    fun hrooms hinv => ?_⟩
  obtain ⟨hloc, hroom, halt⟩ := hinv
  refine ⟨fun x hx => ?_, hroom, halt⟩
  rcases mem_of_assign _ _ _ _ _ hl hx with h | h
  · exact hloc x h
  · rw [h]; exact hloc _ (mem_of_index _ _ _ ht2)

theorem cmdAGETx_step (g : Game) (a : Int) (c : Bool) (w : World)
    (hc : 0 ≤ w.commandParameterIndex) :
    (cmdAGETx g a c w).Holds
      (fun r => commandStep g a 1 True w r.2)
      (commandStep g a 1 True w) := by
  unfold cmdAGETx
  refine Result.Holds_fetch_bind hc (fun p cur hcur hpend => ?_)
  refine Result.Holds_orPanic_bind (fun l hl => ?_)
  refine ⟨rfl, rfl, fun h => h, hcur, pending_drop_one hpend, fun hrooms hinv => ?_⟩
  obtain ⟨hloc, hroom, halt⟩ := hinv
  refine ⟨fun x hx => ?_, hroom, halt⟩
  rcases mem_of_assign _ _ _ _ _ hl hx with h | h
  · exact hloc x h
  · rw [h]; exact Or.inl rfl

theorem cmdEXRM0_step (g : Game) (a : Int) (c : Bool) (w : World)
    (hc : 0 ≤ w.commandParameterIndex) :
    (cmdEXRM0 g a c w).Holds
      (fun r => commandStep g a 0 True w r.2)
      (commandStep g a 0 True w) := by
  unfold cmdEXRM0
  refine Result.Holds_orPanic_bind (fun room hroom0 => ?_)
  refine Result.Holds_orPanic_bind (fun l hl => ?_)
  refine ⟨rfl, rfl, fun h => h, hc, rfl, fun hrooms hinv => ?_⟩
  obtain ⟨hloc, hroom, halt⟩ := hinv
  refine ⟨hloc, halt _ (mem_of_index _ _ _ hroom0), fun x hx => ?_⟩
  rcases mem_of_assign _ _ _ _ _ hl hx with h | h
  · exact halt x h
  · rw [h]; exact hroom

theorem cmdEXcCR_step (g : Game) (a : Int) (c : Bool) (w : World)
    (hc : 0 ≤ w.commandParameterIndex) :
    (cmdEXcCR g a c w).Holds
      (fun r => commandStep g a 1 True w r.2)
      (commandStep g a 1 True w) := by
  unfold cmdEXcCR
  refine Result.Holds_fetch_bind hc (fun p cur hcur hpend => ?_)
  refine Result.Holds_orPanic_bind (fun room hroom0 => ?_)
  refine Result.Holds_orPanic_bind (fun l hl => ?_)
  refine ⟨rfl, rfl, fun h => h, hcur, pending_drop_one hpend, fun hrooms hinv => ?_⟩
  obtain ⟨hloc, hroom, halt⟩ := hinv
  refine ⟨hloc, halt _ (mem_of_index _ _ _ hroom0), fun x hx => ?_⟩
  rcases mem_of_assign _ _ _ _ _ hl hx with h | h
  · exact halt x h
  · rw [h]; exact hroom

theorem cmdFILL_step (g : Game) (a : Int) (c : Bool) (w : World)
    (hc : 0 ≤ w.commandParameterIndex) :
    (cmdFILL g a c w).Holds
      (fun r => commandStep g a 0 True w r.2)
      (commandStep g a 0 True w) := by
  unfold cmdFILL
  refine Result.Holds_orPanic_bind (fun counters hcounters => ?_)
  refine Result.Holds_orPanic_bind (fun l hl => ?_)
  refine Result.Holds_orPanic_bind (fun flags hflags => ?_)
  refine ⟨rfl, rfl, fun h => h, hc, rfl, fun hrooms hinv => ?_⟩
  obtain ⟨hloc, hroom, halt⟩ := hinv
  refine ⟨fun x hx => ?_, hroom, halt⟩
  rcases mem_of_assign _ _ _ _ _ hl hx with h | h
  · exact hloc x h
  · rw [h]; exact Or.inl rfl

theorem cmdDEAD_step (g : Game) (a : Int) (c : Bool) (w : World)
    (hc : 0 ≤ w.commandParameterIndex) :
    (cmdDEAD g a c w).Holds
      (fun r => commandStep g a 0 True w r.2)
      (commandStep g a 0 True w) := by
  unfold cmdDEAD
  refine Result.Holds_orPanic_bind (fun flags hflags => ?_)
  refine Result.Holds_show_bind (showRoomDescription_output g _) (fun out => ?_)
  refine ⟨rfl, rfl, fun h => h, hc, rfl, fun hrooms hinv => ?_⟩
  obtain ⟨hloc, hroom, halt⟩ := hinv
  exact ⟨hloc, ⟨le_trans hroom.1 hroom.2, le_refl _⟩, halt⟩

theorem cmdDspRM_step (g : Game) (a : Int) (c : Bool) (w : World)
    (hc : 0 ≤ w.commandParameterIndex) :
    (cmdDspRM g a c w).Holds
      (fun r => commandStep g a 0 True w r.2)
      (commandStep g a 0 True w) := by
  unfold cmdDspRM
  refine Result.Holds_show_bind (showRoomDescription_output g _) (fun out => ?_)
  exact ⟨rfl, rfl, fun h => h, hc, rfl, fun _ h => h⟩

theorem cmdINV_step (g : Game) (a : Int) (c : Bool) (w : World)
    (hc : 0 ≤ w.commandParameterIndex) :
    (cmdINV g a c w).Holds
      (fun r => commandStep g a 0 True w r.2)
      (commandStep g a 0 True w) := by
  unfold cmdINV
  refine Result.Holds_bind (Result.Holds_mono (showInventory_output g _ 0 "Nothing" w)
    (fun _ h => h) (fun _ h => h.elim)) ?_
  rintro ⟨text, w1⟩ ⟨out, hout⟩
  simp only at hout
  subst hout
  exact ⟨rfl, rfl, fun h => h, hc, rfl, fun _ h => h⟩

theorem countStoredTreasures_no_exit (g : Game) (locations : List Int) :
    ∀ object stored, (countStoredTreasures g locations object stored).Holds
      (fun _ => True) (fun _ => False) := by
  induction locations with
  | nil => intro object stored; trivial
  | cons location rest ih =>
    intro object stored
    unfold countStoredTreasures
    split
    · refine Result.Holds_orPanic_bind (fun description _ => ?_)
      split
      · exact ih _ _
      · exact ih _ _
    · exact ih _ _

theorem cmdSCORE_step (g : Game) (a : Int) (c : Bool) (w : World)
    (hc : 0 ≤ w.commandParameterIndex) :
    (cmdSCORE g a c w).Holds
      (fun r => commandStep g a 0 True w r.2)
      (commandStep g a 0 True w) := by
  unfold cmdSCORE
  refine Result.Holds_bind (Result.Holds_mono (countStoredTreasures_no_exit g _ 0 0)
    (fun _ h => h) (fun _ h => h.elim)) (fun stored _ => ?_)
  split
  · exact ⟨rfl, rfl, fun h => h, hc, rfl, fun _ h => h⟩
  · exact ⟨rfl, rfl, fun h => h, hc, rfl, fun _ h => h⟩

theorem cmdFINI_step (g : Game) (a : Int) (c : Bool) (w : World)
    (hc : 0 ≤ w.commandParameterIndex) :
    (cmdFINI g a c w).Holds
      (fun r => commandStep g a 0 True w r.2)
      (commandStep g a 0 True w) :=
  ⟨rfl, rfl, fun h => h, hc, rfl, fun _ h => h⟩

theorem cmdNIGHT_step (g : Game) (a : Int) (c : Bool) (w : World)
    (hc : 0 ≤ w.commandParameterIndex) :
    (cmdNIGHT g a c w).Holds
      (fun r => commandStep g a 0 True w r.2)
      (commandStep g a 0 True w) := by
  unfold cmdNIGHT
  exact Result.Holds_orPanic_bind (fun flags _ => ⟨rfl, rfl, fun h => h, hc, rfl, fun _ h => h⟩)

theorem cmdDAY_step (g : Game) (a : Int) (c : Bool) (w : World)
    (hc : 0 ≤ w.commandParameterIndex) :
    (cmdDAY g a c w).Holds
      (fun r => commandStep g a 0 True w r.2)
      (commandStep g a 0 True w) := by
  unfold cmdDAY
  exact Result.Holds_orPanic_bind (fun flags _ => ⟨rfl, rfl, fun h => h, hc, rfl, fun _ h => h⟩)

theorem cmdSET0_step (g : Game) (a : Int) (c : Bool) (w : World)
    (hc : 0 ≤ w.commandParameterIndex) :
    (cmdSET0 g a c w).Holds
      (fun r => commandStep g a 0 True w r.2)
      (commandStep g a 0 True w) := by
  unfold cmdSET0
  exact Result.Holds_orPanic_bind (fun flags _ => ⟨rfl, rfl, fun h => h, hc, rfl, fun _ h => h⟩)

theorem cmdCLR0_step (g : Game) (a : Int) (c : Bool) (w : World)
    (hc : 0 ≤ w.commandParameterIndex) :
    (cmdCLR0 g a c w).Holds
      (fun r => commandStep g a 0 True w r.2)
      (commandStep g a 0 True w) := by
  unfold cmdCLR0
  exact Result.Holds_orPanic_bind (fun flags _ => ⟨rfl, rfl, fun h => h, hc, rfl, fun _ h => h⟩)

theorem cmdSETz_step (g : Game) (a : Int) (c : Bool) (w : World)
    (hc : 0 ≤ w.commandParameterIndex) :
    (cmdSETz g a c w).Holds
      (fun r => commandStep g a 1 True w r.2)
      (commandStep g a 1 True w) := by
  unfold cmdSETz
  refine Result.Holds_fetch_bind hc (fun p cur hcur hpend => ?_)
  exact Result.Holds_orPanic_bind (fun flags _ => ⟨rfl, rfl, fun h => h, hcur, pending_drop_one hpend, fun _ h => h⟩)

theorem cmdCLRz_step (g : Game) (a : Int) (c : Bool) (w : World)
    (hc : 0 ≤ w.commandParameterIndex) :
    (cmdCLRz g a c w).Holds
      (fun r => commandStep g a 1 True w r.2)
      (commandStep g a 1 True w) := by
  unfold cmdCLRz
  refine Result.Holds_fetch_bind hc (fun p cur hcur hpend => ?_)
  exact Result.Holds_orPanic_bind (fun flags _ => ⟨rfl, rfl, fun h => h, hcur, pending_drop_one hpend, fun _ h => h⟩)

theorem cmdCLS_step (g : Game) (a : Int) (c : Bool) (w : World)
    (hc : 0 ≤ w.commandParameterIndex) :
    (cmdCLS g a c w).Holds
      (fun r => commandStep g a 0 True w r.2)
      (commandStep g a 0 True w) :=
  ⟨rfl, rfl, fun h => h, hc, rfl, fun _ h => h⟩

theorem cmdSAVE_step (g : Game) (a : Int) (c : Bool) (w : World)
    (hc : 0 ≤ w.commandParameterIndex) :
    (cmdSAVE g a c w).Holds
      (fun r => commandStep g a 0 True w r.2)
      (commandStep g a 0 True w) :=
  ⟨rfl, rfl, fun h => h, hc, rfl, fun _ h => h⟩

theorem cmdCONT_step (g : Game) (a : Int) (c : Bool) (w : World)
    (hc : 0 ≤ w.commandParameterIndex) :
    (cmdCONT g a c w).Holds
      (fun r => commandStep g a 0 True w r.2)
      (commandStep g a 0 True w) :=
  ⟨rfl, rfl, fun _ => rfl, hc, rfl, fun _ h => h⟩

theorem cmdCTminus1_step (g : Game) (a : Int) (c : Bool) (w : World)
    (hc : 0 ≤ w.commandParameterIndex) :
    (cmdCTminus1 g a c w).Holds
      (fun r => commandStep g a 0 True w r.2)
      (commandStep g a 0 True w) :=
  ⟨rfl, rfl, fun h => h, hc, rfl, fun _ h => h⟩

theorem cmdDspCT_step (g : Game) (a : Int) (c : Bool) (w : World)
    (hc : 0 ≤ w.commandParameterIndex) :
    (cmdDspCT g a c w).Holds
      (fun r => commandStep g a 0 True w r.2)
      (commandStep g a 0 True w) :=
  ⟨rfl, rfl, fun h => h, hc, rfl, fun _ h => h⟩

theorem cmdSAYw_step (g : Game) (a : Int) (c : Bool) (w : World)
    (hc : 0 ≤ w.commandParameterIndex) :
    (cmdSAYw g a c w).Holds
      (fun r => commandStep g a 0 True w r.2)
      (commandStep g a 0 True w) :=
  ⟨rfl, rfl, fun h => h, hc, rfl, fun _ h => h⟩

theorem cmdSAYwCR_step (g : Game) (a : Int) (c : Bool) (w : World)
    (hc : 0 ≤ w.commandParameterIndex) :
    (cmdSAYwCR g a c w).Holds
      (fun r => commandStep g a 0 True w r.2)
      (commandStep g a 0 True w) :=
  ⟨rfl, rfl, fun h => h, hc, rfl, fun _ h => h⟩

theorem cmdSAYCR_step (g : Game) (a : Int) (c : Bool) (w : World)
    (hc : 0 ≤ w.commandParameterIndex) :
    (cmdSAYCR g a c w).Holds
      (fun r => commandStep g a 0 True w r.2)
      (commandStep g a 0 True w) :=
  ⟨rfl, rfl, fun h => h, hc, rfl, fun _ h => h⟩

theorem cmdDELAY_step (g : Game) (a : Int) (c : Bool) (w : World)
    (hc : 0 ≤ w.commandParameterIndex) :
    (cmdDELAY g a c w).Holds
      (fun r => commandStep g a 0 True w r.2)
      (commandStep g a 0 True w) :=
  ⟨rfl, rfl, fun h => h, hc, rfl, fun _ h => h⟩

theorem cmdCTset_step (g : Game) (a : Int) (c : Bool) (w : World)
    (hc : 0 ≤ w.commandParameterIndex) :
    (cmdCTset g a c w).Holds
      (fun r => commandStep g a 1 True w r.2)
      (commandStep g a 1 True w) := by
  unfold cmdCTset
  exact Result.Holds_fetch_bind hc
    (fun p cur hcur hpend =>
      ⟨rfl, rfl, fun h => h, hcur, pending_drop_one hpend, fun _ h => h⟩)

theorem cmdCTplusN_step (g : Game) (a : Int) (c : Bool) (w : World)
    (hc : 0 ≤ w.commandParameterIndex) :
    (cmdCTplusN g a c w).Holds
      (fun r => commandStep g a 1 True w r.2)
      (commandStep g a 1 True w) := by
  unfold cmdCTplusN
  exact Result.Holds_fetch_bind hc
    (fun p cur hcur hpend =>
      ⟨rfl, rfl, fun h => h, hcur, pending_drop_one hpend, fun _ h => h⟩)

theorem cmdCTminusN_step (g : Game) (a : Int) (c : Bool) (w : World)
    (hc : 0 ≤ w.commandParameterIndex) :
    (cmdCTminusN g a c w).Holds
      (fun r => commandStep g a 1 True w r.2)
      (commandStep g a 1 True w) := by
  unfold cmdCTminusN
  exact Result.Holds_fetch_bind hc
    (fun p cur hcur hpend =>
      ⟨rfl, rfl, fun h => h, hcur, pending_drop_one hpend, fun _ h => h⟩)

theorem cmdEXmCT_step (g : Game) (a : Int) (c : Bool) (w : World)
    (hc : 0 ≤ w.commandParameterIndex) :
    (cmdEXmCT g a c w).Holds
      (fun r => commandStep g a 1 True w r.2)
      (commandStep g a 1 True w) := by
  unfold cmdEXmCT
  refine Result.Holds_fetch_bind hc (fun p cur hcur hpend => ?_)
  refine Result.Holds_orPanic_bind (fun counter _ => ?_)
  exact Result.Holds_orPanic_bind
    (fun counters _ => ⟨rfl, rfl, fun h => h, hcur, pending_drop_one hpend, fun _ h => h⟩)

theorem Result.Holds_step_rooms {g : Game} {a : Int} {arity : Nat} {rooms rooms' : Prop}
    {w : World} {x : Result (Bool × World)}
    (hx : x.Holds (fun r => commandStep g a arity rooms w r.2) (commandStep g a arity rooms w))
    (hrooms : rooms' → rooms) :
    x.Holds (fun r => commandStep g a arity rooms' w r.2) (commandStep g a arity rooms' w) :=
  Result.Holds_mono hx
    (fun _ h => ⟨h.1, h.2.1, h.2.2.1, h.2.2.2.1, h.2.2.2.2.1,
      fun hr => h.2.2.2.2.2 (hrooms hr)⟩)
    (fun _ h => ⟨h.1, h.2.1, h.2.2.1, h.2.2.2.1, h.2.2.2.2.1,
      fun hr => h.2.2.2.2.2 (hrooms hr)⟩)

/-- Every entry of the command table is a step: the command with the code
`code` fetches `commandArity code` parameters and keeps the locations in range
when the parameter it stores as a room is. -/
theorem commandFunction_step (g : Game) (a : Int) (c : Bool) (w : World)
    (hc : 0 ≤ w.commandParameterIndex) (code : Int) (command : commandFunc)
    (hcommand : index commandFunction (code - MESSAGE_1_END - 1) = some command) :
    (command g a c w).Holds
      (fun r => commandStep g a (commandArity code)
        (roomsOk g code (pendingAt g a w.commandParameterIndex) = true) w r.2)
      (commandStep g a (commandArity code)
        (roomsOk g code (pendingAt g a w.commandParameterIndex) = true) w) := by
  have hbounds : 52 ≤ code ∧ code ≤ 88 := by
    unfold index at hcommand
    split at hcommand
    · cases hcommand
    · rename_i hneg
      have hlt := (List.getElem?_eq_some.mp hcommand).1
      have hlen : commandFunction.length = 37 := rfl
      simp only [MESSAGE_1_END] at hneg hlt
      omega
  obtain ⟨h52, h88⟩ := hbounds
  interval_cases code
  · obtain rfl : cmdGETx = command := Option.some.inj hcommand
    exact Result.Holds_step_rooms (cmdGETx_step g a c w hc) (fun _ => trivial)
  · obtain rfl : cmdDROPx = command := Option.some.inj hcommand
    exact Result.Holds_step_rooms (cmdDROPx_step g a c w hc) (fun _ => trivial)
  · obtain rfl : cmdGOTOy = command := Option.some.inj hcommand
    exact Result.Holds_step_rooms (cmdGOTOy_step g a c w hc) (fun hr room hroom => by
        rw [roomsOk, if_pos rfl, hroom] at hr
        exact of_decide_eq_true hr)
  · obtain rfl : cmdToRM0 = command := Option.some.inj hcommand
    exact Result.Holds_step_rooms (cmdToRM0_step g a c w hc) (fun _ => trivial)
  · obtain rfl : cmdNIGHT = command := Option.some.inj hcommand
    exact Result.Holds_step_rooms (cmdNIGHT_step g a c w hc) (fun _ => trivial)
  · obtain rfl : cmdDAY = command := Option.some.inj hcommand
    exact Result.Holds_step_rooms (cmdDAY_step g a c w hc) (fun _ => trivial)
  · obtain rfl : cmdSETz = command := Option.some.inj hcommand
    exact Result.Holds_step_rooms (cmdSETz_step g a c w hc) (fun _ => trivial)
  · obtain rfl : cmdToRM0 = command := Option.some.inj hcommand
    exact Result.Holds_step_rooms (cmdToRM0_step g a c w hc) (fun _ => trivial)
  · obtain rfl : cmdCLRz = command := Option.some.inj hcommand
    exact Result.Holds_step_rooms (cmdCLRz_step g a c w hc) (fun _ => trivial)
  · obtain rfl : cmdDEAD = command := Option.some.inj hcommand
    exact Result.Holds_step_rooms (cmdDEAD_step g a c w hc) (fun _ => trivial)
  · obtain rfl : cmdXtoY = command := Option.some.inj hcommand
    exact Result.Holds_step_rooms (cmdXtoY_step g a c w hc) (fun hr location hlocation => by
        rw [roomsOk, if_neg (by decide), if_pos rfl, hlocation] at hr
        exact of_decide_eq_true hr)
  · obtain rfl : cmdFINI = command := Option.some.inj hcommand
    exact Result.Holds_step_rooms (cmdFINI_step g a c w hc) (fun _ => trivial)
  · obtain rfl : cmdDspRM = command := Option.some.inj hcommand
    exact Result.Holds_step_rooms (cmdDspRM_step g a c w hc) (fun _ => trivial)
  · obtain rfl : cmdSCORE = command := Option.some.inj hcommand
    exact Result.Holds_step_rooms (cmdSCORE_step g a c w hc) (fun _ => trivial)
  · obtain rfl : cmdINV = command := Option.some.inj hcommand
    exact Result.Holds_step_rooms (cmdINV_step g a c w hc) (fun _ => trivial)
  · obtain rfl : cmdSET0 = command := Option.some.inj hcommand
    exact Result.Holds_step_rooms (cmdSET0_step g a c w hc) (fun _ => trivial)
  · obtain rfl : cmdCLR0 = command := Option.some.inj hcommand
    exact Result.Holds_step_rooms (cmdCLR0_step g a c w hc) (fun _ => trivial)
  · obtain rfl : cmdFILL = command := Option.some.inj hcommand
    exact Result.Holds_step_rooms (cmdFILL_step g a c w hc) (fun _ => trivial)
  · obtain rfl : cmdCLS = command := Option.some.inj hcommand
    exact Result.Holds_step_rooms (cmdCLS_step g a c w hc) (fun _ => trivial)
  · obtain rfl : cmdSAVE = command := Option.some.inj hcommand
    exact Result.Holds_step_rooms (cmdSAVE_step g a c w hc) (fun _ => trivial)
  · obtain rfl : cmdEXxx = command := Option.some.inj hcommand
    exact Result.Holds_step_rooms (cmdEXxx_step g a c w hc) (fun _ => trivial)
  · obtain rfl : cmdCONT = command := Option.some.inj hcommand
    exact Result.Holds_step_rooms (cmdCONT_step g a c w hc) (fun _ => trivial)
  · obtain rfl : cmdAGETx = command := Option.some.inj hcommand
    exact Result.Holds_step_rooms (cmdAGETx_step g a c w hc) (fun _ => trivial)
  · obtain rfl : cmdBYxx = command := Option.some.inj hcommand
    exact Result.Holds_step_rooms (cmdBYxx_step g a c w hc) (fun _ => trivial)
  · obtain rfl : cmdDspRM = command := Option.some.inj hcommand
    exact Result.Holds_step_rooms (cmdDspRM_step g a c w hc) (fun _ => trivial)
  · obtain rfl : cmdCTminus1 = command := Option.some.inj hcommand
    exact Result.Holds_step_rooms (cmdCTminus1_step g a c w hc) (fun _ => trivial)
  · obtain rfl : cmdDspCT = command := Option.some.inj hcommand
    exact Result.Holds_step_rooms (cmdDspCT_step g a c w hc) (fun _ => trivial)
  · obtain rfl : cmdCTset = command := Option.some.inj hcommand
    exact Result.Holds_step_rooms (cmdCTset_step g a c w hc) (fun _ => trivial)
  · obtain rfl : cmdEXRM0 = command := Option.some.inj hcommand
    exact Result.Holds_step_rooms (cmdEXRM0_step g a c w hc) (fun _ => trivial)
  · obtain rfl : cmdEXmCT = command := Option.some.inj hcommand
    exact Result.Holds_step_rooms (cmdEXmCT_step g a c w hc) (fun _ => trivial)
  · obtain rfl : cmdCTplusN = command := Option.some.inj hcommand
    exact Result.Holds_step_rooms (cmdCTplusN_step g a c w hc) (fun _ => trivial)
  · obtain rfl : cmdCTminusN = command := Option.some.inj hcommand
    exact Result.Holds_step_rooms (cmdCTminusN_step g a c w hc) (fun _ => trivial)
  · obtain rfl : cmdSAYw = command := Option.some.inj hcommand
    exact Result.Holds_step_rooms (cmdSAYw_step g a c w hc) (fun _ => trivial)
  · obtain rfl : cmdSAYwCR = command := Option.some.inj hcommand
    exact Result.Holds_step_rooms (cmdSAYwCR_step g a c w hc) (fun _ => trivial)
  · obtain rfl : cmdSAYCR = command := Option.some.inj hcommand
    exact Result.Holds_step_rooms (cmdSAYCR_step g a c w hc) (fun _ => trivial)
  · obtain rfl : cmdEXcCR = command := Option.some.inj hcommand
    exact Result.Holds_step_rooms (cmdEXcCR_step g a c w hc) (fun _ => trivial)
  · obtain rfl : cmdDELAY = command := Option.some.inj hcommand
    exact Result.Holds_step_rooms (cmdDELAY_step g a c w hc) (fun _ => trivial)

theorem commandArity_text (code : Int) (h : code ≤ MESSAGE_1_END ∨ MESSAGE_2_START ≤ code) :
    commandArity code = 0 := by
  have hnone : index commandArities (code - 52) = none := by
    unfold index
    simp only [MESSAGE_1_END, MESSAGE_2_START] at h
    split
    · rfl
    · have hlen : commandArities.length = 37 := rfl
      apply List.getElem?_eq_none
      omega
  simp [commandArity, hnone]

theorem executeCommand_step (g : Game) (a : Int) (code : Int) (c : Bool) (w : World)
    (hc : 0 ≤ w.commandParameterIndex) :
    (executeCommand g a code c w).Holds
      (fun r => commandStep g a (commandArity code)
        (roomsOk g code (pendingAt g a w.commandParameterIndex) = true) w r.2)
      (commandStep g a (commandArity code)
        (roomsOk g code (pendingAt g a w.commandParameterIndex) = true) w) := by
  unfold executeCommand
  split
  · rename_i htext
    rw [commandArity_text code (Or.inr htext)]
    exact Result.Holds_orPanic_bind
      (fun text _ => ⟨rfl, rfl, fun h => h, hc, rfl, fun _ h => h⟩)
  · split
    · rename_i hzero
      rw [commandArity_text code (Or.inl (by rw [hzero]; decide))]
      exact ⟨rfl, rfl, fun h => h, hc, rfl, fun _ h => h⟩
    · split
      · rename_i htext
        rw [commandArity_text code (Or.inl htext)]
        exact Result.Holds_orPanic_bind
          (fun text _ => ⟨rfl, rfl, fun h => h, hc, rfl, fun _ h => h⟩)
      · exact Result.Holds_orPanic_bind
          (fun command hcommand => commandFunction_step g a c w hc code command hcommand)

theorem Result.Holds_no_exit_bind {α β : Type} {x : Result α} {f : α → Result β}
    {post : β → Prop} {atExit : World → Prop}
    (hx : x.Holds (fun _ => True) (fun _ => False))
    (h : ∀ a, x = .ok a → (f a).Holds post atExit) : (x >>= f).Holds post atExit := by
  cases x with
  | ok a => exact h a rfl
  | exit w => exact hx.elim
  | panic => trivial

theorem decodeCommandFromData_no_exit (g : Game) (command a : Int) :
    (decodeCommandFromData g command a).Holds (fun _ => True) (fun _ => False) := by
  unfold decodeCommandFromData
  refine Result.Holds_orPanic_bind (fun record _ => ?_)
  refine Result.Holds_orPanic_bind (fun stored _ => ?_)
  split <;> trivial

/-- What the commands number `commands` of an action keep: the state of the
generator and the log, a set continuation flag, and the locations in range
when the parameters stored as rooms are. -/
theorem executeCommandsLoop_step (g : Game) (a : Int) (commands : List Int) :
    ∀ (c : Bool) (w : World), 0 ≤ w.commandParameterIndex →
      (executeCommandsLoop g a commands c w).Holds
        (fun w' => w'.prngState = w.prngState ∧ w'.executed = w.executed ∧
          (w.contFlag = true → w'.contFlag = true) ∧
          (roomParametersOk g a commands (pendingAt g a w.commandParameterIndex) = true →
            locationsInRange g w → locationsInRange g w'))
        (fun w' => w'.prngState = w.prngState ∧ w'.executed = w.executed ∧
          (w.contFlag = true → w'.contFlag = true) ∧
          (roomParametersOk g a commands (pendingAt g a w.commandParameterIndex) = true →
            locationsInRange g w → locationsInRange g w')) := by
  induction commands with
  | nil => intro c w _; exact ⟨rfl, rfl, fun h => h, fun _ h => h⟩
  | cons command commands ih =>
    intro c w hc
    unfold executeCommandsLoop
    split
    · refine Result.Holds_no_exit_bind (decodeCommandFromData_no_exit g command a)
        (fun code hcode => ?_)
      have hparts : roomParametersOk g a (command :: commands)
            (pendingAt g a w.commandParameterIndex) = true →
          roomsOk g code (pendingAt g a w.commandParameterIndex) = true ∧
          roomParametersOk g a commands
            ((pendingAt g a w.commandParameterIndex).drop (commandArity code)) = true := by
        intro h
        rw [roomParametersOk, hcode] at h
        simpa using h
      refine Result.Holds_bind
        (Result.Holds_mono_to
          (fun r => commandStep g a (commandArity code)
            (roomsOk g code (pendingAt g a w.commandParameterIndex) = true) w r.2)
          (fun w' => w'.prngState = w.prngState ∧ w'.executed = w.executed ∧
            (w.contFlag = true → w'.contFlag = true) ∧
            (roomParametersOk g a (command :: commands)
                (pendingAt g a w.commandParameterIndex) = true →
              locationsInRange g w → locationsInRange g w'))
          (executeCommand_step g a code c w hc) (fun _ h => h)
          (fun w1 h => ⟨h.1, h.2.1, h.2.2.1,
            fun hok hinv => h.2.2.2.2.2 (hparts hok).1 hinv⟩)) ?_
      rintro ⟨c1, w1⟩ ⟨hp, he, hf, hc1, hpend, hloc⟩
      have hnext := ih c1 w1 hc1
      refine Result.Holds_mono hnext ?_ ?_ <;>
      · rintro w2 ⟨hp2, he2, hf2, hloc2⟩
        refine ⟨hp2.trans hp, he2.trans he, fun h => hf2 (hf h), fun hok hinv => ?_⟩
        have hboth := hparts hok
        refine hloc2 ?_ (hloc hboth.1 hinv)
        rw [hpend]
        exact hboth.2
    · exact ⟨rfl, rfl, fun h => h, fun _ h => h⟩

/-! ## Commands: object locations -/

theorem executeCommands_step (g : Game) (a : Int) (w : World) :
    (executeCommands g a w).Holds
      (fun w' => w'.prngState = w.prngState ∧ w'.executed = w.executed ∧
        (w.contFlag = true → w'.contFlag = true) ∧
        (roomParametersInRange g a → locationsInRange g w → locationsInRange g w'))
      (fun w' => w'.prngState = w.prngState ∧ w'.executed = w.executed ∧
        (w.contFlag = true → w'.contFlag = true) ∧
        (roomParametersInRange g a → locationsInRange g w → locationsInRange g w')) := by
  unfold executeCommands
  exact executeCommandsLoop_step g a [0, 1, 2, 3] true { w with commandParameterIndex := 1 }
    Int.one_nonneg

theorem Result.Holds_ok {α : Type} {x : Result α} {post : α → Prop} {atExit : World → Prop}
    {a : α} (h : x.Holds post atExit) (hx : x = .ok a) : post a := by
  subst hx; exact h

theorem Result.Holds_exit {α : Type} {x : Result α} {post : α → Prop} {atExit : World → Prop}
    {w : World} (h : x.Holds post atExit) (hx : x = .exit w) : atExit w := by
  subst hx; exact h

/-- C12 (counterexample): in a game of 3 rooms, from a state whose object
locations and current room are in range, the commands of an action with
x->y and the parameters 0 and 7 leave object 0 in location 7.  GOTOy with
the parameter 7 followed by DROPx leaves object 1 in location 7, and so does,
from a state whose first saved room is 7, EXRM0 followed by DROPx. -/
theorem locations_leave_range :
    (∀ location ∈ demoWorld.objectLocation, locationInRange farRoomGame location) ∧
    roomInRange farRoomGame demoWorld.currentRoom ∧
    executeCommands farRoomGame 0 demoWorld
      = .ok { demoWorld with objectLocation := [7, -1, 2, 1, 3], commandParameter := 7,
                             commandParameterIndex := 3,
                             output := demoWorld.output ++ ["OK\n"] } ∧
    ¬ locationInRange farRoomGame 7 ∧
    executeCommands gotoDropGame 0 demoWorld
      = .ok { demoWorld with objectLocation := [2, 7, 2, 1, 3], currentRoom := 7,
                             commandParameter := 1, commandParameterIndex := 3 } ∧
    executeCommands swapRoomGame 0 { demoWorld with alternateRoom := [7, 0, 0, 0, 0, 0] }
      = .ok { demoWorld with objectLocation := [2, 7, 2, 1, 3], currentRoom := 7,
                             alternateRoom := [1, 0, 0, 0, 0, 0],
                             commandParameter := 1, commandParameterIndex := 2 } := by
  decide!

/-- C12 (amended): when every parameter that a GOTOy of the action takes is a
room id in 0..numberOfRooms and every second parameter that an x->y of the
action takes is -1 or such a room id, and the object locations, the current
room and the saved rooms are in range, the commands of the action leave them
in range, whether they return or end the game.  The parameters of the other
commands, the slots that no command fetches and the command slots are free. -/
theorem locations_stay_in_range (g : Game) (actionId : Int) (w w' : World)
    (hparams : roomParametersInRange g actionId) (hrange : locationsInRange g w)
    (hrun : executeCommands g actionId w = .ok w' ∨ executeCommands g actionId w = .exit w') :
    locationsInRange g w' := by
  rcases hrun with hrun | hrun
  · exact (Result.Holds_ok (executeCommands_step g actionId w) hrun).2.2.2 hparams hrange
  · exact (Result.Holds_exit (executeCommands_step g actionId w) hrun).2.2.2 hparams hrange

/-- C12 (amended) on two records: x->y alone, whose command slot `62 * 150`
no command fetches, and GETx alone with the object 3 as its parameter. -/
theorem locations_stay_in_range_witness :
    locationsInRange plainRoomGame
      { demoWorld with objectLocation := [2, -1, 2, 1, 3], commandParameter := 2,
                       commandParameterIndex := 3 } ∧
    locationsInRange takeGame
      { demoWorld with objectLocation := [2, -1, 2, -1, 3], commandParameter := 3,
                       commandParameterIndex := 2 } :=
  ⟨locations_stay_in_range plainRoomGame 0 demoWorld _ (by decide) (by decide)
      (Or.inl (by decide!)),
    locations_stay_in_range takeGame 0 demoWorld _ (by decide) (by decide)
      (Or.inl (by decide!))⟩

/-! ## Dispatcher: what the blocks leave alone -/

theorem conditionFunction_no_exit (predicate : conditionFunc)
    (hmem : predicate ∈ conditionFunction) (parameter : Int) (w : World) :
    (predicate parameter w).Holds (fun _ => True) (fun _ => False) := by
  simp only [conditionFunction, List.mem_cons, List.mem_singleton, List.not_mem_nil,
    or_false] at hmem
  rcases hmem with rfl | rfl | rfl | rfl | rfl | rfl | rfl | rfl | rfl | rfl | rfl | rfl | rfl
    | rfl | rfl | rfl | rfl | rfl | rfl | rfl
  all_goals first
    | trivial
    | exact Result.Holds_orPanic _ _ _ (fun _ _ => trivial)
    | exact Result.Holds_orPanic_bind (fun _ _ => trivial)
    | exact Result.Holds_orPanic_bind (fun _ _ => Result.Holds_orPanic_bind (fun _ _ => trivial))

theorem conditionFunction_contFlag (predicate : conditionFunc)
    (hmem : predicate ∈ conditionFunction) (parameter : Int) (w : World) (flag : Bool) :
    predicate parameter { w with contFlag := flag } = predicate parameter w := by
  simp only [conditionFunction, List.mem_cons, List.mem_singleton, List.not_mem_nil,
    or_false] at hmem
  rcases hmem with rfl | rfl | rfl | rfl | rfl | rfl | rfl | rfl | rfl | rfl | rfl | rfl | rfl
    | rfl | rfl | rfl | rfl | rfl | rfl | rfl <;> rfl

theorem getConditionCode_no_exit (g : Game) (a condition : Int) :
    (getConditionCode g a condition).Holds (fun _ => True) (fun _ => False) :=
  Result.Holds_orPanic_bind (fun _ _ => Result.Holds_orPanic_bind (fun _ _ => trivial))

theorem getConditionParameter_no_exit (g : Game) (a condition : Int) :
    (getConditionParameter g a condition).Holds (fun _ => True) (fun _ => False) :=
  Result.Holds_orPanic_bind (fun _ _ => Result.Holds_orPanic_bind (fun _ _ => trivial))

theorem getActionVerb_no_exit (g : Game) (a : Int) :
    (getActionVerb g a).Holds (fun _ => True) (fun _ => False) :=
  Result.Holds_orPanic_bind (fun _ _ => Result.Holds_orPanic_bind (fun _ _ => trivial))

theorem getActionNoun_no_exit (g : Game) (a : Int) :
    (getActionNoun g a).Holds (fun _ => True) (fun _ => False) :=
  Result.Holds_orPanic_bind (fun _ _ => Result.Holds_orPanic_bind (fun _ _ => trivial))

theorem evaluateConditionsLoop_no_exit (g : Game) (a : Int) (w : World)
    (conditions : List Int) :
    (evaluateConditionsLoop g a w conditions).Holds (fun _ => True) (fun _ => False) := by
  induction conditions with
  | nil => trivial
  | cons condition conditions ih =>
    unfold evaluateConditionsLoop
    refine Result.Holds_no_exit_bind (getConditionCode_no_exit g a condition) (fun code _ => ?_)
    refine Result.Holds_no_exit_bind (getConditionParameter_no_exit g a condition)
      (fun parameter _ => ?_)
    refine Result.Holds_orPanic_bind (fun predicate hpredicate => ?_)
    refine Result.Holds_no_exit_bind
      (conditionFunction_no_exit predicate (mem_of_index _ _ _ hpredicate) parameter w)
      (fun holds _ => ?_)
    split
    · trivial
    · exact ih

theorem evaluateConditions_no_exit (g : Game) (a : Int) (w : World) :
    (evaluateConditions g a w).Holds (fun _ => True) (fun _ => False) :=
  evaluateConditionsLoop_no_exit g a w _

theorem evaluateConditionsLoop_contFlag (g : Game) (a : Int) (w : World) (flag : Bool)
    (conditions : List Int) :
    evaluateConditionsLoop g a { w with contFlag := flag } conditions
      = evaluateConditionsLoop g a w conditions := by
  induction conditions with
  | nil => rfl
  | cons condition conditions ih =>
    unfold evaluateConditionsLoop
    cases getConditionCode g a condition with
    | panic => rfl
    | exit w1 => rfl
    | ok code =>
      cases getConditionParameter g a condition with
      | panic => rfl
      | exit w1 => rfl
      | ok parameter =>
        simp only [Result.ok_bind]
        cases hpredicate : index conditionFunction code with
        | none => rfl
        | some predicate =>
          simp only [Result.ok_bind, orPanic_some]
          rw [conditionFunction_contFlag predicate (mem_of_index _ _ _ hpredicate), ih]

theorem evaluateConditions_contFlag (g : Game) (a : Int) (w : World) (flag : Bool) :
    evaluateConditions g a { w with contFlag := flag } = evaluateConditions g a w :=
  evaluateConditionsLoop_contFlag g a w flag _

/-- The commands of an action, run by the scan, add the action to the log and
draw no pseudo-random value. -/
theorem runCommands_logs (g : Game) (a : Int) (w : World) :
    (runCommands g a w).Holds
      (fun w' => w'.prngState = w.prngState ∧ w'.executed = w.executed ++ [a])
      (fun w' => w'.prngState = w.prngState ∧ w'.executed = w.executed ++ [a]) := by
  unfold runCommands
  exact Result.Holds_mono (executeCommands_step g a _) (fun _ h => ⟨h.1, h.2.1⟩)
    (fun _ h => ⟨h.1, h.2.1⟩)

theorem Result.Holds_pure_bind {α β : Type} {e : α} {f : α → Result β}
    {post : β → Prop} {atExit : World → Prop}
    (h : ∀ a, (f a).Holds post atExit) : (pure e >>= f).Holds post atExit := h e

theorem handleGoVerb_sameLog (g : Game) (w : World) :
    (handleGoVerb g w).Holds (sameLog w) (sameLog w) := by
  unfold handleGoVerb
  refine Result.Holds_orPanic_bind (fun night _ => ?_)
  simp only []
  split
  on_goal 1 => refine Result.Holds_orPanic_bind (fun light _ => ?_)
  all_goals
    refine Result.Holds_pure_bind (fun roomDark => ?_)
    have hw0 : ∃ out, (if roomDark = true then print w "Dangerous to move in the dark!\n" else w)
        = { w with output := out } := by
      split
      · exact ⟨_, rfl⟩
      · exact ⟨w.output, rfl⟩
    obtain ⟨out, hw0⟩ := hw0
    simp only [hw0]
    refine Result.Holds_orPanic_bind (fun noun _ => ?_)
    split
    · exact ⟨rfl, rfl⟩
    · refine Result.Holds_orPanic_bind (fun exits _ => ?_)
      refine Result.Holds_orPanic_bind (fun destination _ => ?_)
      split
      · split
        · refine Result.Holds_orPanic_bind (fun flags _ => ?_)
          refine Result.Holds_mono (showRoomDescription_output g _) ?_ (fun _ h => h.elim)
          rintro w1 ⟨out1, rfl⟩
          exact ⟨rfl, rfl⟩
        · exact ⟨rfl, rfl⟩
      · refine Result.Holds_mono (showRoomDescription_output g _) ?_ (fun _ h => h.elim)
        rintro w1 ⟨out1, rfl⟩
        exact ⟨rfl, rfl⟩

theorem nounIsInObjectLoop_no_exit (truncatedNoun : String) (descriptions : List String) :
    (nounIsInObjectLoop truncatedNoun descriptions).Holds (fun _ => True) (fun _ => False) := by
  induction descriptions with
  | nil => trivial
  | cons description descriptions ih =>
    unfold nounIsInObjectLoop
    split
    · refine Result.Holds_orPanic_bind (fun part _ => ?_)
      simp only []
      split
      · trivial
      · exact ih
    · exact ih

theorem nounIsInObject_no_exit (g : Game) (w : World) :
    (nounIsInObject g w).Holds (fun _ => True) (fun _ => False) :=
  Result.Holds_orPanic_bind (fun _ _ => nounIsInObjectLoop_no_exit _ _)

theorem getOrDropNounLoop_sameLog (g : Game) (inputNoun roomDestination : Int)
    (roomObjects : List Int) (w : World) :
    (getOrDropNounLoop g inputNoun roomDestination roomObjects w).Holds
      (fun r => sameLog w r.2) (fun _ => False) := by
  induction roomObjects with
  | nil => exact ⟨rfl, rfl⟩
  | cons roomObject roomObjects ih =>
    unfold getOrDropNounLoop
    refine Result.Holds_orPanic_bind (fun description _ => ?_)
    split
    · refine Result.Holds_orPanic_bind (fun noun _ => ?_)
      refine Result.Holds_orPanic_bind (fun word _ => ?_)
      refine Result.Holds_orPanic_bind (fun nounText _ => ?_)
      simp only []
      split
      on_goal 2 => refine Result.Holds_orPanic_bind (fun truncatedNoun _ => ?_)
      all_goals
        refine Result.Holds_pure_bind (fun matched => ?_)
        split
        · exact Result.Holds_orPanic_bind (fun _ _ => ⟨rfl, rfl⟩)
        · exact ih
    · exact ih

theorem handleCarryAndDropVerb_sameLog (g : Game) (inputVerb inputNoun : Int) (w : World) :
    (handleCarryAndDropVerb g inputVerb inputNoun w).Holds
      (fun r => sameLog w r.2) (fun _ => False) := by
  unfold handleCarryAndDropVerb
  split
  · exact ⟨rfl, rfl⟩
  · simp only []
    split
    on_goal 1 =>
      refine Result.Holds_no_exit_bind (nounIsInObject_no_exit g w) (fun inObject _ => ?_)
    all_goals
      refine Result.Holds_pure_bind (fun undefinedNoun => ?_)
      split
      · exact ⟨rfl, rfl⟩
      · split
        · split
          · split
            · exact ⟨rfl, rfl⟩
            · exact ⟨rfl, rfl⟩
          · refine Result.Holds_bind (getOrDropNounLoop_sameLog g _ _ _ w) ?_
            rintro ⟨moved, w1⟩ h
            split
            · exact h
            · exact h
        · refine Result.Holds_bind (getOrDropNounLoop_sameLog g _ _ _ w) ?_
          rintro ⟨moved, w1⟩ h
          split
          · exact h
          · exact h

theorem runActionsEnd_sameLog (g : Game) (inputVerb inputNoun : Int)
    (foundWord wordActionDone : Bool) (w : World) :
    (runActionsEnd g inputVerb inputNoun foundWord wordActionDone w).Holds
      (sameLog w) (fun _ => False) := by
  unfold runActionsEnd
  split
  · exact ⟨rfl, rfl⟩
  · simp only []
    split
    · refine Result.Holds_bind (handleCarryAndDropVerb_sameLog g inputVerb inputNoun w) ?_
      rintro ⟨handled, w1⟩ h
      split
      · exact h
      · split
        · exact h
        · split
          · exact h
          · exact h
    · simp only [Result.pure_eq, Result.ok_bind]
      split
      · exact ⟨rfl, rfl⟩
      · split
        · exact ⟨rfl, rfl⟩
        · split
          · exact ⟨rfl, rfl⟩
          · exact ⟨rfl, rfl⟩

/-! ## Dispatcher: the log of a scan -/

theorem scanLog_refl (g : Game) (v n : Int) (done : Bool) (w : World) :
    scanLog g v n done w w :=
  ⟨rfl, [], (List.append_nil _).symm, fun _ h => absurd h (List.not_mem_nil _)⟩

theorem scanLog_of_sameLog (g : Game) (v n : Int) (done : Bool) (w w' : World)
    (h : sameLog w w') : scanLog g v n done w w' :=
  ⟨h.1, [], by rw [h.2, List.append_nil], fun _ h => absurd h (List.not_mem_nil _)⟩

theorem scanLog_trans (g : Game) (v n : Int) (done done' : Bool) (w w1 w2 : World)
    (h1 : scanLog g v n done w w1) (h2 : scanLog g v n done' w1 w2)
    (hdone : done' = false → done = false) : scanLog g v n done w w2 := by
  obtain ⟨hp1, rest1, he1, hr1⟩ := h1
  obtain ⟨hp2, rest2, he2, hr2⟩ := h2
  refine ⟨hp2.trans hp1, rest1 ++ rest2, by rw [he2, he1, List.append_assoc], ?_⟩
  intro j hj
  rcases List.mem_append.mp hj with h | h
  · exact hr1 j h
  · rcases hr2 j h with ⟨hd, hm⟩ | hc
    · exact Or.inl ⟨hdone hd, hm⟩
    · exact Or.inr hc

theorem contFlag_false_eq (w : World) (h : w.contFlag = false) :
    { w with contFlag := false } = w := by
  cases w
  simp only at h
  subst h
  rfl

theorem runContAction_scanLog (g : Game) (v n : Int) (done : Bool) (j actionVerb actionNoun : Int)
    (w : World) (hverb : getActionVerb g j = .ok actionVerb)
    (hnoun : getActionNoun g j = .ok actionNoun) :
    (runContAction g j actionVerb actionNoun w).Holds (scanLog g v n done w)
      (scanLog g v n done w) := by
  unfold runContAction
  split
  · rename_i htag
    obtain ⟨_, rfl, rfl⟩ := htag
    refine Result.Holds_no_exit_bind (evaluateConditions_no_exit g j w) (fun holds _ => ?_)
    split
    · refine Result.Holds_mono (runCommands_logs g j w) ?_ ?_ <;>
      · rintro w' ⟨hp, he⟩
        refine ⟨hp, [j], he, fun k hk => Or.inr ?_⟩
        rw [List.mem_singleton.mp hk]
        exact ⟨hverb, hnoun⟩
    · exact scanLog_refl g v n done w
  · exact ⟨rfl, [], (List.append_nil _).symm, fun _ h => absurd h (List.not_mem_nil _)⟩

theorem runAutAction_word (g : Game) (v j actionVerb actionNoun : Int) (w : World)
    (hv : v ≠ 0) : runAutAction g v j actionVerb actionNoun w = pure w := by
  unfold runAutAction
  rw [if_neg hv]

theorem runWordMatch_scanLog (g : Game) (v n j : Int) (w : World) (hmatch : wordMatches g v n j) :
    (runWordMatch g j false w).Holds
      (fun r => scanLog g v n false w r.2.2) (scanLog g v n false w) := by
  unfold runWordMatch
  refine Result.Holds_no_exit_bind (evaluateConditions_no_exit g j w) (fun holds _ => ?_)
  split
  · refine Result.Holds_bind_mid (scanLog g v n false w) ?_ (fun w1 h => h)
    refine Result.Holds_mono (runCommands_logs g j w) ?_ ?_ <;>
    · rintro w' ⟨hp, he⟩
      refine ⟨hp, [j], he, fun k hk => Or.inl ⟨rfl, ?_⟩⟩
      rw [List.mem_singleton.mp hk]
      exact hmatch
  · exact scanLog_refl g v n false w

theorem runWordAction_scanLog (g : Game) (v n j actionVerb actionNoun : Int)
    (foundWord done : Bool) (w : World) (hverb : getActionVerb g j = .ok actionVerb)
    (hnoun : getActionNoun g j = .ok actionNoun) :
    (runWordAction g v n j actionVerb actionNoun foundWord done w).Holds
      (fun r => scanLog g v n done w r.2.2.2 ∧ (r.2.2.1 = false → done = false))
      (scanLog g v n done w) := by
  have hflag : ∀ w' : World, scanLog g v n false { w with contFlag := false } w' →
      scanLog g v n false w w' := fun w' h => h
  unfold runWordAction
  split
  · split
    · rename_i hav
      subst hav
      split
      · rename_i hdone
        subst hdone
        simp only []
        split
        · rename_i han
          subst han
          refine Result.Holds_bind
            (Result.Holds_mono (runWordMatch_scanLog g actionVerb n j _ ⟨hverb, Or.inl hnoun⟩)
              (fun _ h => h) (fun _ h => h)) ?_
          rintro ⟨returns, done', w1⟩ h
          exact ⟨hflag _ h, fun _ => trivial⟩
        · split
          · rename_i han
            subst han
            refine Result.Holds_bind
              (Result.Holds_mono
                (runWordMatch_scanLog g actionVerb actionNoun j _ ⟨hverb, Or.inr hnoun⟩)
                (fun _ h => h) (fun _ h => h)) ?_
            rintro ⟨returns, done', w1⟩ h
            exact ⟨hflag _ h, fun _ => trivial⟩
          · exact ⟨hflag _ (scanLog_refl g actionVerb n false _), fun _ => trivial⟩
      · exact ⟨scanLog_refl g actionVerb n done w, fun h => h⟩
    · exact ⟨scanLog_refl g v n done w, fun h => h⟩
  · exact ⟨scanLog_refl g v n done w, fun h => h⟩

/-- A scan for a verb other than 0 draws no pseudo-random value and executes
word actions of the call and continuation-tagged actions only. -/
theorem runActionsLoop_scanLog (g : Game) (v n : Int) (hv : v ≠ 0) (actions : List Int) :
    ∀ (foundWord done : Bool) (w : World),
      (runActionsLoop g v n actions foundWord done w).Holds (scanLog g v n done w)
        (scanLog g v n done w) := by
  induction actions with
  | nil =>
    intro foundWord done w
    unfold runActionsLoop
    exact Result.Holds_mono (runActionsEnd_sameLog g v n foundWord done w)
      (fun _ h => scanLog_of_sameLog g v n done w _ h) (fun _ h => h.elim)
  | cons j actions ih =>
    intro foundWord done w
    unfold runActionsLoop
    refine Result.Holds_no_exit_bind (getActionVerb_no_exit g j) (fun actionVerb hverb => ?_)
    refine Result.Holds_no_exit_bind (getActionNoun_no_exit g j) (fun actionNoun hnoun => ?_)
    refine Result.Holds_bind (runContAction_scanLog g v n done j actionVerb actionNoun w
      hverb hnoun) (fun w1 h1 => ?_)
    rw [runAutAction_word g v j actionVerb actionNoun w1 hv]
    simp only [Result.pure_eq, Result.ok_bind]
    refine Result.Holds_bind
      (Result.Holds_mono_to
        (fun r => scanLog g v n done w r.2.2.2 ∧ (r.2.2.1 = false → done = false))
        (scanLog g v n done w)
        (runWordAction_scanLog g v n j actionVerb actionNoun foundWord done w1 hverb hnoun)
        (fun r h => ⟨scanLog_trans g v n done done w w1 _ h1 h.1 (fun h => h), h.2⟩)
        (fun w2 h => scanLog_trans g v n done done w w1 w2 h1 h (fun h => h))) ?_
    rintro ⟨returns, foundWord', done', w2⟩ ⟨h2, hdone⟩
    split
    · exact h2
    · exact Result.Holds_mono (ih foundWord' done' w2)
        (fun w3 h3 => scanLog_trans g v n done done' w w2 w3 h2 h3 hdone)
        (fun w3 h3 => scanLog_trans g v n done done' w w2 w3 h2 h3 hdone)

/-- A call for a verb other than 0 draws no pseudo-random value and executes
word actions of the call and continuation-tagged actions only. -/
theorem runActions_scanLog (g : Game) (v n : Int) (hv : v ≠ 0) (w : World) :
    (runActions g v n w).Holds (scanLog g v n false w) (scanLog g v n false w) := by
  unfold runActions
  split
  · exact Result.Holds_mono (handleGoVerb_sameLog g w)
      (fun _ h => scanLog_of_sameLog g v n false w _ h)
      (fun _ h => scanLog_of_sameLog g v n false w _ h)
  · exact runActionsLoop_scanLog g v n hv (actionIds g) false false { w with contFlag := false }

/-! ## Dispatcher: the first eligible action -/

theorem runContAction_clear (g : Game) (j actionVerb actionNoun : Int) (w : World)
    (hflag : w.contFlag = false) : runContAction g j actionVerb actionNoun w = .ok w := by
  unfold runContAction
  rw [if_neg (by simp [hflag]), contFlag_false_eq w hflag]
  rfl

/-- The block `Word action` at a word action of the call, reached with no
word action executed yet and the flag clear. -/
theorem runWordAction_match (g : Game) (v n j actionNoun : Int) (foundWord : Bool) (w : World)
    (hv : v > 0) (hflag : w.contFlag = false) (hnoun : actionNoun = 0 ∨ actionNoun = n) :
    runWordAction g v n j v actionNoun foundWord false w
      = evaluateConditions g j w >>= fun holds =>
          if holds then runCommands g j w >>= fun w1 =>
            pure (decide (w1.contFlag = false), true, true, w1)
          else pure (false, true, false, w) := by
  unfold runWordAction
  rw [if_pos hv, if_pos rfl, if_pos rfl]
  simp only [contFlag_false_eq w hflag, runWordMatch]
  have hcases : ∀ x : Result Bool,
      (do
        let r ← (do
          let holds ← x
          if holds = true then do
            let w1 ← runCommands g j w
            pure (decide (w1.contFlag = false), true, w1)
          else pure (false, false, w))
        pure (r.1, true, r.2.1, r.2.2) : Result (Bool × Bool × Bool × World))
      = x >>= fun holds =>
          if holds then runCommands g j w >>= fun w1 =>
            pure (decide (w1.contFlag = false), true, true, w1)
          else pure (false, true, false, w) := by
    intro x
    cases x with
    | panic => rfl
    | exit w1 => rfl
    | ok holds =>
      cases holds with
      | false => rfl
      | true =>
        simp only [Result.ok_bind, if_true]
        cases runCommands g j w with
        | panic => rfl
        | exit w1 => rfl
        | ok w1 => rfl
  by_cases h0 : actionNoun = 0
  · rw [if_pos h0]
    exact hcases _
  · have hn : actionNoun = n := hnoun.resolve_left h0
    rw [if_neg h0, if_pos hn]
    exact hcases _

/-- The block `Word action` at an action that is no word action of the
call. -/
theorem runWordAction_other (g : Game) (v n j actionVerb actionNoun : Int)
    (foundWord done : Bool) (w : World) (hflag : w.contFlag = false)
    (hother : ¬ (actionVerb = v ∧ (actionNoun = 0 ∨ actionNoun = n))) :
    runWordAction g v n j actionVerb actionNoun foundWord done w
      = pure (false, foundWord, done, w) := by
  unfold runWordAction
  split
  · split
    · rename_i hav
      split
      · simp only [contFlag_false_eq w hflag]
        rw [if_neg (fun h => hother ⟨hav, Or.inl h⟩), if_neg (fun h => hother ⟨hav, Or.inr h⟩)]
      · rfl
    · rfl
  · rfl

/-- The scan passes the actions that are not eligible: it stops with a
run-time panic or goes on from the first action after them in the same
world. -/
theorem runActionsLoop_skip (g : Game) (v n : Int) (hv : v > 0) (w : World)
    (hflag : w.contFlag = false) (rest before : List Int)
    (hbefore : ∀ j ∈ before, ¬ eligible g v n j w) :
    ∀ foundWord, runActionsLoop g v n (before ++ rest) foundWord false w = .panic ∨
      ∃ foundWord', runActionsLoop g v n (before ++ rest) foundWord false w
        = runActionsLoop g v n rest foundWord' false w := by
  induction before with
  | nil => intro foundWord; exact Or.inr ⟨foundWord, rfl⟩
  | cons j before ih =>
    intro foundWord
    have ih' := ih (fun k hk => hbefore k (List.mem_cons_of_mem _ hk))
    have hj := hbefore j (List.mem_cons_self _ _)
    rw [List.cons_append, runActionsLoop]
    cases hverb : getActionVerb g j with
    | panic => exact Or.inl rfl
    | exit w1 => exact (Result.Holds_exit (getActionVerb_no_exit g j) hverb).elim
    | ok actionVerb =>
      cases hnoun : getActionNoun g j with
      | panic => exact Or.inl rfl
      | exit w1 => exact (Result.Holds_exit (getActionNoun_no_exit g j) hnoun).elim
      | ok actionNoun =>
        simp only [Result.ok_bind, runContAction_clear g j actionVerb actionNoun w hflag,
          runAutAction_word g v j actionVerb actionNoun w (ne_of_gt hv), Result.pure_eq]
        by_cases hmatch : actionVerb = v ∧ (actionNoun = 0 ∨ actionNoun = n)
        · obtain ⟨hav, han⟩ := hmatch
          subst hav
          rw [runWordAction_match g actionVerb n j actionNoun foundWord w hv hflag han]
          cases hcond : evaluateConditions g j w with
          | panic => exact Or.inl rfl
          | exit w1 => exact (Result.Holds_exit (evaluateConditions_no_exit g j w) hcond).elim
          | ok holds =>
            cases holds with
            | true =>
              refine absurd ⟨⟨hverb, ?_⟩, hcond⟩ hj
              rcases han with h | h
              · exact Or.inl (by rw [hnoun, h])
              · exact Or.inr (by rw [hnoun, h])
            | false => exact ih' true
        · rw [runWordAction_other g v n j actionVerb actionNoun foundWord false w hflag hmatch]
          exact ih' foundWord

/-- The scan at the first eligible action: its commands are run, and the scan
goes on only if they set the continuation flag. -/
theorem runActionsLoop_match (g : Game) (v n : Int) (hv : v > 0) (w : World)
    (hflag : w.contFlag = false) (i : Int) (after : List Int) (hi : eligible g v n i w)
    (foundWord : Bool) :
    runActionsLoop g v n (i :: after) foundWord false w
      = runCommands g i w >>= fun w1 =>
          if w1.contFlag = false then pure w1 else runActionsLoop g v n after true true w1 := by
  obtain ⟨⟨hverb, hnoun⟩, hcond⟩ := hi
  have hsame : ∃ actionNoun, getActionNoun g i = .ok actionNoun ∧
      (actionNoun = 0 ∨ actionNoun = n) := by
    rcases hnoun with h | h
    · exact ⟨0, h, Or.inl rfl⟩
    · exact ⟨n, h, Or.inr rfl⟩
  obtain ⟨actionNoun, hnoun', han⟩ := hsame
  rw [runActionsLoop]
  simp only [hverb, hnoun', Result.ok_bind, runContAction_clear g i v actionNoun w hflag,
    runAutAction_word g v i v actionNoun w (ne_of_gt hv), Result.pure_eq,
    runWordAction_match g v n i actionNoun foundWord w hv hflag han, hcond, if_true]
  cases runCommands g i w with
  | panic => rfl
  | exit w1 => rfl
  | ok w1 =>
    simp only [Result.ok_bind]
    by_cases hc : w1.contFlag = false
    · simp [hc]
    · simp [hc]

theorem eligible_contFlag (g : Game) (v n j : Int) (w : World) (flag : Bool) :
    eligible g v n j { w with contFlag := flag } ↔ eligible g v n j w := by
  unfold eligible
  rw [evaluateConditions_contFlag]

theorem not_automatic_of_scanLog (g : Game) (v n : Int) (done : Bool) (hv : v ≠ 0) (j : Int)
    (h : (done = false ∧ wordMatches g v n j) ∨ continuationTagged g j) :
    ¬ automaticTagged g j := by
  rintro ⟨hverb, t, ht, hnoun⟩
  rcases h with ⟨_, hverb', _⟩ | ⟨_, hnoun'⟩
  · rw [hverb] at hverb'
    exact hv (Result.ok.inj hverb').symm
  · rw [hnoun] at hnoun'
    have := Result.ok.inj hnoun'
    omega

/-- C19: in a call `runActions(v, n)` with `v > 0`, other than GO with a
direction.  If `i` is the first action in scan order whose verb is `v`, whose
noun is 0 or `n` and whose conditions hold in the world at call entry, then
the call, unless it panics on a record before `i`, is the run of the commands
of `i`, followed by the rest of the scan only if they set the continuation
flag; and when the call returns or ends the game, the commands of `i` are the
first to have been executed and every action executed after it is
continuation-tagged (verb 0, noun 0).  If there is no such action, the call,
unless it panics, is the statements after the scan, and when it returns it
has executed no action. -/
theorem first_eligible_action_runs (g : Game) (v n : Int) (w : World) (hv : v > 0)
    (hgo : ¬ (v = VERB_GO ∧ n ≤ DIRECTION_NOUNS)) :
    (∀ before i after, actionIds g = before ++ i :: after →
      (∀ j ∈ before, ¬ eligible g v n j w) → eligible g v n i w →
      (runActions g v n w = .panic ∨
        runActions g v n w = runCommands g i { w with contFlag := false } >>= fun w1 =>
          if w1.contFlag = false then pure w1 else runActionsLoop g v n after true true w1) ∧
      ∀ w', runActions g v n w = .ok w' ∨ runActions g v n w = .exit w' →
        ∃ rest, w'.executed = w.executed ++ i :: rest ∧
          ∀ j ∈ rest, continuationTagged g j) ∧
    ((∀ j ∈ actionIds g, ¬ eligible g v n j w) →
      (runActions g v n w = .panic ∨ ∃ foundWord,
        runActions g v n w = runActionsEnd g v n foundWord false { w with contFlag := false }) ∧
      ∀ w', runActions g v n w = .ok w' ∨ runActions g v n w = .exit w' →
        w'.executed = w.executed) := by
  have hscan : runActions g v n w
      = runActionsLoop g v n (actionIds g) false false { w with contFlag := false } := by
    unfold runActions
    rw [if_neg hgo]
  constructor
  · intro before i after hids hbefore hi
    have hbefore0 : ∀ j ∈ before, ¬ eligible g v n j { w with contFlag := false } :=
      fun j hj h => hbefore j hj ((eligible_contFlag g v n j w false).mp h)
    have hi0 : eligible g v n i { w with contFlag := false } :=
      (eligible_contFlag g v n i w false).mpr hi
    have hcall : runActions g v n w = .panic ∨
        runActions g v n w = runCommands g i { w with contFlag := false } >>= fun w1 =>
          if w1.contFlag = false then pure w1
          else runActionsLoop g v n after true true w1 := by
      rw [hscan, hids]
      rcases runActionsLoop_skip g v n hv { w with contFlag := false } rfl (i :: after) before
        hbefore0 false with hp | ⟨foundWord, heq⟩
      · exact Or.inl hp
      · right
        rw [heq, runActionsLoop_match g v n hv { w with contFlag := false } rfl i after hi0]
    refine ⟨hcall, ?_⟩
    intro w' hrun
    rcases hcall with hp | heq
    · rw [hp] at hrun
      rcases hrun with h | h <;> cases h
    · rw [heq] at hrun
      have hlog : (runCommands g i { w with contFlag := false } >>= fun w1 =>
          if w1.contFlag = false then pure w1
          else runActionsLoop g v n after true true w1).Holds
          (fun w' => ∃ rest, w'.executed = w.executed ++ i :: rest ∧
            ∀ j ∈ rest, continuationTagged g j)
          (fun w' => ∃ rest, w'.executed = w.executed ++ i :: rest ∧
            ∀ j ∈ rest, continuationTagged g j) := by
        refine Result.Holds_bind
          (Result.Holds_mono_to (fun w1 => w1.executed = w.executed ++ [i]) _
            (runCommands_logs g i { w with contFlag := false })
            (fun _ h => h.2)
            (fun _ h => ⟨[], h.2, fun _ hj => absurd hj (List.not_mem_nil _)⟩)) ?_
        intro w1 h1
        split
        · exact ⟨[], h1, fun _ hj => absurd hj (List.not_mem_nil _)⟩
        · have htail : ∀ w3, scanLog g v n true w1 w3 →
              ∃ rest, w3.executed = w.executed ++ i :: rest ∧
                ∀ j ∈ rest, continuationTagged g j := by
            rintro w3 ⟨_, rest, he, hr⟩
            refine ⟨rest, by rw [he, h1, List.append_assoc, List.singleton_append], ?_⟩
            intro j hj
            rcases hr j hj with ⟨hd, _⟩ | hc
            · cases hd
            · exact hc
          exact Result.Holds_mono
            (runActionsLoop_scanLog g v n (ne_of_gt hv) after true true w1) htail htail
      rcases hrun with h | h
      · have hok := Result.Holds_ok hlog h
        exact hok
      · have hexit := Result.Holds_exit hlog h
        exact hexit
  · intro hnone
    have hnone0 : ∀ j ∈ actionIds g, ¬ eligible g v n j { w with contFlag := false } :=
      fun j hj h => hnone j hj ((eligible_contFlag g v n j w false).mp h)
    have hcall : runActions g v n w = .panic ∨ ∃ foundWord,
        runActions g v n w
          = runActionsEnd g v n foundWord false { w with contFlag := false } := by
      rw [hscan]
      rcases runActionsLoop_skip g v n hv { w with contFlag := false } rfl [] (actionIds g)
        hnone0 false with hp | ⟨foundWord, heq⟩
      · rw [List.append_nil] at hp
        exact Or.inl hp
      · rw [List.append_nil] at heq
        rw [runActionsLoop] at heq
        exact Or.inr ⟨foundWord, heq⟩
    refine ⟨hcall, ?_⟩
    intro w' hrun
    rcases hcall with hp | ⟨foundWord, heq⟩
    · rw [hp] at hrun
      rcases hrun with h | h <;> cases h
    · rw [heq] at hrun
      have hend := runActionsEnd_sameLog g v n foundWord false { w with contFlag := false }
      rcases hrun with h | h
      · exact (Result.Holds_ok hend h).2
      · exact (Result.Holds_exit hend h).elim

/-- C19 in `chainGame`: for verb 2 the first eligible action is action 0, and
the call, which returns, executes it and then the continuation actions 1 and
2; for verb 4, which has no action, the call returns and executes nothing. -/
theorem first_eligible_action_runs_witness :
    runActions chainGame 2 0 demoWorld
      = .ok { demoWorld with executed := [0, 1, 2], commandParameterIndex := 1,
                             output := ["OK\n", "Nothing happens\n"] } ∧
    (∃ rest, ({ demoWorld with executed := [0, 1, 2], commandParameterIndex := 1,
                               output := ["OK\n", "Nothing happens\n"] } : World).executed
        = demoWorld.executed ++ 0 :: rest ∧ ∀ j ∈ rest, continuationTagged chainGame j) ∧
    runActions chainGame 4 0 demoWorld
      = .ok { demoWorld with output := ["I don't understand your command\n"] } ∧
    ({ demoWorld with output := ["I don't understand your command\n"] } : World).executed
      = demoWorld.executed :=
  ⟨by decide!,
   ((first_eligible_action_runs chainGame 2 0 demoWorld (by decide) (by decide)).1
      [] 0 [1, 2, 3, 4] (by decide) (fun _ h => absurd h (List.not_mem_nil _)) (by decide!)).2
      _ (Or.inl (by decide!)),
   by decide!,
   ((first_eligible_action_runs chainGame 4 0 demoWorld (by decide) (by decide)).2
      (by decide!)).2 _ (Or.inl (by decide!))⟩

/-- C20: in a scan for verb 0, at an automatic action (verb 0, noun
`t > 0`) one pseudo-random value is drawn, with the continuation flag
cleared, and the commands of the action are run exactly when the value is
less than `t` and the conditions of the action hold in the world after the
draw; a call for any other verb that returns or ends the game leaves
`prngState` as it was and executes no automatic action. -/
theorem automatic_action_drawn (g : Game) (n : Int) :
    (∀ (j t : Int) (actions : List Int) (foundWord done : Bool) (w : World),
      getActionVerb g j = .ok 0 → getActionNoun g j = .ok t → t > 0 →
      runActionsLoop g 0 n (j :: actions) foundWord done w =
        if (getPrn { w with contFlag := false }).1 < t then
          evaluateConditions g j (getPrn { w with contFlag := false }).2 >>= fun holds =>
            if holds then
              runCommands g j (getPrn { w with contFlag := false }).2 >>=
                runActionsLoop g 0 n actions foundWord done
            else
              runActionsLoop g 0 n actions foundWord done (getPrn { w with contFlag := false }).2
        else
          runActionsLoop g 0 n actions foundWord done (getPrn { w with contFlag := false }).2) ∧
    (∀ (v : Int) (w w' : World), v ≠ 0 →
      runActions g v n w = .ok w' ∨ runActions g v n w = .exit w' →
      w'.prngState = w.prngState ∧
      ∃ rest, w'.executed = w.executed ++ rest ∧ ∀ j ∈ rest, ¬ automaticTagged g j) := by
  constructor
  · intro j t actions foundWord done w hverb hnoun ht
    have hcont : runContAction g j 0 t w = .ok { w with contFlag := false } := by
      unfold runContAction
      rw [if_neg (fun h => absurd h.2.2 (ne_of_gt ht))]
      rfl
    have hword : ∀ w1 : World, runWordAction g 0 n j 0 t foundWord done w1
        = .ok (false, foundWord, done, w1) := by
      intro w1
      unfold runWordAction
      rw [if_neg (lt_irrefl 0)]
      rfl
    rw [runActionsLoop]
    simp only [hverb, hnoun, Result.ok_bind, hcont]
    unfold runAutAction
    rw [if_pos rfl, if_pos ⟨rfl, ht⟩]
    simp only []
    split
    · cases evaluateConditions g j (getPrn { w with contFlag := false }).2 with
      | panic => rfl
      | exit w1 => rfl
      | ok holds =>
        cases holds with
        | false => simp [hword]
        | true =>
          simp only [Result.ok_bind, if_true]
          cases runCommands g j (getPrn { w with contFlag := false }).2 with
          | panic => rfl
          | exit w1 => rfl
          | ok w1 => simp [hword]
    · simp [hword]
  · intro v w w' hv hrun
    have hlog := runActions_scanLog g v n hv w
    have hscan : scanLog g v n false w w' := by
      rcases hrun with h | h
      · exact Result.Holds_ok hlog h
      · exact Result.Holds_exit hlog h
    obtain ⟨hprn, rest, he, hr⟩ := hscan
    exact ⟨hprn, rest, he, fun j hj => not_automatic_of_scanLog g v n false hv j (hr j hj)⟩

/-- C20 in `autGame`, whose action 0 is automatic with threshold 50: from
the pseudo-random state 7 the value drawn is 0 and the action is executed; a
call for verb 2 in `chainGame` leaves the pseudo-random state as it was. -/
theorem automatic_action_drawn_witness :
    (getPrn { demoWorld with prngState := 7 }).1 = 0 ∧
    runActionsLoop autGame 0 0 [0] false false { demoWorld with prngState := 7 } =
      (if (getPrn { demoWorld with prngState := 7, contFlag := false }).1 < 50 then
        evaluateConditions autGame 0
            (getPrn { demoWorld with prngState := 7, contFlag := false }).2 >>= fun holds =>
          if holds then
            runCommands autGame 0
                (getPrn { demoWorld with prngState := 7, contFlag := false }).2 >>=
              runActionsLoop autGame 0 0 [] false false
          else
            runActionsLoop autGame 0 0 [] false false
              (getPrn { demoWorld with prngState := 7, contFlag := false }).2
      else
        runActionsLoop autGame 0 0 [] false false
          (getPrn { demoWorld with prngState := 7, contFlag := false }).2) ∧
    (({ demoWorld with executed := [0, 1, 2], commandParameterIndex := 1,
                       output := ["OK\n", "Nothing happens\n"] } : World).prngState
        = demoWorld.prngState ∧
      ∃ rest, ({ demoWorld with executed := [0, 1, 2], commandParameterIndex := 1,
                                output := ["OK\n", "Nothing happens\n"] } : World).executed
          = demoWorld.executed ++ rest ∧ ∀ j ∈ rest, ¬ automaticTagged chainGame j) :=
  ⟨by decide,
   (automatic_action_drawn autGame 0).1 0 50 [] false false { demoWorld with prngState := 7 }
     (by decide) (by decide) (by decide),
   (automatic_action_drawn chainGame 0).2 2 demoWorld _ (by decide) (Or.inl (by decide!))⟩

/-! ## Dispatcher: the continuation chain -/

/-- The commands of an action, run by the scan, leave a set continuation flag
set and add the action to the log. -/
theorem runCommands_flag (g : Game) (a : Int) (w : World) :
    (runCommands g a w).Holds
      (fun w' => (w.contFlag = true → w'.contFlag = true) ∧ w'.executed = w.executed ++ [a])
      (fun w' => (w.contFlag = true → w'.contFlag = true) ∧ w'.executed = w.executed ++ [a]) := by
  unfold runCommands
  exact Result.Holds_mono (executeCommands_step g a _) (fun _ h => ⟨h.2.2.1, h.2.1⟩)
    (fun _ h => ⟨h.2.2.1, h.2.1⟩)

/-- A chain reached with the flag set leaves it set, and the log grows by
actions of the chain in their order. -/
theorem runChain_flag (g : Game) (chain : List Int) :
    ∀ w : World, w.contFlag = true →
      (runChain g chain w).Holds
        (fun w' => w'.contFlag = true ∧
          ∃ ran, ran.Sublist chain ∧ w'.executed = w.executed ++ ran)
        (fun w' => ∃ ran, ran.Sublist chain ∧ w'.executed = w.executed ++ ran) := by
  induction chain with
  | nil => intro w hflag; exact ⟨hflag, [], List.Sublist.refl _, by simp⟩
  | cons j chain ih =>
    intro w hflag
    unfold runChain
    refine Result.Holds_no_exit_bind (evaluateConditions_no_exit g j w) (fun holds _ => ?_)
    cases holds with
    | false =>
      refine Result.Holds_mono (ih w hflag) ?_ ?_
      · rintro w' ⟨hf, ran, hsub, hlog⟩
        exact ⟨hf, ran, hsub.cons j, hlog⟩
      · rintro w' ⟨ran, hsub, hlog⟩
        exact ⟨ran, hsub.cons j, hlog⟩
    | true =>
      simp only [if_true]
      refine Result.Holds_bind
        (Result.Holds_mono_to
          (fun w1 => w1.contFlag = true ∧ w1.executed = w.executed ++ [j])
          (fun w' => ∃ ran, ran.Sublist (j :: chain) ∧ w'.executed = w.executed ++ ran)
          (runCommands_flag g j w) (fun _ h => ⟨h.1 hflag, h.2⟩)
          (fun _ h => ⟨[j], by simp, h.2⟩)) ?_
      rintro w1 ⟨hf1, hlog1⟩
      refine Result.Holds_mono (ih w1 hf1) ?_ ?_
      · rintro w' ⟨hf, ran, hsub, hlog⟩
        exact ⟨hf, j :: ran, hsub.cons₂ j, by rw [hlog, hlog1]; simp⟩
      · rintro w' ⟨ran, hsub, hlog⟩
        exact ⟨j :: ran, hsub.cons₂ j, by rw [hlog, hlog1]; simp⟩

/-- The scan at a continuation-tagged action: only the block `CONT action`
does something. -/
theorem runActionsLoop_tagged_step (g : Game) (v n j : Int) (actions : List Int)
    (foundWord done : Bool) (htag : continuationTagged g j) (w : World) :
    runActionsLoop g v n (j :: actions) foundWord done w
      = runContAction g j 0 0 w >>= runActionsLoop g v n actions foundWord done := by
  rw [runActionsLoop]
  simp only [htag.1, htag.2, Result.ok_bind]
  cases runContAction g j 0 0 w with
  | ok w' => simp [runAutAction_tagged, runWordAction_tagged]
  | exit w' => rfl
  | panic => rfl

/-- The scan over continuation-tagged actions, reached with the flag set. -/
theorem runActionsLoop_chain (g : Game) (v n : Int) (rest : List Int) (foundWord done : Bool)
    (chain : List Int) (htagged : ∀ j ∈ chain, continuationTagged g j) :
    ∀ w : World, w.contFlag = true →
      runActionsLoop g v n (chain ++ rest) foundWord done w
        = runChain g chain w >>= runActionsLoop g v n rest foundWord done := by
  induction chain with
  | nil => intro w _; rfl
  | cons j chain ih =>
    intro w hflag
    have hrest := ih (fun i hi => htagged i (List.mem_cons_of_mem _ hi))
    rw [List.cons_append, runActionsLoop_tagged_step g v n j _ foundWord done
      (htagged j (List.mem_cons_self _ _)), runChain, runContAction]
    simp only [hflag, and_self, if_true]
    cases hcond : evaluateConditions g j w with
    | ok holds =>
      cases holds with
      | false => simpa using hrest w hflag
      | true =>
        simp only [Result.ok_bind, if_true]
        have hrun := runCommands_flag g j w
        cases hw1 : runCommands g j w with
        | ok w1 =>
          rw [hw1] at hrun
          simpa using hrest w1 (hrun.1 hflag)
        | exit w1 => rfl
        | panic => rfl
    | exit w1 => rfl
    | panic => rfl

/-- The scan over continuation-tagged actions, reached with the flag clear. -/
theorem runActionsLoop_clear (g : Game) (v n : Int) (rest : List Int) (foundWord done : Bool)
    (w : World) (hflag : w.contFlag = false)
    (chain : List Int) (htagged : ∀ j ∈ chain, continuationTagged g j) :
    runActionsLoop g v n (chain ++ rest) foundWord done w
      = runActionsLoop g v n rest foundWord done w := by
  induction chain with
  | nil => rfl
  | cons j chain ih =>
    rw [List.cons_append, runActionsLoop_tagged_step g v n j _ foundWord done
      (htagged j (List.mem_cons_self _ _)), runContAction_clear g j 0 0 w hflag]
    exact ih (fun i hi => htagged i (List.mem_cons_of_mem _ hi))

/-- The block `AUT action` at one action, entered with the flag clear: the
action is not executed and the flag is still clear, or the scan is for verb 0
and the action is executed. -/
theorem runAutAction_chain_end (g : Game) (v k av an : Int) (w : World)
    (hflag : w.contFlag = false) :
    (runAutAction g v k av an w).Holds
      (fun w1 => (w1.executed = w.executed ∧ w1.contFlag = false) ∨
        (v = 0 ∧ w1.executed = w.executed ++ [k]))
      (fun w' => w'.executed = w.executed ++ [k]) := by
  unfold runAutAction
  split
  · rename_i hv
    split
    · simp only [getPrn]
      split
      · refine Result.Holds_no_exit_bind (evaluateConditions_no_exit g k _) (fun holds _ => ?_)
        split
        · exact Result.Holds_mono (runCommands_flag g k _) (fun _ h => Or.inr ⟨hv, h.2⟩)
            (fun _ h => h.2)
        · exact Or.inl ⟨rfl, rfl⟩
      · exact Or.inl ⟨rfl, rfl⟩
    · exact Or.inl ⟨rfl, hflag⟩
  · exact Or.inl ⟨rfl, hflag⟩

theorem runWordMatch_chain_end (g : Game) (k : Int) (done : Bool) (w : World)
    (hflag : w.contFlag = false) :
    (runWordMatch g k done w).Holds
      (fun r => (r.2.2.executed = w.executed ∧ r.2.2.contFlag = false) ∨
        r.2.2.executed = w.executed ++ [k])
      (fun w' => w'.executed = w.executed ++ [k]) := by
  unfold runWordMatch
  refine Result.Holds_no_exit_bind (evaluateConditions_no_exit g k w) (fun holds _ => ?_)
  split
  · refine Result.Holds_bind_mid (fun w1 => w1.executed = w.executed ++ [k]) ?_
      (fun w1 h => Or.inr h)
    exact Result.Holds_mono (runCommands_flag g k w) (fun _ h => h.2) (fun _ h => h.2)
  · exact Or.inl ⟨rfl, hflag⟩

theorem runWordAction_chain_end (g : Game) (v n k av an : Int) (foundWord done : Bool)
    (w : World) (hflag : w.contFlag = false) :
    (runWordAction g v n k av an foundWord done w).Holds
      (fun r => (r.2.2.2.executed = w.executed ∧ r.2.2.2.contFlag = false) ∨
        r.2.2.2.executed = w.executed ++ [k])
      (fun w' => w'.executed = w.executed ++ [k]) := by
  unfold runWordAction
  split
  · split
    · split
      · simp only []
        split
        · refine Result.Holds_bind
            (runWordMatch_chain_end g k done { w with contFlag := false } rfl) ?_
          rintro ⟨returns, done1, w1⟩ h
          exact h
        · split
          · refine Result.Holds_bind
              (runWordMatch_chain_end g k done { w with contFlag := false } rfl) ?_
            rintro ⟨returns, done1, w1⟩ h
            exact h
          · exact Or.inl ⟨rfl, rfl⟩
      · exact Or.inl ⟨rfl, hflag⟩
    · exact Or.inl ⟨rfl, hflag⟩
  · exact Or.inl ⟨rfl, hflag⟩

/-- The blocks `AUT action` and `Word action` at one action, entered with the
flag clear: either the action is not executed and the flag is still clear, or
the action is executed. -/
theorem runBlocks_chain_end (g : Game) (v n k av an : Int) (foundWord done : Bool)
    (w : World) :
    (runAutAction g v k av an { w with contFlag := false } >>= fun w1 =>
        runWordAction g v n k av an foundWord done w1).Holds
      (fun r => (r.2.2.2.executed = w.executed ∧ r.2.2.2.contFlag = false) ∨
        r.2.2.2.executed = w.executed ++ [k])
      (fun w' => w'.executed = w.executed ++ [k]) := by
  refine Result.Holds_bind (runAutAction_chain_end g v k av an { w with contFlag := false } rfl) ?_
  rintro w1 (⟨hlog, hflag⟩ | ⟨hv, hlog⟩)
  · refine Result.Holds_mono (runWordAction_chain_end g v n k av an foundWord done w1 hflag)
      ?_ ?_
    · rintro r (⟨hlog2, hflag2⟩ | hlog2)
      · exact Or.inl ⟨hlog2.trans hlog, hflag2⟩
      · exact Or.inr (by rw [hlog2, hlog])
    · intro w' h
      rw [h, hlog]
  · have hword : runWordAction g v n k av an foundWord done w1
        = .ok (false, foundWord, done, w1) := by
      unfold runWordAction
      rw [if_neg (by omega)]
      rfl
    rw [hword]
    exact Or.inr hlog

/-- The scan at an action that is not continuation-tagged, followed by
continuation-tagged actions. -/
theorem runActionsLoop_chain_end (g : Game) (v n k av an : Int) (chain rest : List Int)
    (foundWord done : Bool) (w : World)
    (hverb : getActionVerb g k = .ok av) (hnoun : getActionNoun g k = .ok an)
    (hnot : ¬ (av = 0 ∧ an = 0)) (htagged : ∀ j ∈ chain, continuationTagged g j) :
    runActionsLoop g v n (k :: (chain ++ rest)) foundWord done w
      = (runAutAction g v k av an { w with contFlag := false } >>= fun w1 =>
          runWordAction g v n k av an foundWord done w1) >>= fun r =>
            if r.1 then pure r.2.2.2
            else if r.2.2.2.contFlag then
              runChain g chain r.2.2.2 >>= runActionsLoop g v n rest r.2.1 r.2.2.1
            else runActionsLoop g v n rest r.2.1 r.2.2.1 r.2.2.2 := by
  rw [runActionsLoop]
  simp only [hverb, hnoun, Result.ok_bind, runContAction]
  rw [if_neg (fun h => hnot h.2)]
  simp only [Result.pure_eq, Result.ok_bind]
  cases runAutAction g v k av an { w with contFlag := false } with
  | ok w1 =>
    simp only [Result.ok_bind]
    cases runWordAction g v n k av an foundWord done w1 with
    | ok r =>
      obtain ⟨returns, found1, done1, w2⟩ := r
      simp only [Result.ok_bind]
      cases returns with
      | true => rfl
      | false =>
        cases hflag : w2.contFlag with
        | true =>
          simpa using runActionsLoop_chain g v n rest found1 done1 chain htagged w2 hflag
        | false =>
          simpa using runActionsLoop_clear g v n rest found1 done1 w2 hflag chain htagged
    | exit w' => rfl
    | panic => rfl
  | exit w' => rfl
  | panic => rfl

/-- C18: the continuation chain in the scan of `runActions`.  Let `chain` be
continuation-tagged actions (verb 0, noun 0) that follow one another in the
table, `rest` the actions after them.  Reached with the flag set, the scan
runs the chain in table order, each action's commands if its conditions hold
in the world reached, and goes on with `rest`; the commands leave the flag
set, and the log grows by actions of the chain, in their order.  Reached with
the flag clear, the scan passes the chain as a no-op.  At an action `k` that
is not continuation-tagged the flag is cleared: the continuation-tagged
actions after `k` are run only if `k` is executed and its commands leave the
flag set, and are passed otherwise. -/
theorem continuation_chain (g : Game) (inputVerb inputNoun : Int) (chain rest : List Int)
    (foundWord wordActionDone : Bool) (w : World)
    (htagged : ∀ j ∈ chain, continuationTagged g j) :
    (w.contFlag = true →
      runActionsLoop g inputVerb inputNoun (chain ++ rest) foundWord wordActionDone w
        = runChain g chain w >>=
            runActionsLoop g inputVerb inputNoun rest foundWord wordActionDone ∧
      (runChain g chain w).Holds
        (fun w' => w'.contFlag = true ∧
          ∃ ran, ran.Sublist chain ∧ w'.executed = w.executed ++ ran)
        (fun w' => ∃ ran, ran.Sublist chain ∧ w'.executed = w.executed ++ ran)) ∧
    (w.contFlag = false →
      runActionsLoop g inputVerb inputNoun (chain ++ rest) foundWord wordActionDone w
        = runActionsLoop g inputVerb inputNoun rest foundWord wordActionDone w) ∧
    (∀ k actionVerb actionNoun, getActionVerb g k = .ok actionVerb →
      getActionNoun g k = .ok actionNoun → ¬ (actionVerb = 0 ∧ actionNoun = 0) →
      (runActionsLoop g inputVerb inputNoun (k :: (chain ++ rest)) foundWord wordActionDone w
        = (runAutAction g inputVerb k actionVerb actionNoun { w with contFlag := false } >>=
            fun w1 => runWordAction g inputVerb inputNoun k actionVerb actionNoun foundWord
              wordActionDone w1) >>= fun r =>
              if r.1 then pure r.2.2.2
              else if r.2.2.2.contFlag then
                runChain g chain r.2.2.2 >>=
                  runActionsLoop g inputVerb inputNoun rest r.2.1 r.2.2.1
              else runActionsLoop g inputVerb inputNoun rest r.2.1 r.2.2.1 r.2.2.2) ∧
      (runAutAction g inputVerb k actionVerb actionNoun { w with contFlag := false } >>=
          fun w1 => runWordAction g inputVerb inputNoun k actionVerb actionNoun foundWord
            wordActionDone w1).Holds
        (fun r => (r.2.2.2.executed = w.executed ∧ r.2.2.2.contFlag = false) ∨
          r.2.2.2.executed = w.executed ++ [k])
        (fun w' => w'.executed = w.executed ++ [k])) :=
  ⟨fun hflag =>
      ⟨runActionsLoop_chain g inputVerb inputNoun rest foundWord wordActionDone chain htagged w
        hflag, runChain_flag g chain w hflag⟩,
    fun hflag =>
      runActionsLoop_clear g inputVerb inputNoun rest foundWord wordActionDone w hflag chain
        htagged,
    fun k actionVerb actionNoun hverb hnoun hnot =>
      ⟨runActionsLoop_chain_end g inputVerb inputNoun k actionVerb actionNoun chain rest
        foundWord wordActionDone w hverb hnoun hnot htagged,
       runBlocks_chain_end g inputVerb inputNoun k actionVerb actionNoun foundWord
        wordActionDone w⟩⟩

/-- C18 in `chainGame`, after action 0 has run CONT: the continuation actions
1 and 2 are run and leave the flag set; at action 3, which is for another
verb, the flag is cleared and the continuation action 4 after it is passed;
the whole call for verb 2 executes actions 0, 1 and 2 and not action 4. -/
theorem continuation_chain_witness :
    (runActionsLoop chainGame 2 0 ([1, 2] ++ [3, 4]) true true
        { demoWorld with contFlag := true, executed := [0], commandParameterIndex := 1 }
      = runChain chainGame [1, 2]
          { demoWorld with contFlag := true, executed := [0], commandParameterIndex := 1 } >>=
          runActionsLoop chainGame 2 0 [3, 4] true true) ∧
    runChain chainGame [1, 2]
        { demoWorld with contFlag := true, executed := [0], commandParameterIndex := 1 }
      = .ok { demoWorld with contFlag := true, executed := [0, 1, 2],
                             commandParameterIndex := 1,
                             output := ["OK\n", "Nothing happens\n"] } ∧
    (runActionsLoop chainGame 2 0 ([4] ++ []) true true demoWorld
      = runActionsLoop chainGame 2 0 [] true true demoWorld) ∧
    (runAutAction chainGame 2 3 3 0
        { demoWorld with contFlag := false, executed := [0, 1, 2], commandParameterIndex := 1,
                         output := ["OK\n", "Nothing happens\n"] } >>=
        fun w1 => runWordAction chainGame 2 0 3 3 0 true true w1).Holds
      (fun r => (r.2.2.2.executed = [0, 1, 2] ∧ r.2.2.2.contFlag = false) ∨
        r.2.2.2.executed = [0, 1, 2] ++ [3])
      (fun w' => w'.executed = [0, 1, 2] ++ [3]) ∧
    runActions chainGame 2 0 demoWorld =
      .ok { demoWorld with executed := [0, 1, 2], commandParameterIndex := 1,
                           output := ["OK\n", "Nothing happens\n"] } :=
  ⟨((continuation_chain chainGame 2 0 [1, 2] [3, 4] true true
      { demoWorld with contFlag := true, executed := [0], commandParameterIndex := 1 }
      (by decide)).1 rfl).1,
    by decide!,
    (continuation_chain chainGame 2 0 [4] [] true true demoWorld (by decide)).2.1 rfl,
    ((continuation_chain chainGame 2 0 [4] [] true true
      { demoWorld with contFlag := true, executed := [0, 1, 2], commandParameterIndex := 1,
                       output := ["OK\n", "Nothing happens\n"] }
      (by decide)).2.2 3 3 0 (by decide) (by decide) (by decide)).2,
    by decide!⟩

/-! ## Dispatcher: the report of an unmatched command -/

theorem wordMatches_iff (g : Game) (v n j actionVerb actionNoun : Int)
    (hverb : getActionVerb g j = .ok actionVerb) (hnoun : getActionNoun g j = .ok actionNoun) :
    wordMatches g v n j ↔ actionVerb = v ∧ (actionNoun = 0 ∨ actionNoun = n) := by
  unfold wordMatches
  rw [hverb, hnoun]
  constructor
  · rintro ⟨h1, h2⟩
    refine ⟨Result.ok.inj h1, ?_⟩
    rcases h2 with h | h
    · exact Or.inl (Result.ok.inj h)
    · exact Or.inr (Result.ok.inj h)
  · rintro ⟨rfl, h | h⟩
    · exact ⟨rfl, Or.inl (by rw [h])⟩
    · exact ⟨rfl, Or.inr (by rw [h])⟩

/-- The scan passes the actions that are not eligible: it stops with a
run-time panic or goes on from the first action after them in the same
world, with `foundWord` set if one of them is a word action of the call. -/
theorem runActionsLoop_skip_found (g : Game) (v n : Int) (hv : v > 0) (w : World)
    (hflag : w.contFlag = false) (rest before : List Int)
    (hbefore : ∀ j ∈ before, ¬ eligible g v n j w) :
    ∀ foundWord, runActionsLoop g v n (before ++ rest) foundWord false w = .panic ∨
      runActionsLoop g v n (before ++ rest) foundWord false w
        = runActionsLoop g v n rest
            (foundWord || before.any (fun j => decide (wordMatches g v n j))) false w := by
  induction before with
  | nil => intro foundWord; right; simp
  | cons j before ih =>
    intro foundWord
    have ih' := ih (fun k hk => hbefore k (List.mem_cons_of_mem _ hk))
    have hj := hbefore j (List.mem_cons_self _ _)
    rw [List.cons_append, runActionsLoop]
    cases hverb : getActionVerb g j with
    | panic => exact Or.inl rfl
    | exit w1 => exact (Result.Holds_exit (getActionVerb_no_exit g j) hverb).elim
    | ok actionVerb =>
      cases hnoun : getActionNoun g j with
      | panic => exact Or.inl rfl
      | exit w1 => exact (Result.Holds_exit (getActionNoun_no_exit g j) hnoun).elim
      | ok actionNoun =>
        have hiff := wordMatches_iff g v n j actionVerb actionNoun hverb hnoun
        simp only [Result.ok_bind, runContAction_clear g j actionVerb actionNoun w hflag,
          runAutAction_word g v j actionVerb actionNoun w (ne_of_gt hv), Result.pure_eq]
        by_cases hmatch : actionVerb = v ∧ (actionNoun = 0 ∨ actionNoun = n)
        · have hword : wordMatches g v n j := hiff.mpr hmatch
          obtain ⟨hav, han⟩ := hmatch
          subst hav
          rw [runWordAction_match g actionVerb n j actionNoun foundWord w hv hflag han]
          cases hcond : evaluateConditions g j w with
          | panic => exact Or.inl rfl
          | exit w1 => exact (Result.Holds_exit (evaluateConditions_no_exit g j w) hcond).elim
          | ok holds =>
            cases holds with
            | true => exact absurd ⟨hword, hcond⟩ hj
            | false =>
              rcases ih' true with h | h
              · exact Or.inl h
              · right
                simp only [Result.ok_bind, Result.pure_eq] at h ⊢
                simpa [hword] using h
        · have hword : ¬ wordMatches g v n j := fun h => hmatch (hiff.mp h)
          rw [runWordAction_other g v n j actionVerb actionNoun foundWord false w hflag hmatch]
          rcases ih' foundWord with h | h
          · exact Or.inl h
          · right
            simp only [Result.ok_bind, Result.pure_eq] at h ⊢
            simpa [hword] using h

theorem append_cons_ne_self {α : Type} (l rest : List α) (x : α) : l ++ x :: rest ≠ l := by
  intro h
  have hlen := congrArg List.length h
  simp at hlen

/-- A scan that meets an eligible action executes an action. -/
theorem runActionsLoop_eligible_logs (g : Game) (v n : Int) (hv : v > 0) (w : World)
    (hflag : w.contFlag = false) (actions : List Int) :
    ∀ foundWord, (∃ j ∈ actions, eligible g v n j w) →
      (runActionsLoop g v n actions foundWord false w).Holds
        (fun w' => w'.executed ≠ w.executed) (fun w' => w'.executed ≠ w.executed) := by
  induction actions with
  | nil => rintro foundWord ⟨j, hj, _⟩; cases hj
  | cons i actions ih =>
    rintro foundWord ⟨j, hj, hel⟩
    by_cases hi : eligible g v n i w
    · rw [runActionsLoop_match g v n hv w hflag i actions hi foundWord]
      refine Result.Holds_bind
        (Result.Holds_mono_to (fun w1 => w1.executed = w.executed ++ [i]) _
          (runCommands_logs g i w) (fun _ h => h.2)
          (fun w1 h => by rw [h.2]; exact append_cons_ne_self _ _ _)) ?_
      intro w1 h1
      have htail : ∀ w3, scanLog g v n true w1 w3 → w3.executed ≠ w.executed := by
        rintro w3 ⟨_, rest, he, _⟩
        rw [he, h1, List.append_assoc, List.singleton_append]
        exact append_cons_ne_self _ _ _
      split
      · show w1.executed ≠ w.executed
        rw [h1]; exact append_cons_ne_self _ _ _
      · exact Result.Holds_mono
          (runActionsLoop_scanLog g v n (ne_of_gt hv) actions true true w1) htail htail
    · have hrest : ∃ j ∈ actions, eligible g v n j w := by
        rcases List.mem_cons.mp hj with h | h
        · subst h; exact absurd hel hi
        · exact ⟨j, h, hel⟩
      have hskip := runActionsLoop_skip_found g v n hv w hflag actions [i]
        (fun k hk => by rw [List.mem_singleton.mp hk]; exact hi) foundWord
      rw [List.singleton_append] at hskip
      rcases hskip with h | h
      · rw [h]; trivial
      · rw [h]; exact ih _ hrest

/-- C21 (counterexample): `nounGame` has an action for verb 2, with noun 3,
and its conditions are never looked at in the call for verb 2 and noun 4;
no action is executed and the report is that the command is not understood. -/
theorem unmatched_noun_not_understood :
    getActionVerb nounGame 0 = .ok 2 ∧ getActionNoun nounGame 0 = .ok 3 ∧
    runActions nounGame 2 4 demoWorld
      = .ok (print demoWorld "I don't understand your command\n") ∧
    (print demoWorld "I don't understand your command\n").executed = demoWorld.executed := by
  decide!

/-- C21 (amended): a call `runActions(v, n)` with `v > 0`, `v` neither
CARRY nor DROP, other than GO with a direction, that ends without having
executed an action returns after one report: "I can't do that yet" if some
action has verb `v` and noun 0 or `n`, "I don't understand your command"
otherwise. -/
theorem unmatched_command_report (g : Game) (v n : Int) (w w' : World) (hv : v > 0)
    (hcarry : v ≠ VERB_CARRY) (hdrop : v ≠ VERB_DROP)
    (hgo : ¬ (v = VERB_GO ∧ n ≤ DIRECTION_NOUNS))
    (hrun : runActions g v n w = .ok w' ∨ runActions g v n w = .exit w')
    (hnone : w'.executed = w.executed) :
    ((∃ j ∈ actionIds g, wordMatches g v n j) →
      runActions g v n w = .ok (print { w with contFlag := false } "I can't do that yet\n")) ∧
    ((¬ ∃ j ∈ actionIds g, wordMatches g v n j) →
      runActions g v n w
        = .ok (print { w with contFlag := false } "I don't understand your command\n")) := by
  have hscan : runActions g v n w
      = runActionsLoop g v n (actionIds g) false false { w with contFlag := false } := by
    unfold runActions
    rw [if_neg hgo]
  have hnot : ∀ j ∈ actionIds g, ¬ eligible g v n j { w with contFlag := false } := by
    intro j hj hel
    have hlog := runActionsLoop_eligible_logs g v n hv { w with contFlag := false } rfl
      (actionIds g) false ⟨j, hj, hel⟩
    rw [← hscan] at hlog
    rcases hrun with h | h
    · exact Result.Holds_ok hlog h hnone
    · exact Result.Holds_exit hlog h hnone
  have hskip := runActionsLoop_skip_found g v n hv { w with contFlag := false } rfl []
    (actionIds g) hnot false
  rw [List.append_nil, ← hscan] at hskip
  have hend : ∀ foundWord : Bool,
      runActionsLoop g v n [] foundWord false { w with contFlag := false }
        = .ok (print { w with contFlag := false }
            (if foundWord then "I can't do that yet\n"
             else "I don't understand your command\n")) := by
    intro foundWord
    rw [runActionsLoop]
    unfold runActionsEnd
    rw [if_neg (ne_of_gt hv)]
    simp only [if_true, handleCarryAndDropVerb, hcarry, hdrop, ne_eq, not_false_eq_true,
      and_self, Result.pure_eq, Result.ok_bind]
    cases foundWord <;> simp
  rcases hskip with hp | heq
  · rw [hp] at hrun
    rcases hrun with h | h <;> cases h
  · rw [hend] at heq
    constructor
    · rintro ⟨j, hj, hm⟩
      have hany : (actionIds g).any (fun j => decide (wordMatches g v n j)) = true :=
        List.any_eq_true.mpr ⟨j, hj, by simpa using hm⟩
      rw [heq, hany]
      rfl
    · intro hno
      have hany : (actionIds g).any (fun j => decide (wordMatches g v n j)) = false := by
        rw [Bool.eq_false_iff]
        intro h
        obtain ⟨j, hj, hm⟩ := List.any_eq_true.mp h
        exact hno ⟨j, hj, by simpa using hm⟩
      rw [heq, hany]
      rfl

/-- C21 (amended) in `lockedGame`, where verb 2 with noun 3 has an action
that is not eligible in room 1, and in `nounGame`, where verb 2 with noun 4
has none. -/
theorem unmatched_command_report_witness :
    runActions lockedGame 2 3 demoWorld
      = .ok (print { demoWorld with contFlag := false } "I can't do that yet\n") ∧
    runActions nounGame 2 4 demoWorld
      = .ok (print { demoWorld with contFlag := false }
          "I don't understand your command\n") :=
  ⟨(unmatched_command_report lockedGame 2 3 demoWorld
      (print demoWorld "I can't do that yet\n") (by decide) (by decide) (by decide)
      (by decide) (Or.inl (by decide!)) (by decide)).1 ⟨0, by decide, by decide⟩,
   (unmatched_command_report nounGame 2 4 demoWorld
      (print demoWorld "I don't understand your command\n") (by decide) (by decide)
      (by decide) (by decide) (Or.inl (by decide!)) (by decide)).2 (by decide)⟩

/-! ## Saved games: the round trip -/

theorem index_append_cons {α : Type} (pre post : List α) (x : α) :
    index (pre ++ x :: post) pre.length = some x := by
  have hneg : ¬ ((pre.length : Int) < 0) := by omega
  have hget : (pre ++ x :: post)[pre.length]? = some x := by
    induction pre with
    | nil => simp
    | cons head pre ih => simpa using ih
  simp only [index, hneg, if_false, Int.toNat_ofNat]
  exact hget

theorem index_at {α : Type} (s pre post : List α) (x : α) (i : Int)
    (hs : s = pre ++ x :: post) (hi : i = pre.length) : index s i = some x := by
  rw [hs, hi]
  exact index_append_cons pre post x

/-- A loop of `loadGame` over a slice as long as the run `values` of the
saved sequence that starts at its offset reads that run. -/
theorem loadGameLoop_reads {α β : Type} (convert : Int → β) (pre post : List Int)
    (values : List Int) :
    ∀ (slice : List α) (done : List Int), slice.length = values.length →
      loadGameLoop convert (pre ++ done ++ values ++ post) pre.length slice done.length
        = .ok (values.map convert) := by
  induction values with
  | nil =>
    intro slice done hlen
    have hnil : slice = [] := List.length_eq_zero.mp hlen
    subst hnil
    rfl
  | cons value values ih =>
    intro slice done hlen
    cases slice with
    | nil => cases hlen
    | cons head slice =>
      have hlen' : slice.length = values.length := by simpa using hlen
      have hread : index (pre ++ done ++ value :: values ++ post)
          ((done.length : Int) + pre.length) = some value := by
        have h := index_append_cons (pre ++ done) (values ++ post) value
        have hsum : (((pre ++ done).length : Nat) : Int) = (done.length : Int) + pre.length := by
          simp; omega
        rw [hsum] at h
        simpa using h
      have hnext := ih slice (done ++ [value]) hlen'
      have hshape : pre ++ (done ++ [value]) ++ values ++ post
          = pre ++ done ++ value :: values ++ post := by simp
      have hcount : (((done ++ [value]).length : Nat) : Int) = (done.length : Int) + 1 := by
        simp
      rw [hshape, hcount] at hnext
      rw [loadGameLoop, hread]
      simp only [orPanic_some, Result.ok_bind, hnext, Result.pure_eq, List.map_cons]

/-- A loop of `loadGame` from index 0 over a slice as long as the run
`values` that starts at `offset` in the saved sequence reads that run. -/
theorem loadGameLoop_run {α β : Type} (convert : Int → β) (saveData pre values post : List Int)
    (slice : List α) (offset : Int) (hdata : saveData = pre ++ values ++ post)
    (hoffset : offset = pre.length) (hlen : slice.length = values.length) :
    loadGameLoop convert saveData offset slice 0 = .ok (values.map convert) := by
  have h := loadGameLoop_reads convert pre post values slice [] hlen
  rw [hdata, hoffset]
  simpa using h

theorem intToBool_boolSliceToIntSlice (flags : List Bool) :
    (boolSliceToIntSlice flags).map intToBool = flags := by
  induction flags with
  | nil => rfl
  | cons flag flags ih =>
    have htail : (boolSliceToIntSlice flags).map intToBool = flags := ih
    cases flag <;> simp [boolSliceToIntSlice, intToBool, FALSE_VALUE] at htail ⊢ <;>
      exact htail

/-- C22: `saveGame` writes the sequence adventureVersion, adventureNumber,
currentRoom, alternateRoom, counterRegister, alternateCounter,
objectLocation, statusFlag as 0/1; and `loadGame` on that sequence, for the
same database and from any world whose four slices have the lengths of the
saved ones, returns true with currentRoom, alternateRoom, counterRegister,
alternateCounter, objectLocation and statusFlag equal to the saved values. -/
theorem save_load_round_trip (g : Game) (w before : World) (saveFileName : String)
    (hrooms : before.alternateRoom.length = w.alternateRoom.length)
    (hcounters : before.alternateCounter.length = w.alternateCounter.length)
    (hobjects : before.objectLocation.length = w.objectLocation.length)
    (hflags : before.statusFlag.length = w.statusFlag.length) :
    (saveGame g w).saved
      = w.saved ++ [[g.adventureVersion, g.adventureNumber, w.currentRoom]
          ++ w.alternateRoom ++ [w.counterRegister] ++ w.alternateCounter
          ++ w.objectLocation ++ w.statusFlag.map (fun flag => if flag then 1 else 0)] ∧
    loadGame g saveFileName
        (some ([g.adventureVersion, g.adventureNumber, w.currentRoom]
          ++ w.alternateRoom ++ [w.counterRegister] ++ w.alternateCounter
          ++ w.objectLocation ++ w.statusFlag.map (fun flag => if flag then 1 else 0)))
        before
      = .ok (true,
          { before with currentRoom := w.currentRoom, alternateRoom := w.alternateRoom,
                        counterRegister := w.counterRegister,
                        alternateCounter := w.alternateCounter,
                        objectLocation := w.objectLocation, statusFlag := w.statusFlag,
                        output := before.output ++ ["Name of save file:\n"] }) := by
  refine ⟨rfl, ?_⟩
  generalize hS : [g.adventureVersion, g.adventureNumber, w.currentRoom]
      ++ w.alternateRoom ++ [w.counterRegister] ++ w.alternateCounter
      ++ w.objectLocation ++ w.statusFlag.map (fun flag => if flag then (1 : Int) else 0) = S
  have e0 : index S 0 = some g.adventureVersion := by rw [← hS]; simp [index]
  have e1 : index S 1 = some g.adventureNumber := by rw [← hS]; simp [index]
  have e2 : index S 2 = some w.currentRoom := by rw [← hS]; simp [index]
  have eRooms : loadGameLoop id S 3 before.alternateRoom 0 = .ok w.alternateRoom := by
    have h := loadGameLoop_run id S [g.adventureVersion, g.adventureNumber, w.currentRoom]
      w.alternateRoom ([w.counterRegister] ++ w.alternateCounter ++ w.objectLocation
        ++ w.statusFlag.map (fun flag => if flag then (1 : Int) else 0))
      before.alternateRoom 3 (by simp [← hS]) (by simp) hrooms
    simpa using h
  have eCounter : index S (3 + (w.alternateRoom.length : Int)) = some w.counterRegister :=
    index_at S ([g.adventureVersion, g.adventureNumber, w.currentRoom] ++ w.alternateRoom)
      (w.alternateCounter ++ w.objectLocation
        ++ w.statusFlag.map (fun flag => if flag then (1 : Int) else 0))
      w.counterRegister _ (by simp [← hS]) (by simp; omega)
  have eCounters : loadGameLoop id S (4 + (w.alternateRoom.length : Int))
      before.alternateCounter 0 = .ok w.alternateCounter := by
    have h := loadGameLoop_run id S
      ([g.adventureVersion, g.adventureNumber, w.currentRoom] ++ w.alternateRoom
        ++ [w.counterRegister])
      w.alternateCounter (w.objectLocation
        ++ w.statusFlag.map (fun flag => if flag then (1 : Int) else 0))
      before.alternateCounter (4 + (w.alternateRoom.length : Int))
      (by simp [← hS]) (by simp; omega) hcounters
    simpa using h
  have eObjects : loadGameLoop id S
      (4 + (w.alternateRoom.length : Int) + (w.alternateCounter.length : Int))
      before.objectLocation 0 = .ok w.objectLocation := by
    have h := loadGameLoop_run id S
      ([g.adventureVersion, g.adventureNumber, w.currentRoom] ++ w.alternateRoom
        ++ [w.counterRegister] ++ w.alternateCounter)
      w.objectLocation (w.statusFlag.map (fun flag => if flag then (1 : Int) else 0))
      before.objectLocation
      (4 + (w.alternateRoom.length : Int) + (w.alternateCounter.length : Int))
      (by simp [← hS]) (by simp; omega) hobjects
    simpa using h
  have eFlags : loadGameLoop intToBool S
      (4 + (w.alternateRoom.length : Int) + (w.alternateCounter.length : Int)
        + (w.objectLocation.length : Int))
      before.statusFlag 0 = .ok w.statusFlag := by
    have h := loadGameLoop_run intToBool S
      ([g.adventureVersion, g.adventureNumber, w.currentRoom] ++ w.alternateRoom
        ++ [w.counterRegister] ++ w.alternateCounter ++ w.objectLocation)
      (w.statusFlag.map (fun flag => if flag then (1 : Int) else 0)) []
      before.statusFlag
      (4 + (w.alternateRoom.length : Int) + (w.alternateCounter.length : Int)
        + (w.objectLocation.length : Int))
      (by simp [← hS]) (by simp; omega) (by simp [hflags])
    have hback := intToBool_boolSliceToIntSlice w.statusFlag
    unfold boolSliceToIntSlice at hback
    rw [hback] at h
    exact h
  unfold loadGame
  simp only [print, e0, e1, e2, eRooms, eCounter, eCounters, eObjects, eFlags, orPanic_some,
    Result.ok_bind, ne_eq, not_true_eq_false, if_false, Result.pure_eq]

/-- C22 on the sample world: the sequence saved from `demoWorld` is read back
into `lampWorld` with the lengths made equal. -/
theorem save_load_round_trip_witness :
    (saveGame demoGame demoWorld).saved
      = [[416, 1, 1, 0, 0, 0, 0, 0, 0, 0, 0, 0, 0, 0, 0, 0, 0, 0, 125, 2, -1, 2, 1, 3]
          ++ List.replicate 32 0] ∧
    loadGame demoGame "save"
        (some ([416, 1, 1, 0, 0, 0, 0, 0, 0, 0, 0, 0, 0, 0, 0, 0, 0, 0, 125, 2, -1, 2, 1, 3]
          ++ List.replicate 32 0))
        { lampWorld with currentRoom := 3, counterRegister := 9,
                         objectLocation := [0, 0, 0, 0, 0] }
      = .ok (true,
          { lampWorld with currentRoom := 1, counterRegister := 0,
                           alternateCounter := [0, 0, 0, 0, 0, 0, 0, 0, 125],
                           objectLocation := [2, -1, 2, 1, 3],
                           statusFlag := List.replicate 32 false,
                           output := ["Name of save file:\n"] }) :=
  save_load_round_trip demoGame demoWorld
    { lampWorld with currentRoom := 3, counterRegister := 9,
                     objectLocation := [0, 0, 0, 0, 0] } "save"
    (by decide) (by decide) (by decide) (by decide)

/-! ## Saved games: a save of another database -/

/-- C23: when the first saved integer is not `adventureVersion`, or it is
and the second is not `adventureNumber`, `loadGame` returns false and the
world is the one before the call but for the two lines printed. -/
theorem load_mismatch_leaves_state (g : Game) (saveFileName : String) (saveData : List Int)
    (w : World) (first : Int) (hfirst : index saveData 0 = some first)
    (hmismatch : first ≠ g.adventureVersion ∨
      ∃ second, index saveData 1 = some second ∧ second ≠ g.adventureNumber) :
    ∃ report, loadGame g saveFileName (some saveData) w
      = .ok (false, { w with output := w.output ++ ["Name of save file:\n", report] }) := by
  unfold loadGame
  by_cases hversion : first = g.adventureVersion
  · rcases hmismatch with h | ⟨second, hsecond, hnumber⟩
    · exact absurd hversion h
    · refine ⟨"Invalid savegame adventure number\n", ?_⟩
      simp [print, hfirst, hsecond, hversion, hnumber, orPanic_some, Result.ok_bind,
        Result.pure_eq]
  · refine ⟨"Invalid savegame version\n", ?_⟩
    simp [print, hfirst, hversion, orPanic_some, Result.ok_bind, Result.pure_eq]

/-- C23 on the sample world: a save of version 415, and a save of version 416
and adventure 2, read for the database of version 416 and adventure 1. -/
theorem load_mismatch_leaves_state_witness :
    (∃ report, loadGame demoGame "save" (some [415, 1, 3]) demoWorld
      = .ok (false,
          { demoWorld with output := demoWorld.output ++ ["Name of save file:\n", report] })) ∧
    ∃ report, loadGame demoGame "save" (some [416, 2, 3]) demoWorld
      = .ok (false,
          { demoWorld with output := demoWorld.output ++ ["Name of save file:\n", report] }) :=
  ⟨load_mismatch_leaves_state demoGame "save" [415, 1, 3] demoWorld 415 (by decide)
      (Or.inl (by decide)),
   load_mismatch_leaves_state demoGame "save" [416, 2, 3] demoWorld 416 (by decide)
      (Or.inr ⟨2, by decide, by decide⟩)⟩

/-! ## Conditions on the original location -/

theorem evaluateConditionsLoop_notOrig (g : Game) (a : Int) (w : World) (condition : Int)
    (hcode : getConditionCode g a condition = .ok 18) (conditions : List Int)
    (hmem : condition ∈ conditions) :
    evaluateConditionsLoop g a w conditions ≠ .ok true := by
  induction conditions with
  | nil => cases hmem
  | cons head conditions ih =>
    unfold evaluateConditionsLoop
    cases hhead : getConditionCode g a head with
    | panic => intro h; cases h
    | exit w1 => intro h; cases h
    | ok code =>
      cases getConditionParameter g a head with
      | panic => intro h; cases h
      | exit w1 => intro h; cases h
      | ok parameter =>
        simp only [Result.ok_bind]
        cases hpredicate : index conditionFunction code with
        | none => intro h; cases h
        | some predicate =>
          simp only [orPanic_some, Result.ok_bind]
          cases hholds : predicate parameter w with
          | panic => intro h; cases h
          | exit w1 => intro h; cases h
          | ok holds =>
            cases holds with
            | false => intro h; cases h
            | true =>
              simp only [Result.ok_bind, Bool.not_true, Bool.false_eq_true, if_false]
              rcases List.mem_cons.mp hmem with heq | htail
              · subst heq
                rw [hcode] at hhead
                have hcode18 : code = 18 := (Result.ok.inj hhead).symm
                subst hcode18
                have hpred : predicate = condNotORIG := by
                  have h18 : index conditionFunction 18 = some condNotORIG := rfl
                  rw [h18] at hpredicate
                  exact (Option.some.inj hpredicate).symm
                subst hpred
                unfold condNotORIG at hholds
                cases hloc : index w.objectLocation parameter with
                | none => rw [hloc] at hholds; cases hholds
                | some location =>
                  rw [hloc] at hholds
                  simp [orPanic_some, Result.ok_bind, Result.pure_eq] at hholds
              · exact ih htail

/-- C25: for an object id in range, condition 17 (ORIG) holds and condition
18 (-ORIG) fails in every world; an action with code 18 in one of its five
condition slots never has its conditions hold; and the conditions of an
action are the same whatever the table `objectOriginalLocation` is. -/
theorem orig_conditions_ignore_original :
    index conditionFunction 17 = some condORIG ∧
    index conditionFunction 18 = some condNotORIG ∧
    (∀ (w : World) (object location : Int), index w.objectLocation object = some location →
      condORIG object w = .ok true ∧ condNotORIG object w = .ok false) ∧
    (∀ (g : Game) (a : Int) (w : World) (condition : Int), condition ∈ [1, 2, 3, 4, 5] →
      getConditionCode g a condition = .ok 18 → evaluateConditions g a w ≠ .ok true) ∧
    (∀ (g : Game) (original : List Int) (a : Int) (w : World),
      evaluateConditions { g with objectOriginalLocation := original } a w
        = evaluateConditions g a w) := by
  refine ⟨rfl, rfl, ?_, ?_, ?_⟩
  · intro w object location hloc
    simp [condORIG, condNotORIG, hloc, orPanic_some, Result.ok_bind, Result.pure_eq]
  · intro g a w condition hmem hcode
    exact evaluateConditionsLoop_notOrig g a w condition hcode _ hmem
  · intro g original a w
    rfl

/-- C25 on the sample data: object 0 of `demoWorld`, whose location 2 is its
original location in `demoGame`, and the same world with the object moved to
room 3; an action with `-ORIG 0` (slot value 18) as its only condition. -/
theorem orig_conditions_ignore_original_witness :
    (condORIG 0 demoWorld = .ok true ∧ condNotORIG 0 demoWorld = .ok false) ∧
    (condORIG 0 { demoWorld with objectLocation := [3, -1, 2, 1, 3] } = .ok true ∧
      condNotORIG 0 { demoWorld with objectLocation := [3, -1, 2, 1, 3] } = .ok false) ∧
    evaluateConditions { demoGame with actionData := [[300, 18, 0, 0, 0, 0, 150, 0]] } 0
      demoWorld ≠ .ok true :=
  ⟨orig_conditions_ignore_original.2.2.1 demoWorld 0 2 (by decide),
   orig_conditions_ignore_original.2.2.1
     { demoWorld with objectLocation := [3, -1, 2, 1, 3] } 0 3 (by decide),
   orig_conditions_ignore_original.2.2.2.1
     { demoGame with actionData := [[300, 18, 0, 0, 0, 0, 150, 0]] } 0 demoWorld 1
     (by decide) (by decide)⟩

/-! ## Commands: the codes past the table -/

/-- C26 fails on the code: the command table has 37 entries, so the codes 52
to 88 run the entry `code - 52`, and every code from 89 to 101 makes
`executeCommands` index the table out of range, a run-time panic. -/
theorem dispatch_past_table :
    commandFunction.length = 37 ∧
    (∀ (g : Game) (a : Int) (c : Bool) (w : World) (code : Int), 52 ≤ code → code ≤ 88 →
      ∃ command, index commandFunction (code - 52) = some command ∧
        executeCommand g a code c w = command g a c w) ∧
    (∀ (g : Game) (a : Int) (c : Bool) (w : World) (code : Int), 89 ≤ code → code ≤ 101 →
      index commandFunction (code - 52) = none ∧ executeCommand g a code c w = .panic) := by
  refine ⟨rfl, ?_, ?_⟩
  · intro g a c w code h52 h88
    interval_cases code <;> exact ⟨_, rfl, rfl⟩
  · intro g a c w code h89 h101
    interval_cases code <;> exact ⟨rfl, rfl⟩

/-- C26 at the codes 88 and 89, and the run of the commands of an action
whose first command code is 89. -/
theorem dispatch_past_table_witness :
    (∃ command, index commandFunction (88 - 52) = some command ∧
      executeCommand demoGame 0 88 true demoWorld = command demoGame 0 true demoWorld) ∧
    (index commandFunction (89 - 52) = none ∧
      executeCommand pastTableGame 0 89 true demoWorld = .panic) ∧
    decodeCommandFromData pastTableGame 0 0 = .ok 89 ∧
    executeCommands pastTableGame 0 demoWorld = .panic :=
  ⟨dispatch_past_table.2.1 demoGame 0 true demoWorld 88 (by decide) (by decide),
   dispatch_past_table.2.2 pastTableGame 0 true demoWorld 89 (by decide) (by decide),
   by decide, by decide!⟩

/-! ## The built-in get and drop: a short noun -/

/-- C27 fails on the code: for CARRY or DROP with noun id 0,
`handleCarryAndDropVerb` calls `nounIsInObject`, which slices
`globalNoun[:wordLength]`; with a noun token shorter than `wordLength`, the
empty token included, that is a run-time panic. -/
theorem carry_short_noun_panics (g : Game) (w : World) (inputVerb : Int)
    (hverb : inputVerb = VERB_CARRY ∨ inputVerb = VERB_DROP)
    (hshort : len w.globalNoun < g.wordLength) :
    nounIsInObject g w = .panic ∧ handleCarryAndDropVerb g inputVerb 0 w = .panic := by
  have hslice : sliceTo w.globalNoun g.wordLength = none := by
    unfold sliceTo
    unfold len at hshort
    have hneg : ¬ g.wordLength < 0 := by omega
    have hlong : ¬ g.wordLength.toNat ≤ w.globalNoun.data.length := by omega
    rw [if_neg hneg, if_neg hlong]
  have hnoun : nounIsInObject g w = .panic := by
    unfold nounIsInObject
    rw [hslice]
    rfl
  refine ⟨hnoun, ?_⟩
  have hguard : ¬ (inputVerb ≠ VERB_CARRY ∧ inputVerb ≠ VERB_DROP) := by
    rintro ⟨h1, h2⟩
    rcases hverb with h | h
    · exact h1 h
    · exact h2 h
  unfold handleCarryAndDropVerb
  rw [if_neg hguard]
  simp only [if_true, hnoun]
  rfl

/-- C27 in `demoGame`, whose word length is 3, with the empty noun token:
the built-in CARRY panics, and so does the call of the dispatcher for
CARRY. -/
theorem carry_short_noun_panics_witness :
    (nounIsInObject demoGame demoWorld = .panic ∧
      handleCarryAndDropVerb demoGame VERB_CARRY 0 demoWorld = .panic) ∧
    runActions demoGame VERB_CARRY 0 demoWorld = .panic :=
  ⟨carry_short_noun_panics demoGame demoWorld VERB_CARRY (Or.inl rfl) (by decide),
   by decide!⟩

/-! ## Darkness: movement and display -/

/-- C28 fails on the code: `handleGoVerb` tests the location of the light
source against 1 where `showRoomDescription` tests it against -1, the
inventory.  At night, with the light source carried, `showRoomDescription`
describes the room, and `handleGoVerb` on a missing exit reports the fall and
moves the player to the last room. -/
theorem go_dark_with_carried_light (g : Game) (w : World) (direction destination : Int)
    (exits : List Int) (flags : List Bool)
    (hnight : index w.statusFlag FLAG_NIGHT = some true)
    (hlight : index w.objectLocation LIGHT_SOURCE_ID = some ROOM_INVENTORY)
    (hroom : w.currentRoom ≠ ROOM_INVENTORY)
    (hword : index w.foundWord 1 = some direction) (hdirection : 1 ≤ direction)
    (hexits : index g.roomExit w.currentRoom = some exits)
    (hdestination : index exits (direction - 1) = some destination)
    (hmissing : destination < 1)
    (hflags : assign w.statusFlag FLAG_NIGHT false = some flags) :
    showRoomDescription g w = showRoomLit g w ∧
    handleGoVerb g w
      = showRoomDescription g
          { w with output := w.output ++ ["Dangerous to move in the dark!\n",
                                          "I fell down and broke my neck.\n"],
                   statusFlag := flags, currentRoom := g.numberOfRooms } := by
  constructor
  · unfold showRoomDescription
    simp [hnight, hlight, orPanic_some, Result.ok_bind]
  · have hdark : ROOM_INVENTORY ≠ w.currentRoom ∧ ROOM_INVENTORY ≠ 1 :=
      ⟨fun h => hroom h.symm, by decide⟩
    have hnot : ¬ direction < 1 := by omega
    unfold handleGoVerb
    simp [hnight, hlight, hdark, print, hword, hnot, hexits, hdestination, hmissing, hflags,
      orPanic_some, Result.ok_bind, Result.pure_eq]

/-- C28 in `demoGame` at night with the light source carried: room 1 is
described, and going EAST, where room 1 has no exit, ends in room 3, the last
room. -/
theorem go_dark_with_carried_light_witness :
    showRoomDescription demoGame nightWorld = showRoomLit demoGame nightWorld ∧
    handleGoVerb demoGame nightWorld
      = showRoomDescription demoGame
          { nightWorld with
            output := nightWorld.output ++ ["Dangerous to move in the dark!\n",
                                            "I fell down and broke my neck.\n"],
            statusFlag := List.replicate 32 false, currentRoom := demoGame.numberOfRooms } :=
  go_dark_with_carried_light demoGame nightWorld 3 0 [2, 0, 0, 0, 0, 0]
    (List.replicate 32 false) (by decide) (by decide) (by decide) (by decide) (by decide)
    (by decide) (by decide) (by decide) (by decide)

/-! ## The parameter cursor: past the condition slots -/

/-- C29 fails on the code: the loop of `getCommandParameter` has no bound.
From the cursor 1 in a record whose five condition slots hold no code-0
entry, it takes the parameter from the command slot 6 when that slot reads as
a code-0 entry, and it indexes past the end of the record when neither
command slot does. -/
theorem parameter_read_past_conditions (g : Game) (a : Int) (w : World)
    (header c1 c2 c3 c4 c5 s6 s7 : Int)
    (hrecord : index g.actionData a = some [header, c1, c2, c3, c4, c5, s6, s7])
    (hcursor : w.commandParameterIndex = 1)
    (h1 : c1.tmod 20 ≠ 0) (h2 : c2.tmod 20 ≠ 0) (h3 : c3.tmod 20 ≠ 0) (h4 : c4.tmod 20 ≠ 0)
    (h5 : c5.tmod 20 ≠ 0) :
    (s6.tmod 20 = 0 →
      getCommandParameter g a w
        = .ok { w with commandParameter := s6.tdiv 20, commandParameterIndex := 7 }) ∧
    (s6.tmod 20 ≠ 0 → s7.tmod 20 ≠ 0 → getCommandParameter g a w = .panic) := by
  have hloop : getCommandParameter g a w
      = getCommandParameterLoop [c1, c2, c3, c4, c5, s6, s7] w := by
    rw [getCommandParameter_eq_loop g a _ w hrecord (by omega), hcursor]
    rfl
  rw [hloop]
  constructor
  · intro h6
    simp only [getCommandParameterLoop, CONDITION_DIVISOR, PAR_CONDITION_CODE, sub_tdiv_mul,
      h1, h2, h3, h4, h5, h6, ne_eq, not_false_eq_true, not_true_eq_false, if_true, if_false,
      hcursor]
    rfl
  · intro h6 h7
    simp only [getCommandParameterLoop, CONDITION_DIVISOR, PAR_CONDITION_CODE, sub_tdiv_mul,
      h1, h2, h3, h4, h5, h6, h7, ne_eq, not_false_eq_true, if_true]

/-- C29 in `noParameterGame`, where the parameter 390 is taken from the
command slot 6, which holds `52 * 150`, and in `noSentinelGame`, where the
read runs off the record. -/
theorem parameter_read_past_conditions_witness :
    getCommandParameter noParameterGame 0 { demoWorld with commandParameterIndex := 1 }
      = .ok { demoWorld with commandParameter := 390, commandParameterIndex := 7 } ∧
    getCommandParameter noSentinelGame 0 { demoWorld with commandParameterIndex := 1 }
      = .panic :=
  ⟨(parameter_read_past_conditions noParameterGame 0
      { demoWorld with commandParameterIndex := 1 } 0 1 1 1 1 1 7800 0 (by decide) rfl
      (by decide) (by decide) (by decide) (by decide) (by decide)).1 (by decide),
   (parameter_read_past_conditions noSentinelGame 0
      { demoWorld with commandParameterIndex := 1 } 0 1 1 1 1 1 1 1 (by decide) rfl
      (by decide) (by decide) (by decide) (by decide) (by decide)).2 (by decide) (by decide)⟩

/-! ## Database loader: malformed text -/

theorem matchNumber_none (s : List Char) (hdigits : ∀ c ∈ s, isDigit c = false) :
    matchNumber s = none := by
  unfold matchNumber
  have htake : ∀ t : List Char, (∀ c ∈ t, isDigit c = false) → t.takeWhile isDigit = [] := by
    intro t ht
    cases t with
    | nil => rfl
    | cons c t => simp [List.takeWhile, ht c (List.mem_cons_self _ _)]
  have hrest : (if s.head? = some '-' then s.drop 1 else s).takeWhile isDigit = [] := by
    apply htake
    intro c hc
    split at hc
    · exact hdigits c (List.mem_of_mem_drop hc)
    · exact hdigits c hc
  simp only [hrest]
  rfl

theorem intPattern_none (s : List Char) (hdigits : ∀ c ∈ s, isDigit c = false) :
    intPattern s = none := by
  unfold intPattern
  apply matchNumber_none
  intro c hc
  exact hdigits c ((List.dropWhile_sublist _).subset hc)

theorem findFirst_intPattern_none (s : List Char) (hdigits : ∀ c ∈ s, isDigit c = false) :
    findFirst intPattern s = none := by
  induction s with
  | nil => exact intPattern_none [] hdigits
  | cons c s ih =>
    unfold findFirst
    rw [intPattern_none (c :: s) hdigits]
    exact ih (fun d hd => hdigits d (List.mem_cons_of_mem _ hd))

theorem loadGameDataFile_text (fileContent : String) :
    loadGameDataFile (some fileContent)
      = orPanic (loadTables fileContent) >>= fun loaded => pure (some loaded) := rfl

/-- C24 (counterexample): the empty text, and a text that holds a word where
the first number is expected, are loaded without an error. -/
theorem loader_accepts_malformed_text :
    loadGameDataFile (some "") = .ok (some emptyLoaded) ∧
    loadGameDataFile (some "adventure") = .ok (some emptyLoaded) := by
  decide!

/-- C24 (amended): `loadGameDataFile` returns an error exactly when the file
cannot be read.  On a text it never returns an error: `extractInt` on a text
without a digit gives 0 and leaves the text as it is. -/
theorem loader_reports_read_errors_only :
    loadGameDataFile none = .ok none ∧
    (∀ fileContent : String, loadGameDataFile (some fileContent) ≠ .ok none) ∧
    (∀ s : List Char, (∀ c ∈ s, isDigit c = false) → extractInt s = (0, s)) := by
  refine ⟨rfl, ?_, ?_⟩
  · intro fileContent h
    rw [loadGameDataFile_text] at h
    cases hl : loadTables fileContent with
    | none =>
      rw [hl] at h
      cases h
    | some loaded =>
      rw [hl] at h
      simp [orPanic_some, Result.ok_bind, Result.pure_eq] at h
  · intro s hdigits
    unfold extractInt
    rw [findFirst_intPattern_none s hdigits]

/-- C24 (amended) on a text without a digit. -/
theorem loader_reports_read_errors_only_witness :
    extractInt "adventure".data = (0, "adventure".data) :=
  loader_reports_read_errors_only.2.2 "adventure".data (by decide)

end GoVerbYourNoun
